import Mathlib

/-!
Verification development for the detailed-placement legalization engine
(`dpo::DetailedMgr`, file `detailed_manager.cxx`).

Shallow embedding conventions:

* All coordinates are modelled as `ℤ`.  In the source, positions, row and
  segment bounds, widths and spacings are device-database units: `Node` and
  `Architecture` accessors return `int`, and every value the manager stores
  into a `double` (blockage interval endpoints, region interval endpoints,
  displacement magnitudes, DP costs) is produced from `int` inputs by `+`,
  `-`, `*` or by `originX + i * siteSpacing`, hence is integral and is
  represented exactly.  `(int)std::floor` / `(int)std::ceil` applied to such
  integral values are the identity and are elided where this provenance
  holds; where a genuine floor of a quotient occurs we use `Int.ediv`
  (= mathematical floor for a positive divisor) and for C integer division
  (truncation toward zero) we use `Int.tdiv`.
* C++ in-place mutation of the manager becomes explicit state passing on
  `DMState`.  `m_segments[i]->getSegId() == i` holds by construction in the
  source, so `DetailedSeg*` pointers are represented by store indices, and
  `Node*` pointers by node ids (indices into the node store).
* `internalError` terminates the process in the source; operations that can
  reach it are modelled in `Except String`.
* The headers `detailed_segment.h` / `detailed_node.h` and the
  `Architecture` / `Network` collaborators are not part of the reviewed
  sources.  Their accessors are modelled as record fields; constructions
  documented only by the specification are marked `Modelled from the spec:`
  at their definition sites.
-/

namespace dpo

/-- C integer division: truncation toward zero, as in `a / b` on `int`. -/
def cdiv (a b : ℤ) : ℤ := Int.tdiv a b

/-- `(int)std::ceil(a / b)` for integral `a`, `b` with `b > 0`:
the ceiling of the rational quotient. -/
def intCeilDiv (a b : ℤ) : ℤ := -((-a) / b)

/-- A placement cell (`Node`).  `spanned` models
`Architecture::getCellHeightInRows(nd)` (1 for single-height cells);
`origLeft`/`origBottom` are the recorded pre-legalization position
(`getOrigLeft`/`getOrigBottom`). -/
structure Node where
  id : Nat
  left : ℤ
  bottom : ℤ
  width : ℤ
  height : ℤ
  spanned : Nat
  regionId : ℤ
  origLeft : ℤ
  origBottom : ℤ
deriving Repr, DecidableEq, Inhabited

/-- `nd->getRight()`. -/
def Node.right (nd : Node) : ℤ := nd.left + nd.width

/-- `nd->getTop()`. -/
def Node.top (nd : Node) : ℤ := nd.bottom + nd.height

/-- `(int)std::ceil(nd->getWidth())`: widths are integral, so this is the
width itself. -/
def Node.widthCeil (nd : Node) : ℤ := nd.width

/-- Twice the x-center of a cell.  `compareNodesX` keys cells by
`getLeft() + 0.5 * getWidth()`; we compare doubled values, which is exact. -/
def Node.centerTwice (nd : Node) : ℤ := 2 * nd.left + nd.width

/-- One row of the architecture (read-only collaborator). -/
structure Row where
  bottom : ℤ
  top : ℤ
  height : ℤ
  left : ℤ
  right : ℤ
  siteSpacing : ℤ
  siteWidth : ℤ
deriving Repr, DecidableEq, Inhabited

/-- An axis-aligned rectangle (routing obstruction or region rectangle). -/
structure Rect where
  xmin : ℤ
  xmax : ℤ
  ymin : ℤ
  ymax : ℤ
deriving Repr, DecidableEq, Inhabited

/-- Routing information (`RoutingParams`), reduced to the fields the
manager reads: layer count and per-layer obstruction rectangles. -/
structure RoutingParams where
  numLayers : Nat
  layerBlockages : List (List Rect)
deriving Repr, Inhabited

/-- The `Architecture` collaborator, reduced to the queries the manager
performs.  `regions` is indexed by region id (region 0 is the default
region and carries no rectangles); `cellSpacing o₁ o₂` models
`Architecture::getCellSpacing(a, b)` with null pointers as `none`;
`powerCompatible` models `Architecture::power_compatible` (the `flip`
out-parameter is irrelevant to the embedded routines). -/
structure Architecture where
  rows : List Row
  minX : ℤ
  maxX : ℤ
  minY : ℤ
  maxY : ℤ
  regions : List (List Rect)
  cellSpacing : Option Node → Option Node → ℤ
  powerCompatible : Node → Row → Bool

/-- `m_arch->getRow(r)` (row pointers are never null in the source; we
return a default row out of range). -/
def Architecture.getRow (arch : Architecture) (r : Nat) : Row :=
  arch.rows.getD r default

/-- `m_numSingleHeightRows = m_arch->getNumRows()`. -/
def Architecture.numRows (arch : Architecture) : Nat := arch.rows.length

/-- `m_singleRowHeight = m_arch->getRow(0)->getHeight()`. -/
def Architecture.singleRowHeight (arch : Architecture) : ℤ :=
  (arch.getRow 0).height

/-- A row segment (`DetailedSeg`).  Modelled from the spec: the
`DetailedSeg` header is not part of the reviewed sources; per the spec a
fresh segment carries empty utilization and the default region id 0, and
the accessors are plain field reads/writes. -/
structure DetailedSeg where
  segId : Nat
  rowId : Nat
  regId : ℤ
  minX : ℤ
  maxX : ℤ
  util : ℤ
deriving Repr, DecidableEq, Inhabited

/-- `segPtr->getWidth()`. -/
def DetailedSeg.width (s : DetailedSeg) : ℤ := s.maxX - s.minX

/-! ## Blockage construction (`DetailedMgr::findBlockages`) -/

/-- Append an interval to row `r` of a per-row interval table. -/
def pushRow (tbl : List (List (ℤ × ℤ))) (r : Nat) (iv : ℤ × ℤ) :
    List (List (ℤ × ℤ)) :=
  tbl.set r (tbl.getD r [] ++ [iv])

/-- The site-snapped interval a rectangle `[xmin,xmax]` contributes to a row
with origin `originX` and pitch `siteSpacing`:
`i0 = floor((xmin-originX)/siteSpacing)`, `i1 = floor((xmax-originX)/siteSpacing)`
bumped by one unless `originX + i1*siteSpacing == xmax`; emitted only when
`i1 > i0`.  Used both for routing blockages and region intervals. -/
def siteSnappedInterval (originX siteSpacing xmin xmax : ℤ) :
    Option (ℤ × ℤ) :=
  let i0 := (xmin - originX) / siteSpacing
  let i1 := (xmax - originX) / siteSpacing
  let i1 := if originX + i1 * siteSpacing ≠ xmax then i1 + 1 else i1
  if i1 > i0 then some (originX + i0 * siteSpacing, originX + i1 * siteSpacing)
  else none

/-- The per-row blockage intervals contributed by the fixed cells: each
fixed cell's x-extent is clamped to the image, widened by the
cell-to-nothing spacing on both sides, and recorded in every row whose
y-span it overlaps. -/
def fixedCellBlockages (arch : Architecture) (fixedCells : List Node) :
    List (List (ℤ × ℤ)) :=
  fixedCells.foldl
    (fun tbl nd =>
      let xmin := max arch.minX nd.left - arch.cellSpacing none (some nd)
      let xmax := min arch.maxX nd.right + arch.cellSpacing (some nd) none
      let ymin := max arch.minY nd.bottom
      let ymax := min arch.maxY nd.top
      (List.range arch.numRows).foldl
        (fun tbl r =>
          let yb := (arch.getRow r).bottom
          let yt := (arch.getRow r).top
          if ¬ (ymin ≥ yt ∨ ymax ≤ yb) then pushRow tbl r (xmin, xmax)
          else tbl)
        tbl)
    (List.replicate arch.numRows [])

/-- Routing blockages from the bottom two layers, added for every row whose
full y-span `[minY + r*H, minY + (r+1)*H]` the rectangle covers. -/
def routeBlockages (arch : Architecture) (rt : RoutingParams)
    (tbl : List (List (ℤ × ℤ))) : List (List (ℤ × ℤ)) :=
  ((List.range 2).filter (· < rt.numLayers)).foldl
    (fun tbl layer =>
      (rt.layerBlockages.getD layer []).foldl
        (fun tbl rect =>
          (List.range arch.numRows).foldl
            (fun tbl (r : Nat) =>
              let lb := arch.minY + (r : ℤ) * arch.singleRowHeight
              let ub := lb + arch.singleRowHeight
              if rect.ymax ≥ ub ∧ rect.ymin ≤ lb then
                let originX := (arch.getRow r).left
                let ss := (arch.getRow r).siteSpacing
                match siteSnappedInterval originX ss rect.xmin rect.xmax with
                | some iv => pushRow tbl r iv
                | none => tbl
              else tbl)
            tbl)
        tbl)
    tbl

/-- Modelled from the spec: `compareBlockages` (header not in the reviewed
sources) orders intervals left to right, i.e. by their lower endpoint. -/
def blockagesLE (a b : ℤ × ℤ) : Bool := a.1 ≤ b.1

/-- The stack-based sweep that merges a sorted interval list: a new interval
is pushed when it starts beyond the top's end, otherwise the top is extended
to cover it. -/
def sweepMerge (sorted : List (ℤ × ℤ)) : List (ℤ × ℤ) :=
  match sorted with
  | [] => []
  | b0 :: rest =>
      rest.foldl
        (fun stack b =>
          match stack with
          | [] => [b]
          | top :: below =>
              if top.2 < b.1 then b :: top :: below
              else (top.1, if top.2 < b.2 then b.2 else top.2) :: below)
        [b0]

/-- Sort-and-merge of one row's blockage list (empty rows are skipped);
the stack is popped in reverse order and re-sorted, as in the source. -/
def mergeRowBlockages (l : List (ℤ × ℤ)) : List (ℤ × ℤ) :=
  match l with
  | [] => []
  | _ =>
      let sorted := List.insertionSort (fun a b => blockagesLE a b) l
      let popped := sweepMerge sorted
      List.insertionSort (fun a b => blockagesLE a b) popped

/-- `DetailedMgr::findBlockages`: fixed-cell footprints (always) and
bottom-two-layer routing obstructions (optionally), per row, then
sort-and-merge per row. -/
def findBlockages (arch : Architecture) (rt : Option RoutingParams)
    (includeRouteBlockages : Bool) (fixedCells : List Node) :
    List (List (ℤ × ℤ)) :=
  let tbl := fixedCellBlockages arch fixedCells
  let tbl :=
    match rt with
    | some rtv => if includeRouteBlockages then routeBlockages arch rtv tbl
                  else tbl
    | none => tbl
  tbl.map mergeRowBlockages

/-! ## Segment construction (`DetailedMgr::findSegments`) -/

/-- Gap segments of a row after blockage `prev`, then the final span after
the last blockage. -/
def splitRowTail (L R : ℤ) (prev : ℤ × ℤ) : List (ℤ × ℤ) → List (ℤ × ℤ)
  | [] =>
      if prev.2 < R ∧ R > min R (max L prev.2) then [(min R (max L prev.2), R)]
      else []
  | b :: rest =>
      (if b.1 > prev.2 ∧ min R b.1 > max L prev.2 then
        [(max L prev.2, min R b.1)]
      else []) ++ splitRowTail L R b rest

/-- The free segments of one row, given the merged blockage list of that
row.  `L = max(arch.minX, row.left)` and `R = min(arch.maxX, row.right)`.
Mirrors the three phases of the row-division code: the span before the
first blockage, the gaps between consecutive blockages, and the span after
the last blockage (blockage endpoints are integral, so the
`(int)std::floor`/`(int)std::ceil` casts are the identity). -/
def splitRowSegs (L R : ℤ) : List (ℤ × ℤ) → List (ℤ × ℤ)
  | [] => if R > L then [(L, R)] else []
  | b :: rest =>
      (if b.1 > L ∧ min R b.1 > L then [(L, min R b.1)] else []) ++
        splitRowTail L R b rest

/-- The mutable result of `findSegments`: the global segment store
(`m_segments`, indexed by `segId`), the per-row segment id lists
(`m_segsInRow`) and the per-segment cell lists (`m_cellsInSeg`). -/
structure SegBuild where
  segs : List DetailedSeg
  segsInRow : List (List Nat)
  cellsInSeg : List (List Nat)
deriving Repr, DecidableEq, Inhabited

/-- Allocation of one fresh segment (sequential id, row `r`, default
region 0, empty utilization) at the end of the store. -/
def segAppendStep (r : Nat) (store : List DetailedSeg) (iv : ℤ × ℤ) :
    List DetailedSeg :=
  store ++ [⟨store.length, r, 0, iv.1, iv.2, 0⟩]

/-- One row of phase 1 of `findSegments`: split the row by its merged
blockages and allocate the resulting segments. -/
def buildRowStep (arch : Architecture) (blockages : List (List (ℤ × ℤ)))
    (acc : List DetailedSeg × List (List Nat)) (r : Nat) :
    List DetailedSeg × List (List Nat) :=
  let lx := (arch.getRow r).left
  let rx := (arch.getRow r).right
  let l := max arch.minX lx
  let rr := min arch.maxX rx
  let ivs := splitRowSegs l rr (blockages.getD r [])
  let store := ivs.foldl (segAppendStep r) acc.1
  (store, acc.2 ++ [List.range' acc.1.length ivs.length])

/-- Phase 1 of `findSegments`: allocate one segment per free interval of
each row, with sequential ids, the row's id and the default region id 0.
Modelled from the spec: a freshly constructed `DetailedSeg` carries
region id 0 and utilization 0. -/
def buildRowPhase (arch : Architecture) (blockages : List (List (ℤ × ℤ))) :
    List DetailedSeg × List (List Nat) :=
  (List.range arch.numRows).foldl (buildRowStep arch blockages) ([], [])

/-- `DetailedMgr::findRegionIntervals`: the merged per-row coverage
intervals of one region's rectangles.  A rectangle contributes to a row
only when it covers the row's full y-span; its x-extent is snapped to the
row's site grid exactly as a routing blockage is.  (The improper-region-id
fatal check always passes here because `regions` is indexed by id.) -/
def findRegionIntervals (arch : Architecture) (regId : Nat) :
    List (List (ℤ × ℤ)) :=
  let tbl :=
    (arch.regions.getD regId []).foldl
      (fun tbl rect =>
        (List.range arch.numRows).foldl
          (fun tbl (r : Nat) =>
            let lb := arch.minY + (r : ℤ) * arch.singleRowHeight
            let ub := lb + arch.singleRowHeight
            if rect.ymax ≥ ub ∧ rect.ymin ≤ lb then
              let originX := (arch.getRow r).left
              let ss := (arch.getRow r).siteSpacing
              match siteSnappedInterval originX ss rect.xmin rect.xmax with
              | some iv => pushRow tbl r iv
              | none => tbl
            else tbl)
          tbl)
      (List.replicate arch.numRows [])
  tbl.map mergeRowBlockages

/-- One segment/interval interaction of the region-splitting loop: returns
the (possibly modified) segment and the newly created segments, which are
appended to the store starting at id `nextId`.  The four overlap cases are
exhaustive, so the `internalError` branch of the source is unreachable;
region interval endpoints are integral, so the `floor`/`ceil` casts are
the identity. -/
def regionInteract (reg : ℤ) (il ir : ℤ) (r : Nat) (nextId : Nat)
    (seg : DetailedSeg) : DetailedSeg × List DetailedSeg :=
  let sl := seg.minX
  let sr := seg.maxX
  if ir ≤ sl then (seg, [])
  else if il ≥ sr then (seg, [])
  else if il ≤ sl ∧ ir ≥ sr then ({ seg with regId := reg }, [])
  else if il > sl ∧ ir ≥ sr then
    ({ seg with maxX := il }, [⟨nextId, r, reg, il, sr, 0⟩])
  else if ir < sr ∧ il ≤ sl then
    ({ seg with minX := ir }, [⟨nextId, r, reg, sl, ir, 0⟩])
  else
    ({ seg with maxX := il },
      [⟨nextId, r, reg, il, ir, 0⟩, ⟨nextId + 1, r, seg.regId, ir, sr, 0⟩])

/-- The interaction of one region interval with the segment stored at
index `sid`: update the store in place and append the newly created
segments, collecting their ids. -/
def regionSegStep (reg : ℤ) (iv : ℤ × ℤ) (r : Nat)
    (p : List DetailedSeg × List Nat) (sid : Nat) :
    List DetailedSeg × List Nat :=
  let seg := p.1.getD sid default
  let (seg', news) := regionInteract reg iv.1 iv.2 r p.1.length seg
  (p.1.set sid seg' ++ news, p.2 ++ (List.range' p.1.length news.length))

/-- Process one region interval against every segment currently in row
`r`.  In the source the inner loop also revisits the segments it has just
appended (the row list grows while being indexed); for the same interval
every such revisit falls into case 1 with an unchanged region id or into
the no-overlap guard, so it changes nothing and is elided here. -/
def processRegionInterval (reg : ℤ) (iv : ℤ × ℤ) (r : Nat)
    (acc : List DetailedSeg × List (List Nat)) :
    List DetailedSeg × List (List Nat) :=
  let ids := acc.2.getD r []
  let res := ids.foldl (regionSegStep reg iv r) (acc.1, [])
  (res.1, acc.2.set r (ids ++ res.2))

/-- Phase 2 of `findSegments`: for every non-default region (id ≥ 1) and
every row, slice the row's segments by the region's merged coverage
intervals. -/
def regionPhase (arch : Architecture)
    (acc : List DetailedSeg × List (List Nat)) :
    List DetailedSeg × List (List Nat) :=
  ((List.range arch.regions.length).drop 1).foldl
    (fun acc reg =>
      let intervals := findRegionIntervals arch reg
      (List.range arch.numRows).foldl
        (fun acc r =>
          (intervals.getD r []).foldl
            (fun acc iv => processRegionInterval (reg : ℤ) iv r acc)
            acc)
        acc)
    acc

/-- Phase 3 of `findSegments`: snap one segment's bounds to its row's site
grid.  `minX` moves up to the next site boundary when off-grid, `maxX`
moves to `originX + siteSpacing * ((maxX - originX) / siteSpacing)` (C
truncating division). -/
def snapSeg (arch : Architecture) (seg : DetailedSeg) : DetailedSeg :=
  let originX := (arch.getRow seg.rowId).left
  let ss := (arch.getRow seg.rowId).siteSpacing
  let ix := cdiv (seg.minX - originX) ss
  let ix := if originX + ix * ss < seg.minX then ix + 1 else ix
  let seg :=
    if originX + ix * ss ≠ seg.minX then { seg with minX := originX + ix * ss }
    else seg
  let ix2 := cdiv (seg.maxX - originX) ss
  if originX + ix2 * ss ≠ seg.maxX then { seg with maxX := originX + ix2 * ss }
  else seg

/-- `DetailedMgr::findSegments`: row division by blockages, region
splitting, site snapping, and (re)creation of the empty per-segment cell
lists.  The previous segment list is deleted wholesale at entry, so the
result depends only on the architecture and the blockage table. -/
def findSegments (arch : Architecture) (blockages : List (List (ℤ × ℤ))) :
    SegBuild :=
  let p1 := buildRowPhase arch blockages
  let p2 := regionPhase arch p1
  let snapped := p2.1.map (snapSeg arch)
  ⟨snapped, p2.2, List.replicate snapped.length []⟩

/-! ## Manager state -/

/-- One staged entry of the pending move list: the arrays
`m_movedNodes/m_curLeft/m_curBottom/m_curSeg/m_newLeft/m_newBottom/m_newSeg`
at one index (orientation entries are never read by the embedded
routines). -/
structure MoveRec where
  ndId : Nat
  curLeft : ℤ
  curBottom : ℤ
  curSegs : List ℤ
  newLeft : ℤ
  newBottom : ℤ
  newSegs : List ℤ
deriving Repr, DecidableEq, Inhabited

/-- `m_moveLimit` (set to 10 in the constructor). -/
def moveLimit : Nat := 10

/-- The mutable state of `DetailedMgr` used by the embedded routines:
node store (indexed by node id), segment store (indexed by seg id),
per-segment cell lists, reverse cell→segments map, per-row blockages and
per-row segment ids, the staged move list, and the displacement limits. -/
structure DMState where
  nodes : List Node
  segs : List DetailedSeg
  cellsInSeg : List (List Nat)
  revMap : List (List Nat)
  blockages : List (List (ℤ × ℤ))
  segsInRow : List (List Nat)
  moves : List MoveRec
  maxDispX : ℤ
  maxDispY : ℤ

/-- Dereference a `Node*` (node ids are store indices). -/
def DMState.getNode (st : DMState) (i : Nat) : Node := st.nodes.getD i default

/-- Dereference `m_segments[i]` for an `int` index. -/
def DMState.getSegZ (st : DMState) (i : ℤ) : DetailedSeg :=
  st.segs.getD i.toNat default

/-- `m_cellsInSeg[i]` for an `int` index. -/
def DMState.cellsZ (st : DMState) (i : ℤ) : List Nat :=
  st.cellsInSeg.getD i.toNat []

/-- Replace the staged move list, leaving all shared state alone.  Every
`tryMove*`/`trySwap*` routine constructs its result states solely through
this operation, mirroring that the validation code writes only
`m_nMoved` and the staged-move arrays. -/
def DMState.setMoves (st : DMState) (mv : List MoveRec) : DMState :=
  { st with moves := mv }

/-- `DetailedMgr::clearMoveList` (`m_nMoved = 0`). -/
def clearMoveList (st : DMState) : DMState := st.setMoves []

/-- `DetailedMgr::rejectMove`. -/
def rejectMove (st : DMState) : DMState := clearMoveList st

/-- The `lower_bound` over a segment's cell list with a `double` key:
index of the first cell whose x-center is not below the key.  Keys are
doubled to stay in `ℤ` (`centerTwice`), which is exact. -/
def lowerBoundCellIdx (st : DMState) (cells : List Nat) (key2 : ℤ) : Nat :=
  cells.findIdx (fun c => decide (key2 ≤ (st.getNode c).centerTwice))

/-! ## Cell/segment bookkeeping
(`addCellToSegment`, `removeCellFromSegment`, `resortSegment`,
`removeAllCellsFromSegments`, `acceptMove`) -/

/-- `DetailedMgr::removeCellFromSegment`: drop the cell from the segment's
cell list and the segment from the cell's reverse-map entry and subtract
the cell's (ceiled) width from the segment's utilization; a missing cell
or missing reverse-map entry is a fatal internal error. -/
def removeCellFromSegment (st : DMState) (ndId : Nat) (seg : Nat) :
    Except String DMState :=
  let nd := st.getNode ndId
  let width := nd.widthCeil
  let cells := st.cellsInSeg.getD seg []
  if ndId ∉ cells then .error "Cell not found in expected segment"
  else
    let rev := st.revMap.getD ndId []
    if seg ∉ rev then .error "Cannot find segment for cell"
    else
      .ok { st with
        cellsInSeg := st.cellsInSeg.set seg (cells.erase ndId),
        revMap := st.revMap.set ndId (rev.erase seg),
        segs := st.segs.set seg
          (let s := st.segs.getD seg default; { s with util := s.util - width }) }

/-- `DetailedMgr::addCellToSegment`: insert the cell into the segment's
cell list at its sorted (x-center) position and add its width to the
utilization; a duplicate reverse-map entry, or a reverse-map entry already
as large as the cell's row span, is a fatal internal error.  (The source
performs the insertion before the fatal checks; since the fatal path ends
the process, checking first is observationally identical.) -/
def addCellToSegment (st : DMState) (ndId : Nat) (seg : Nat) :
    Except String DMState :=
  let nd := st.getNode ndId
  let width := nd.widthCeil
  let cells := st.cellsInSeg.getD seg []
  let idx := lowerBoundCellIdx st cells nd.centerTwice
  let rev := st.revMap.getD ndId []
  if seg ∈ rev then .error "Segment already present in cell to segment map"
  else if rev.length ≥ nd.spanned then
    .error "Cell to segment map incorrectly sized"
  else
    .ok { st with
      cellsInSeg := st.cellsInSeg.set seg (cells.insertIdx idx ndId),
      revMap := st.revMap.set ndId (rev ++ [seg]),
      segs := st.segs.set seg
        (let s := st.segs.getD seg default; { s with util := s.util + width }) }

/-- `DetailedMgr::resortSegment` for the segment stored at index `i`:
stable-sort its cell list by x-center and recompute its utilization from
scratch as the sum of the (ceiled) cell widths. -/
def resortSegment (st : DMState) (i : Nat) : DMState :=
  let segPtr := st.segs.getD i default
  let segId := segPtr.segId
  let cells := st.cellsInSeg.getD segId []
  let sorted := List.insertionSort
    (fun a b => (st.getNode a).centerTwice ≤ (st.getNode b).centerTwice) cells
  let util := (cells.map (fun c => (st.getNode c).widthCeil)).sum
  { st with
    cellsInSeg := st.cellsInSeg.set segId sorted,
    segs := st.segs.set i { segPtr with util := util } }

/-- `DetailedMgr::removeAllCellsFromSegments`: clear every segment's cell
list (via its `segId`) and utilization, and clear every reverse-map
entry. -/
def removeAllCellsFromSegments (st : DMState) : DMState :=
  let p := (List.range st.segs.length).foldl
    (fun (p : List DetailedSeg × List (List Nat)) i =>
      let segPtr := p.1.getD i default
      (p.1.set i { segPtr with util := 0 }, p.2.set segPtr.segId []))
    (st.segs, st.cellsInSeg)
  { st with
    segs := p.1
    cellsInSeg := p.2
    revMap := st.revMap.map (fun _ => []) }

/-- `DetailedMgr::addToMoveList` (single-segment overload): reject when the
staged-cell cap is reached or when the ceiled displacement from the cell's
original (pre-legalization) position exceeds a configured limit; otherwise
stage one entry.  Displacements are integral, so their ceiling is their
absolute value. -/
def addToMoveList1 (st : DMState) (ndId : Nat)
    (curLeft curBottom : ℤ) (curSeg : ℤ)
    (newLeft newBottom : ℤ) (newSeg : ℤ) : Bool × DMState :=
  if st.moves.length ≥ moveLimit then (false, st)
  else
    let nd := st.getNode ndId
    let dy := |newBottom - nd.origBottom|
    let dx := |newLeft - nd.origLeft|
    if dx > st.maxDispX ∨ dy > st.maxDispY then (false, st)
    else
      (true, st.setMoves (st.moves ++
        [⟨ndId, curLeft, curBottom, [curSeg], newLeft, newBottom, [newSeg]⟩]))

/-- `DetailedMgr::addToMoveList` (multi-segment overload): only the
staged-cell cap is enforced (no displacement check). -/
def addToMoveListM (st : DMState) (ndId : Nat)
    (curLeft curBottom : ℤ) (curSegs : List ℤ)
    (newLeft newBottom : ℤ) (newSegs : List ℤ) : Bool × DMState :=
  if st.moves.length ≥ moveLimit then (false, st)
  else
    (true, st.setMoves (st.moves ++
      [⟨ndId, curLeft, curBottom, curSegs, newLeft, newBottom, newSegs⟩]))

/-- One iteration of `DetailedMgr::acceptMove`: remove the staged cell from
each of its old segments, update its position, insert it into each of its
new segments. -/
def applyMoveRec (st : DMState) (mv : MoveRec) : Except String DMState := do
  let st ← mv.curSegs.foldlM
    (fun s (sg : ℤ) => removeCellFromSegment s mv.ndId sg.toNat) st
  let nd := st.getNode mv.ndId
  let ndMoved := { nd with left := mv.newLeft, bottom := mv.newBottom }
  let st := { st with nodes := st.nodes.set mv.ndId ndMoved }
  mv.newSegs.foldlM (fun s (sg : ℤ) => addCellToSegment s mv.ndId sg.toNat) st

/-- `DetailedMgr::acceptMove`: apply every staged entry in order. -/
def acceptMove (st : DMState) : Except String DMState :=
  st.moves.foldlM applyMoveRec st

/-! ## Position alignment and the site-exact shift solver -/

/-- `DetailedMgr::alignPos`: site-align a target left edge `xi` within
`[xl, xr]` (`xr` is first reduced by the cell width), using row 0's site
origin and pitch and C truncating division; returns the aligned position
or `none` when the aligned position falls outside the range. -/
def alignPos (arch : Architecture) (nd : Node) (xi xl xr : ℤ) : Option ℤ :=
  let originX := (arch.getRow 0).left
  let ss := (arch.getRow 0).siteSpacing
  let w := nd.width
  let xr := xr - w
  let xp := max xl (min xr xi)
  let ix := cdiv (xp - originX) ss
  let xp := originX + ix * ss
  let xp := if xp < xl then xp + ss else if xp > xr then xp - ss else xp
  if xp < xl ∨ xp > xr then none else some xp

/-- `DBL_MAX`-initialized DP cost cells: `none` models `DBL_MAX` (all real
costs are integral and finite). -/
def oltOpt (a b : Option ℤ) : Bool :=
  match a, b with
  | none, _ => false
  | some _, none => true
  | some x, some y => decide (x < y)

/-- `cost[i][j]` of the shift DP: the displacement of cell `j` (1-based)
anchored at DP site `i` (1-based), left at `0` outside the cell's
feasible site window exactly as in the source (the table is
zero-initialized and only valid sites are filled). -/
def shiftCost (originX ss i0 : ℤ) (siteL siteR targetLeft : List ℤ)
    (j i : Nat) : ℤ :=
  let siteId := i0 + (i : ℤ) - 1
  if siteId < siteL.getD (j - 1) 0 ∨ siteId > siteR.getD (j - 1) 0 then 0
  else |originX + siteId * ss - targetLeft.getD (j - 1) 0|

/-- One inner step of the shift DP: compute `tcost[i][j]` and `prev[i][j]`
from `tcost[i-1][j]` (skip the site) and `tcost[i-prev_wid][j-1]` plus
`cost[i][j]` (use the site), mirroring the strict `<` updates of the
source (so an unreachable entry keeps `prev = (-1,-1)`). -/
def shiftCell (i0 i1 : ℤ) (prevWid currWid c : ℤ) (j : Nat)
    (tprev tcur : List (Option ℤ)) (i : Nat) :
    Option ℤ × (ℤ × ℤ) :=
  let siteId := i0 + (i : ℤ) - 1
  let best : Option ℤ := none
  let pr : ℤ × ℤ := (-1, -1)
  let (best, pr) :=
    let skipC := tcur.getD (i - 1) none
    if oltOpt skipC best then (skipC, ((i : ℤ) - 1, (j : ℤ))) else (best, pr)
  let ii := (i : ℤ) - prevWid
  if ¬ (ii < 0 ∨ siteId + currWid - 1 > i1) then
    let useC := (tprev.getD ii.toNat none).map (· + c)
    if oltOpt useC best then (useC, (ii, (j : ℤ) - 1)) else (best, pr)
  else (best, pr)

/-- Build column `j` of the shift DP tables (`tcost[·][j]`, `prev[·][j]`)
from column `j-1`; row 0 of every column `j ≥ 1` keeps its initial
`DBL_MAX` / `(-1,-1)` values since the `i` loop starts at 1. -/
def shiftColumn (i0 i1 : ℤ) (prevWid currWid : ℤ) (j : Nat) (ns : Nat)
    (costRow : Nat → ℤ) (tprev : List (Option ℤ)) :
    List (Option ℤ) × List (ℤ × ℤ) :=
  (List.range ns).foldl
    (fun (p : List (Option ℤ) × List (ℤ × ℤ)) k =>
      let i := k + 1
      let (best, pr) :=
        shiftCell i0 i1 prevWid currWid (costRow i) j tprev p.1 i
      (p.1 ++ [best], p.2 ++ [pr]))
    ([none], [(-1, -1)])

/-- Look up `prev[i][j]` in the per-column prev tables (column 0 is all
`(-1,-1)` since the source never writes it). -/
def prevLookup (prevTbl : List (List (ℤ × ℤ))) (curr : ℤ × ℤ) : ℤ × ℤ :=
  (prevTbl.getD curr.2.toNat []).getD curr.1.toNat (-1, -1)

/-- The backtracking test loop of `shift`: walk `prev` from
`(nsites, ncells)` and report whether `(0,0)` is reached.  The source's
`while` terminates because stored `prev` indices strictly decrease; the
fuel bounds the walk by the table size. -/
def shiftBacktrackOk (prevTbl : List (List (ℤ × ℤ))) :
    Nat → (ℤ × ℤ) → Bool
  | 0, _ => false
  | fuel + 1, curr =>
      if curr.1 ≠ -1 ∧ curr.2 ≠ -1 then
        if curr.1 = 0 ∧ curr.2 = 0 then true
        else shiftBacktrackOk prevTbl fuel (prevLookup prevTbl curr)
      else false

/-- The placement-recovery loop of `shift`: whenever the walk steps to a
smaller cell index the current cell was anchored at the current site. -/
def shiftPlace (prevTbl : List (List (ℤ × ℤ))) (originX ss i0 : ℤ) :
    Nat → (ℤ × ℤ) → List ℤ → List ℤ
  | 0, _, pos => pos
  | fuel + 1, curr, pos =>
      if curr.1 ≠ -1 ∧ curr.2 ≠ -1 then
        if curr.1 = 0 ∧ curr.2 = 0 then pos
        else
          let pr := prevLookup prevTbl curr
          let pos :=
            if curr.2 ≠ pr.2 then
              pos.set (curr.2 - 1).toNat (originX + (i0 + curr.1 - 1) * ss)
            else pos
          shiftPlace prevTbl originX ss i0 fuel pr pos
      else pos

/-- `DetailedMgr::shift`: site-exact repositioning of an ordered run of
single-height cells inside `[leftLimit, rightLimit)` via the
`(site × cell)` DP.  Returns the final positions (`posLeft`, whose entries
default to the caller-provided initial values) or `none` on failure.
Inter-cell spacing is folded into each cell's effective width except for
the last cell; effective widths are converted to whole sites by
`ceil(width / siteSpacing)`. -/
def shift (arch : Architecture) (st : DMState) (cells : List Nat)
    (targetLeft posLeft0 : List ℤ) (leftLimit rightLimit : ℤ)
    (rowId : Nat) : Option (List ℤ) :=
  let originX := (arch.getRow rowId).left
  let ss := (arch.getRow rowId).siteSpacing
  let sw := (arch.getRow rowId).siteWidth
  let ncells := cells.length
  let i0 := cdiv (leftLimit - originX) ss
  let i0 := if originX + i0 * ss < leftLimit then i0 + 1 else i0
  let i1 := cdiv (rightLimit - originX) ss
  let i1 := if originX + i1 * ss + sw ≥ rightLimit then i1 - 1 else i1
  let nsites := i1 - i0 + 1
  let swid := (List.range ncells).map (fun i =>
    let ndi := st.getNode (cells.getD i 0)
    let w := ndi.width +
      (if i ≠ ncells - 1 then
        arch.cellSpacing (some ndi) (some (st.getNode (cells.getD (i + 1) 0)))
      else 0)
    intCeilDiv w ss)
  let rsites := swid.sum
  if rsites > nsites then none
  else
    let siteL := (List.range ncells).map (fun i => i0 + (swid.take i).sum)
    let siteR := (List.range ncells).map (fun i =>
      i1 + 1 - (swid.drop i).sum)
    if (List.range ncells).any (fun i => siteR.getD i 0 < siteL.getD i 0) then
      none
    else
      let ns := nsites.toNat
      let col0 : List (Option ℤ) := some 0 :: List.replicate ns none
      let prev0 : List (ℤ × ℤ) := List.replicate (ns + 1) (-1, -1)
      let tables := (List.range ncells).foldl
        (fun (p : List (Option ℤ) × List (List (ℤ × ℤ))) jm1 =>
          let j := jm1 + 1
          let prevWid := if j - 1 = 0 then 1 else swid.getD (j - 2) 0
          let currWid := swid.getD (j - 1) 0
          let (tcur, pcur) := shiftColumn i0 i1 prevWid currWid j ns
            (fun i => shiftCost originX ss i0 siteL siteR targetLeft j i) p.1
          (tcur, p.2 ++ [pcur]))
        (col0, [prev0])
      let prevTbl := tables.2
      let fuel := (ns + 2) * (ncells + 2)
      if ¬ shiftBacktrackOk prevTbl fuel (nsites, (ncells : ℤ)) then none
      else
        some (shiftPlace prevTbl originX ss i0 fuel
          (nsites, (ncells : ℤ)) posLeft0)

/-! ## Cascading shift helpers (`shiftRightHelper`, `shiftLeftHelper`) -/

/-- The site alignment inside `shiftRightHelper`: move `xj` up to the next
site boundary when off-grid (C truncating division). -/
def snapUpSite (o ss xj : ℤ) : ℤ :=
  let site := cdiv (xj - o) ss
  let sx := o + site * ss
  if xj ≠ sx then
    let sx := if xj > sx then sx + ss else sx
    if xj ≠ sx ∧ xj < sx then sx else xj
  else xj

/-- The site alignment inside `shiftLeftHelper`: move `xj` down to the
previous site boundary when above it. -/
def snapDownSite (o ss xj : ℤ) : ℤ :=
  let site := cdiv (xj - o) ss
  let sx := o + site * ss
  if xj ≠ sx ∧ xj > sx then sx else xj

/-- The `while` loop of `shiftRightHelper`, walking the segment's cell list
rightward from the first pushed neighbour.  The queue is the sublist of
cell ids from the neighbour's index on; the list itself never changes
during the walk (only the move list is written). -/
def shiftRightLoop (arch : Architecture) (originX ss : ℤ) (sj : ℤ) :
    DMState → Node → ℤ → List Nat → Bool × DMState
  | st, _, _, [] => (true, st)
  | st, ndi, xj, ndr :: rest =>
      let ndrN := st.getNode ndr
      if ¬ (ndrN.left < xj + ndi.width +
            arch.cellSpacing (some ndi) (some ndrN)) then (true, st)
      else if ndrN.spanned ≠ 1 then (false, st)
      else
        let xj := snapUpSite originX ss
          (xj + ndi.width + arch.cellSpacing (some ndi) (some ndrN))
        match addToMoveList1 st ndr ndrN.left ndrN.bottom sj xj ndrN.bottom sj
          with
        | (false, st') => (false, st')
        | (true, st') =>
            if xj + ndrN.width + arch.cellSpacing (some ndrN) none >
                (st'.getSegZ sj).maxX then (false, st')
            else
              match rest with
              | [] => (true, st')
              | _ => shiftRightLoop arch originX ss sj st' ndrN xj rest

/-- `DetailedMgr::shiftRightHelper`: push the cells at and right of `ndr`
further right until the spacing around the insertion at `xj` is met. -/
def shiftRightHelper (arch : Architecture) (st : DMState) (ndi : Node)
    (xj : ℤ) (sj : ℤ) (ndrId : Nat) : Bool × DMState :=
  let cells := st.cellsZ sj
  let ix := cells.findIdx (· == ndrId)
  if ix ≥ cells.length then (false, st)
  else
    let rj := (st.getSegZ sj).rowId
    let originX := (arch.getRow rj).left
    let ss := (arch.getRow rj).siteSpacing
    shiftRightLoop arch originX ss sj st ndi xj (cells.drop ix)

/-- The `while` loop of `shiftLeftHelper`, walking the segment's cell list
leftward from the first pushed neighbour. -/
def shiftLeftLoop (arch : Architecture) (originX ss : ℤ) (sj : ℤ) :
    DMState → Node → ℤ → List Nat → Bool × DMState
  | st, _, _, [] => (true, st)
  | st, ndi, xj, ndl :: rest =>
      let ndlN := st.getNode ndl
      if ¬ (ndlN.right + arch.cellSpacing (some ndlN) (some ndi) > xj) then
        (true, st)
      else if ndlN.spanned ≠ 1 then (false, st)
      else
        let xj := snapDownSite originX ss
          (xj - arch.cellSpacing (some ndlN) (some ndi) - ndlN.width)
        match addToMoveList1 st ndl ndlN.left ndlN.bottom sj xj ndlN.bottom sj
          with
        | (false, st') => (false, st')
        | (true, st') =>
            if xj - arch.cellSpacing none (some ndlN) <
                (st'.getSegZ sj).minX then (false, st')
            else
              match rest with
              | [] => (true, st')
              | _ => shiftLeftLoop arch originX ss sj st' ndlN xj rest

/-- `DetailedMgr::shiftLeftHelper`: push the cells at and left of `ndl`
further left until the spacing around the insertion at `xj` is met. -/
def shiftLeftHelper (arch : Architecture) (st : DMState) (ndi : Node)
    (xj : ℤ) (sj : ℤ) (ndlId : Nat) : Bool × DMState :=
  let cells := st.cellsZ sj
  let ix := cells.findIdx (· == ndlId)
  if ix ≥ cells.length then (false, st)
  else
    let rj := (st.getSegZ sj).rowId
    let originX := (arch.getRow rj).left
    let ss := (arch.getRow rj).siteSpacing
    shiftLeftLoop arch originX ss sj st ndi xj ((cells.take (ix + 1)).reverse)

/-! ## Move generation (`tryMove1`, `tryMove2`, `tryMove3`, `trySwap1`) -/

/-- `DetailedMgr::tryMove1`: move a single-height cell to a target position
in a different segment.  Mirrors the four neighbour cases of the source;
the state is only ever modified through `clearMoveList`/`addToMoveList`. -/
def tryMove1 (arch : Architecture) (st : DMState) (ndiId : Nat)
    (xi yi : ℤ) (si : ℤ) (xj0 yj0 : ℤ) (sj : ℤ) : Bool × DMState :=
  let st := clearMoveList st
  let ndi := st.getNode ndiId
  if sj = si ∨ sj = -1 ∨ ndi.regionId ≠ (st.getSegZ sj).regId ∨
      ndi.spanned ≠ 1 then (false, st)
  else
    let rj := (st.getSegZ sj).rowId
    let yj := (arch.getRow rj).bottom
    let cells := st.cellsZ sj
    let neigh : Option Nat × Option Nat :=
      if cells.length ≠ 0 then
        let i := lowerBoundCellIdx st cells (2 * xj0)
        if i = cells.length then (some (cells.getD (cells.length - 1) 0), none)
        else
          (if i > 0 then some (cells.getD (i - 1) 0) else none,
            some (cells.getD i 0))
      else (none, none)
    let segPtr := st.getSegZ sj
    match neigh with
    | (none, none) =>
        let required := ndi.width + arch.cellSpacing none (some ndi) +
          arch.cellSpacing (some ndi) none
        if required + segPtr.util > segPtr.width then (false, st)
        else
          let lx := segPtr.minX + arch.cellSpacing none (some ndi)
          let rx := segPtr.maxX - arch.cellSpacing (some ndi) none
          match alignPos arch ndi xj0 lx rx with
          | none => (false, st)
          | some xj => addToMoveList1 st ndiId ndi.left ndi.bottom si xj yj sj
    | (some l, none) =>
        let ndl := st.getNode l
        let required := ndi.width + arch.cellSpacing (some ndl) (some ndi) +
          arch.cellSpacing (some ndi) none
        if required + segPtr.util > segPtr.width then (false, st)
        else
          let lx := ndl.right + arch.cellSpacing (some ndl) (some ndi)
          let rx := segPtr.maxX - arch.cellSpacing (some ndi) none
          match alignPos arch ndi xj0 lx rx with
          | none => (false, st)
          | some xj =>
              match addToMoveList1 st ndiId ndi.left ndi.bottom si xj yj sj
                with
              | (false, st') => (false, st')
              | (true, st') => shiftLeftHelper arch st' ndi xj sj l
    | (none, some r) =>
        let ndr := st.getNode r
        let required := ndi.width + arch.cellSpacing none (some ndi) +
          arch.cellSpacing (some ndi) (some ndr)
        if required + segPtr.util > segPtr.width then (false, st)
        else
          let lx := segPtr.minX + arch.cellSpacing none (some ndi)
          let rx := ndr.left - arch.cellSpacing (some ndi) (some ndr)
          match alignPos arch ndi xj0 lx rx with
          | none => (false, st)
          | some xj =>
              match addToMoveList1 st ndiId ndi.left ndi.bottom si xj yj sj
                with
              | (false, st') => (false, st')
              | (true, st') => shiftRightHelper arch st' ndi xj sj r
    | (some l, some r) =>
        let ndl := st.getNode l
        let ndr := st.getNode r
        let required := ndi.width + arch.cellSpacing (some ndl) (some ndi) +
          arch.cellSpacing (some ndi) (some ndr) -
          arch.cellSpacing (some ndl) (some ndr)
        if required + segPtr.util > segPtr.width then (false, st)
        else
          let lx := ndl.right + arch.cellSpacing (some ndl) (some ndi)
          let rx := ndr.left - arch.cellSpacing (some ndi) (some ndr)
          match alignPos arch ndi xj0 lx rx with
          | none => (false, st)
          | some xj =>
              match addToMoveList1 st ndiId ndi.left ndi.bottom si xj yj sj
                with
              | (false, st') => (false, st')
              | (true, st') =>
                  match shiftRightHelper arch st' ndi xj sj r with
                  | (false, st'') => (false, st'')
                  | (true, st'') => shiftLeftHelper arch st'' ndi xj sj l

/-- `DetailedMgr::tryMove2`: move a single-height cell within its own
segment, trying the gap to the left of the cell nearest the target, then
the gap to its right. -/
def tryMove2 (arch : Architecture) (st : DMState) (ndiId : Nat)
    (xi yi : ℤ) (si : ℤ) (xj0 yj0 : ℤ) (sj : ℤ) : Bool × DMState :=
  let st := clearMoveList st
  let ndi := st.getNode ndiId
  if sj ≠ si ∨ sj = -1 ∨ ndi.regionId ≠ (st.getSegZ sj).regId ∨
      ndi.spanned ≠ 1 then (false, st)
  else
    let rj := (st.getSegZ sj).rowId
    let yj := (arch.getRow rj).bottom
    let n := (st.cellsZ si).length - 1
    let cells := st.cellsZ sj
    if cells.length = 0 then (false, st)
    else
      let i := lowerBoundCellIdx st cells (2 * xj0)
      let ixj := if i = cells.length then cells.length - 1 else i
      let ndjId := cells.getD ixj 0
      let ndj := st.getNode ndjId
      let prev : Option Nat :=
        if ixj = 0 then none else some (cells.getD (ixj - 1) 0)
      let next : Option Nat :=
        if ixj = n then none else some (cells.getD (ixj + 1) 0)
      let segPtr := st.getSegZ sj
      let lx :=
        match prev with
        | some p => (st.getNode p).right +
            arch.cellSpacing (some (st.getNode p)) (some ndi)
        | none => segPtr.minX + arch.cellSpacing none (some ndi)
      let rx := ndj.left - arch.cellSpacing (some ndi) (some ndj)
      if ndi.width ≤ rx - lx then
        match alignPos arch ndi xj0 lx rx with
        | none => (false, st)
        | some xj => addToMoveList1 st ndiId ndi.left ndi.bottom si xj yj sj
      else
        let lx := ndj.right + arch.cellSpacing (some ndj) (some ndi)
        let rx :=
          match next with
          | some nx => (st.getNode nx).left -
              arch.cellSpacing (some ndi) (some (st.getNode nx))
          | none => segPtr.maxX - arch.cellSpacing (some ndi) none
        if ndi.width ≤ rx - lx then
          match alignPos arch ndi xj0 lx rx with
          | none => (false, st)
          | some xj => addToMoveList1 st ndiId ndi.left ndi.bottom si xj yj sj
        else (false, st)

/-- `m_segsInRow` access for an `int` row index (negative rows would be
out-of-bounds vector reads in the source; they yield no segments here). -/
def DMState.rowSegsZ (st : DMState) (r : ℤ) : List Nat :=
  if r < 0 then [] else st.segsInRow.getD r.toNat []

/-- The segment test of `tryMove3`: matching region id and
`[minX, maxX]` containing the target x. -/
def tm3SegOk (st : DMState) (regionId xj : ℤ) (sid : Nat) : Bool :=
  let seg := st.segs.getD sid default
  decide (seg.regId = regionId ∧ xj ≥ seg.minX ∧ xj ≤ seg.maxX)

/-- One row of the per-spanned-row segment search of `tryMove3`:
collect the first acceptable segment of the row, or stop. -/
def tm3Step (st : DMState) (regionId xj : ℤ) (p : List ℤ × Bool)
    (r : ℤ) : List ℤ × Bool :=
  if p.2 then p
  else
    match (st.rowSegsZ r).find? (tm3SegOk st regionId xj) with
    | some sid => (p.1 ++ [((st.segs.getD sid default).segId : ℤ)], false)
    | none => (p.1, true)

/-- The per-spanned-row segment search of `tryMove3`: for each row in
order, the first segment whose region id matches and whose `[minX, maxX]`
contains the target x is collected; the search stops at the first row
without one. -/
def tm3CollectSegs (st : DMState) (regionId : ℤ) (xj : ℤ)
    (rows : List ℤ) : List ℤ :=
  (rows.foldl (tm3Step st regionId xj) ([], false)).1

/-- `std::numeric_limits<int>::lowest()`. -/
def intMinLit : ℤ := -(2 ^ 31)

/-- `std::numeric_limits<int>::max()`. -/
def intMaxLit : ℤ := 2 ^ 31 - 1

/-- The per-segment gap loop of `tryMove3`: for each spanned segment, find
the neighbours around the target (skipping the moving cell itself on the
left; in the nothing-to-the-right branch the source's skip re-reads the
same last element, so it has no effect), fail when the moving cell is its
own neighbour or does not fit the gap, and intersect the gaps. -/
def tm3Gaps (arch : Architecture) (st : DMState) (ndiId : Nat) (xj : ℤ) :
    List ℤ → ℤ → ℤ → Option (ℤ × ℤ)
  | [], xmin, xmax => some (xmin, xmax)
  | s :: rest, xmin, xmax =>
      let segPtr := st.getSegZ s
      let segId := segPtr.segId
      let cells := st.cellsInSeg.getD segId []
      let ndi := st.getNode ndiId
      let neigh : Option Nat × Option Nat :=
        if cells.length ≠ 0 then
          let i := lowerBoundCellIdx st cells (2 * xj)
          if i = cells.length then
            (some (cells.getD (cells.length - 1) 0), none)
          else
            let rite := cells.getD i 0
            let left :=
              if i > 0 then
                let l1 := cells.getD (i - 1) 0
                if l1 = ndiId then
                  if i - 1 > 0 then some (cells.getD (i - 2) 0) else none
                else some l1
              else none
            (left, some rite)
        else (none, none)
      if neigh.1 = some ndiId ∨ neigh.2 = some ndiId then none
      else
        let lx :=
          (match neigh.1 with
            | none => segPtr.minX
            | some l => (st.getNode l).right) +
          (match neigh.1 with
            | none => 0
            | some l => arch.cellSpacing (some (st.getNode l)) (some ndi))
        let rx :=
          (match neigh.2 with
            | none => segPtr.maxX
            | some r => (st.getNode r).left) -
          (match neigh.2 with
            | none => 0
            | some r => arch.cellSpacing (some ndi) (some (st.getNode r)))
        if ndi.width ≤ rx - lx then
          tm3Gaps arch st ndiId xj rest (max xmin lx) (min xmax rx)
        else none

/-- The row adjustment of `tryMove3`: `while (rb + spanned >= numRows) --rb`. -/
def tm3AdjustRb (rb spanned nrows : ℤ) : ℤ :=
  if rb + spanned ≥ nrows then nrows - spanned - 1 else rb

/-- The spanned rows `tryMove3` derives from the target segment `sj`:
`[rb, rb + spanned - 1]` for the adjusted bottom row `rb`. -/
def tm3Rows (arch : Architecture) (st : DMState) (ndiId : Nat) (sj : ℤ) :
    List ℤ :=
  let spanned := (st.getNode ndiId).spanned
  let rb := tm3AdjustRb ((st.getSegZ sj).rowId : ℤ) (spanned : ℤ)
    (arch.numRows : ℤ)
  (List.range spanned).map (fun (k : Nat) => rb + (k : ℤ))

/-- `DetailedMgr::tryMove3`: move a multi-height cell by locating, for each
spanned row, the region-matching segment containing the target x, then
fitting the cell into the intersection of the neighbour-bounded gaps; no
neighbour is ever shifted.  On success exactly one entry — the moved cell
itself, with its full old and new segment sets — is staged. -/
def tryMove3 (arch : Architecture) (st : DMState) (ndiId : Nat)
    (xi yi : ℤ) (si : ℤ) (xj0 yj0 : ℤ) (sj : ℤ) : Bool × DMState :=
  let st := clearMoveList st
  let ndi := st.getNode ndiId
  let spanned := ndi.spanned
  if spanned ≤ 1 ∨ spanned ≠ (st.revMap.getD ndiId []).length then (false, st)
  else
    let rb := tm3AdjustRb ((st.getSegZ sj).rowId : ℤ) (spanned : ℤ)
      (arch.numRows : ℤ)
    if ¬ arch.powerCompatible ndi (arch.getRow rb.toNat) then (false, st)
    else
      let rows := tm3Rows arch st ndiId sj
      let segs := tm3CollectSegs st ndi.regionId xj0 rows
      if segs.length ≠ spanned then (false, st)
      else
        match tm3Gaps arch st ndiId xj0 segs intMinLit intMaxLit with
        | none => (false, st)
        | some (xmin, xmax) =>
            if ndi.width ≤ xmax - xmin then
              match alignPos arch ndi xj0 xmin xmax with
              | none => (false, st)
              | some xj =>
                  let oldSegs := (st.revMap.getD ndiId []).map
                    (fun s => ((st.segs.getD s default).segId : ℤ))
                  addToMoveListM st ndiId ndi.left ndi.bottom oldSegs
                    xj (arch.getRow rb.toNat).bottom segs
            else (false, st)

/-- `DetailedMgr::trySwap1`: swap two single-height cells; non-adjacent
cells must each fit the gap vacated by the other, adjacent cells are
repositioned jointly by the `shift` solver. -/
def trySwap1 (arch : Architecture) (st : DMState) (ndiId : Nat)
    (xi0 yi0 : ℤ) (si : ℤ) (xj0 yj0 : ℤ) (sj : ℤ) : Bool × DMState :=
  let st := clearMoveList st
  let ndi := st.getNode ndiId
  let cellsJ := st.cellsZ sj
  let ndjOpt : Option Nat :=
    if cellsJ.length ≠ 0 then
      let i := lowerBoundCellIdx st cellsJ (2 * xj0)
      some (if i = cellsJ.length then cellsJ.getD (cellsJ.length - 1) 0
            else cellsJ.getD i 0)
    else none
  match ndjOpt with
  | none => (false, st)
  | some ndjId =>
      if ndjId = ndiId then (false, st)
      else
        let ndj := st.getNode ndjId
        if ndi.spanned ≠ 1 ∨ ndj.spanned ≠ 1 then (false, st)
        else
          let cellsI := st.cellsZ si
          let ixi := cellsI.findIdx (· == ndiId)
          let ixj := cellsJ.findIdx (· == ndjId)
          let adjacent := si = sj ∧ (ixi + 1 = ixj ∨ ixj + 1 = ixi)
          if ¬ adjacent then
            let n := cellsI.length - 1
            let next : Option Nat :=
              if ixi = n then none else some (cellsI.getD (ixi + 1) 0)
            let prev : Option Nat :=
              if ixi = 0 then none else some (cellsI.getD (ixi - 1) 0)
            let rx :=
              (match next with
                | some nx => (st.getNode nx).left
                | none => (st.getSegZ si).maxX) -
              arch.cellSpacing (some ndj) (next.map st.getNode)
            let lx :=
              (match prev with
                | some p => (st.getNode p).right
                | none => (st.getSegZ si).minX) +
              arch.cellSpacing (prev.map st.getNode) (some ndj)
            if ndj.width > rx - lx then (false, st)
            else
              match alignPos arch ndj xi0 lx rx with
              | none => (false, st)
              | some xi =>
                  let n := cellsJ.length - 1
                  let next : Option Nat :=
                    if ixj = n then none else some (cellsJ.getD (ixj + 1) 0)
                  let prev : Option Nat :=
                    if ixj = 0 then none else some (cellsJ.getD (ixj - 1) 0)
                  let rx :=
                    (match next with
                      | some nx => (st.getNode nx).left
                      | none => (st.getSegZ sj).maxX) -
                    arch.cellSpacing (some ndi) (next.map st.getNode)
                  let lx :=
                    (match prev with
                      | some p => (st.getNode p).right
                      | none => (st.getSegZ sj).minX) +
                    arch.cellSpacing (prev.map st.getNode) (some ndi)
                  if ndi.width > rx - lx then (false, st)
                  else
                    match alignPos arch ndi xj0 lx rx with
                    | none => (false, st)
                    | some xj =>
                        match addToMoveList1 st ndiId ndi.left ndi.bottom si
                          xj ndj.bottom sj with
                        | (false, st') => (false, st')
                        | (true, st') =>
                            addToMoveList1 st' ndjId ndj.left ndj.bottom sj
                              xi ndi.bottom si
          else
            if ixi + 1 = ixj then
              let n := cellsJ.length - 1
              let next : Option Nat :=
                if ixj = n then none else some (cellsJ.getD (ixj + 1) 0)
              let prev : Option Nat :=
                if ixi = 0 then none else some (cellsI.getD (ixi - 1) 0)
              let rx :=
                (match next with
                  | some nx => (st.getNode nx).left
                  | none => (st.getSegZ sj).maxX) -
                arch.cellSpacing (some ndi) (next.map st.getNode)
              let lx :=
                (match prev with
                  | some p => (st.getNode p).right
                  | none => (st.getSegZ si).minX) +
                arch.cellSpacing (prev.map st.getNode) (some ndj)
              if ndj.width + ndi.width +
                  arch.cellSpacing (some ndj) (some ndi) > rx - lx then
                (false, st)
              else
                let ri := (st.getSegZ si).rowId
                match shift arch st [ndjId, ndiId] [xi0, xj0] [0, 0]
                  lx rx ri with
                | none => (false, st)
                | some pos =>
                    let xi := pos.getD 0 0
                    let xj := pos.getD 1 0
                    match addToMoveList1 st ndiId ndi.left ndi.bottom si
                      xj ndj.bottom sj with
                    | (false, st') => (false, st')
                    | (true, st') =>
                        addToMoveList1 st' ndjId ndj.left ndj.bottom sj
                          xi ndi.bottom si
            else if ixj + 1 = ixi then
              let n := cellsI.length - 1
              let next : Option Nat :=
                if ixi = n then none else some (cellsI.getD (ixi + 1) 0)
              let prev : Option Nat :=
                if ixj = 0 then none else some (cellsJ.getD (ixj - 1) 0)
              let rx :=
                (match next with
                  | some nx => (st.getNode nx).left
                  | none => (st.getSegZ si).maxX) -
                arch.cellSpacing (some ndj) (next.map st.getNode)
              let lx :=
                (match prev with
                  | some p => (st.getNode p).right
                  | none => (st.getSegZ sj).minX) +
                arch.cellSpacing (prev.map st.getNode) (some ndi)
              if ndi.width + ndj.width +
                  arch.cellSpacing (some ndi) (some ndj) > rx - lx then
                (false, st)
              else
                let ri := (st.getSegZ si).rowId
                match shift arch st [ndiId, ndjId] [xj0, xi0] [0, 0]
                  lx rx ri with
                | none => (false, st)
                | some pos =>
                    let xj := pos.getD 0 0
                    let xi := pos.getD 1 0
                    match addToMoveList1 st ndiId ndi.left ndi.bottom si
                      xj ndj.bottom sj with
                    | (false, st') => (false, st')
                    | (true, st') =>
                        addToMoveList1 st' ndjId ndj.left ndj.bottom sj
                          xi ndi.bottom si
            else (false, st)

/-! ## Closest-segment search (`DetailedMgr::findClosestSegment`) -/

/-- The four-accumulator state of the search: the closest region-matching
segment (`best1`) and the closest one wide enough for the cell (`best2`),
with their costs.  A distance of `none` models the `DBL_MAX`
initialization (all real costs are integral). -/
structure FcsState where
  best1 : Option DetailedSeg
  dist1 : Option ℤ
  best2 : Option DetailedSeg
  dist2 : Option ℤ
deriving Repr, DecidableEq, Inhabited

/-- `c < dist` against a possibly-`DBL_MAX` distance. -/
def oltD (c : ℤ) (d : Option ℤ) : Bool :=
  match d with
  | none => true
  | some x => decide (c < x)

/-- `vert <= dist` against a possibly-`DBL_MAX` distance (the pruning
test). -/
def oleD (v : ℤ) (d : Option ℤ) : Bool :=
  match d with
  | none => true
  | some x => decide (v ≤ x)

/-- The horizontal part of the cost: clamp the cell's left edge into
`[minX, maxX - width]` and take the distance to the cell's left edge. -/
def fcsHori (nd : Node) (seg : DetailedSeg) : ℤ :=
  let x1 := seg.minX
  let x2 := seg.maxX - nd.width
  let xx := max x1 (min x2 nd.left)
  max 0 |xx - nd.left|

/-- Whether the segment is wide enough to accommodate the cell. -/
def fcsFits (nd : Node) (seg : DetailedSeg) : Bool :=
  decide (nd.width ≤ seg.maxX - seg.minX)

/-- Processing of one segment: skip region mismatches, then update the
closest and the closest-fitting candidates exactly as the source does. -/
def fcsStep (nd : Node) (vert : ℤ) (st : FcsState) (seg : DetailedSeg) :
    FcsState :=
  if nd.regionId ≠ seg.regId then st
  else
    let c := fcsHori nd seg + vert
    let closer1 := oltD c st.dist1
    let closer2 := oltD c st.dist2
    let fits := fcsFits nd seg
    let st1 :=
      if st.best1.isNone ∨ (st.best1.isSome ∧ closer1) then
        { st with best1 := some seg, dist1 := some c }
      else st
    if fits ∧ (st1.best2.isNone ∨ (st1.best2.isSome ∧ closer2)) then
      { st1 with best2 := some seg, dist2 := some c }
    else st1

/-- Scan all segments of one row at vertical distance `vert`. -/
def fcsScanRow (nd : Node) (vert : ℤ) (row : List DetailedSeg)
    (st : FcsState) : FcsState :=
  row.foldl (fcsStep nd vert) st

/-- One outward offset of the search: the row below (if any), then the
row above (if any), each guarded — when `pruned` is set — by the
`vert <= dist1 || vert <= dist2` test, as in the source. -/
def fcsOffStep (nd : Node) (rows : List (List DetailedSeg)) (rowH : ℤ)
    (row0 : Nat) (pruned : Bool) (st : FcsState) (off1 : Nat) : FcsState :=
  let numRows := rows.length
  let offset := off1 + 1
  let vert := (offset : ℤ) * rowH
  let st :=
    if offset ≤ row0 then
      if ¬ pruned ∨ (oleD vert st.dist1 ∨ oleD vert st.dist2) then
        fcsScanRow nd vert (rows.getD (row0 - offset) []) st
      else st
    else st
  if row0 + offset ≤ numRows - 1 then
    if ¬ pruned ∨ (oleD vert st.dist1 ∨ oleD vert st.dist2) then
      fcsScanRow nd vert (rows.getD (row0 + offset) []) st
    else st
  else st

/-- The outward row scan: the home row first, then rows below and above at
increasing offsets; when `pruned` is set a row is visited only while
`vert <= dist1 || vert <= dist2`, as in the source. -/
def fcsSearch (nd : Node) (rows : List (List DetailedSeg)) (rowH : ℤ)
    (row0 : Nat) (pruned : Bool) : FcsState :=
  let st0 := fcsScanRow nd 0 (rows.getD row0 []) ⟨none, none, none, none⟩
  (List.range rows.length).foldl (fcsOffStep nd rows rowH row0 pruned) st0

/-- The rows of segments as `DetailedSeg` values (dereferencing
`m_segsInRow`). -/
def segRowsOf (st : DMState) : List (List DetailedSeg) :=
  st.segsInRow.map (fun ids => ids.map (fun i => st.segs.getD i default))

/-- `DetailedMgr::findClosestSegment`.  `row0` models the external query
`m_arch->find_closest_row(nd->getBottom())` (rows are contiguous and
stacked, so the vertical distance of row `r` is `|r - row0| *
m_singleRowHeight`).  Returns the width-sufficient candidate when one
exists, else the overall closest, else null. -/
def findClosestSegment (arch : Architecture) (st : DMState) (nd : Node)
    (row0 : Nat) : Option DetailedSeg :=
  let s := fcsSearch nd (segRowsOf st) arch.singleRowHeight row0 true
  match s.best2 with
  | some b => some b
  | none => s.best1

/-- The same search with the vertical-distance pruning disabled: every row
is scanned. -/
def findClosestSegmentExhaustive (arch : Architecture) (st : DMState)
    (nd : Node) (row0 : Nat) : Option DetailedSeg :=
  let s := fcsSearch nd (segRowsOf st) arch.singleRowHeight row0 false
  match s.best2 with
  | some b => some b
  | none => s.best1

/-- The vertical part of the cost of row `r` for a query at row `row0`
(rows are contiguous and stacked). -/
def fcsVert (rowH : ℤ) (row0 r : Nat) : ℤ :=
  |(r : ℤ) - (row0 : ℤ)| * rowH

/-- The `(vert, segment)` pairs scanned at outward offset `off1 + 1`:
the row below then the row above, when they exist. -/
def fcsOffItems (rows : List (List DetailedSeg)) (rowH : ℤ)
    (row0 off1 : Nat) : List (ℤ × DetailedSeg) :=
  (if off1 + 1 ≤ row0 then
    (rows.getD (row0 - (off1 + 1)) []).map
      (fun s => (((off1 + 1 : Nat) : ℤ) * rowH, s))
  else []) ++
  (if row0 + (off1 + 1) ≤ rows.length - 1 then
    (rows.getD (row0 + (off1 + 1)) []).map
      (fun s => (((off1 + 1 : Nat) : ℤ) * rowH, s))
  else [])

/-- All `(vert, segment)` pairs the exhaustive search scans, in scan
order. -/
def fcsItems (rows : List (List DetailedSeg)) (rowH : ℤ) (row0 : Nat) :
    List (ℤ × DetailedSeg) :=
  (rows.getD row0 []).map (fun s => ((0 : ℤ), s)) ++
    (List.range rows.length).flatMap (fcsOffItems rows rowH row0)

/-- Invariant of the `best1`/`dist1` accumulator pair over the processed
items: nothing recorded and no region match seen, or a recorded
region-matching item whose cost is a lower bound for every
region-matching processed item. -/
def MInv1 (nd : Node) (items : List (ℤ × DetailedSeg))
    (best : Option DetailedSeg) (dist : Option ℤ) : Prop :=
  (best = none ∧ dist = none ∧ ∀ p ∈ items, nd.regionId ≠ p.2.regId) ∨
  (∃ b d, best = some b ∧ dist = some d ∧
    (∃ v, (v, b) ∈ items ∧ nd.regionId = b.regId ∧
      d = fcsHori nd b + v) ∧
    (∀ p ∈ items, nd.regionId = p.2.regId → d ≤ fcsHori nd p.2 + p.1))

/-- Invariant of the `best2`/`dist2` pair: as `MInv1` but restricted to
segments wide enough for the cell. -/
def MInv2 (nd : Node) (items : List (ℤ × DetailedSeg))
    (best : Option DetailedSeg) (dist : Option ℤ) : Prop :=
  (best = none ∧ dist = none ∧
    ∀ p ∈ items, nd.regionId = p.2.regId → fcsFits nd p.2 = false) ∨
  (∃ b d, best = some b ∧ dist = some d ∧
    (∃ v, (v, b) ∈ items ∧ nd.regionId = b.regId ∧
      fcsFits nd b = true ∧ d = fcsHori nd b + v) ∧
    (∀ p ∈ items, nd.regionId = p.2.regId → fcsFits nd p.2 = true →
      d ≤ fcsHori nd p.2 + p.1))

/-- The joint search invariant. -/
def MInv (nd : Node) (items : List (ℤ × DetailedSeg)) (st : FcsState) :
    Prop :=
  MInv1 nd items st.best1 st.dist1 ∧ MInv2 nd items st.best2 st.dist2

/-- Segment `s` is a candidate for cell `nd`: it lies in row `r` of the
per-row table and its region id matches the cell's. -/
def MatchAt (nd : Node) (rows : List (List DetailedSeg)) (r : Nat)
    (s : DetailedSeg) : Prop :=
  r < rows.length ∧ s ∈ rows.getD r [] ∧ nd.regionId = s.regId

/-! ## Composite rebuilds (`buildBlockagesAndSegments`) -/

/-- `DetailedMgr::findBlockages` as a state transformer: the previous
per-row blockage table is cleared and rebuilt from the fixed cells and
routing obstructions alone. -/
def findBlockagesM (arch : Architecture) (rt : Option RoutingParams)
    (includeRouteBlockages : Bool) (fixedCells : List Node)
    (st : DMState) : DMState :=
  let b := findBlockages arch rt includeRouteBlockages fixedCells
  { st with blockages := b }

/-- `DetailedMgr::findSegments` as a state transformer: the previous
segment list is deleted and rebuilt from the blockage table alone. -/
def findSegmentsM (arch : Architecture) (st : DMState) : DMState :=
  let b := findSegments arch st.blockages
  { st with
    segs := b.segs
    segsInRow := b.segsInRow
    cellsInSeg := b.cellsInSeg }

/-- Modelled from the spec: `buildBlockagesAndSegments` (declared in the
external interface but not among the reviewed sources) rebuilds the
row/segment partition by running `findBlockages` then `findSegments`. -/
def buildBlockagesAndSegments (arch : Architecture)
    (rt : Option RoutingParams) (includeRouteBlockages : Bool)
    (fixedCells : List Node) (st : DMState) : DMState :=
  findSegmentsM arch (findBlockagesM arch rt includeRouteBlockages
    fixedCells st)

/-! ## Grouped assignment operations (callers of
`addCellToSegment`/`removeCellFromSegment`) -/

/-- Insert a cell into each segment of a span, as
`assignCellsToSegments`/`acceptMove` do. -/
def addCellToSegments (st : DMState) (ndId : Nat) (segs : List Nat) :
    Except String DMState :=
  segs.foldlM (fun s sg => addCellToSegment s ndId sg) st

/-- Remove a cell from every segment it occupies, iterating over a
snapshot of its reverse-map entry (as `acceptMove` iterates over the
staged old-segment list). -/
def removeCellFromSegments (st : DMState) (ndId : Nat) :
    Except String DMState :=
  (st.revMap.getD ndId []).foldlM
    (fun s sg => removeCellFromSegment s ndId sg) st

/-- States reachable from a cleared mapping through successful whole-cell
insertions (one `addCellToSegment` per spanned segment, on in-range
segment and cell indices — `m_cellsInSeg` and `m_cellToSegs` are always
pre-sized to the segment and cell counts) and whole-cell removals. -/
inductive ReachCR : DMState → Prop
  | base (st : DMState) :
      (∀ l ∈ st.cellsInSeg, l = []) → (∀ l ∈ st.revMap, l = []) →
      ReachCR st
  | assign (st st' : DMState) (ndId : Nat) (segs : List Nat) :
      ReachCR st →
      ndId < st.revMap.length →
      segs.length = (st.getNode ndId).spanned →
      (∀ s ∈ segs, s < st.cellsInSeg.length) →
      addCellToSegments st ndId segs = .ok st' →
      ReachCR st'
  | unassign (st st' : DMState) (ndId : Nat) :
      ReachCR st →
      removeCellFromSegments st ndId = .ok st' →
      ReachCR st'

/-- Core consistency of the cell/segment double bookkeeping: membership in
a segment's cell list and in a cell's reverse-map entry coincide, every
reverse-map entry points into the cell-list table, and both tables are
duplicate-free entry-wise. -/
def MapInvCore (st : DMState) : Prop :=
  (∀ sg nd : Nat,
    nd ∈ st.cellsInSeg.getD sg [] ↔ sg ∈ st.revMap.getD nd []) ∧
  (∀ nd : Nat, ∀ sg ∈ st.revMap.getD nd [], sg < st.cellsInSeg.length) ∧
  (∀ sg : Nat, (st.cellsInSeg.getD sg []).Nodup) ∧
  (∀ nd : Nat, (st.revMap.getD nd []).Nodup)

/-- Sizing of the reverse map: an assigned cell's entry has exactly one
segment per spanned row; an unassigned cell's entry is empty. -/
def SpanInv (st : DMState) : Prop :=
  ∀ nd : Nat, (st.revMap.getD nd []).length = 0 ∨
    (st.revMap.getD nd []).length = (st.getNode nd).spanned

/-! ## Specification-side definitions and invariants -/

/-- Modelled from the spec: "derive free segments as the complement of
merged blockages within the row's legal x-range, discarding zero/
negative-width results" — the maximal subintervals of `[L, R)` avoiding
the (sorted, pairwise-disjoint) blockage intervals, read off with a
left-to-right cursor `c`. -/
def specFreeGo (R : ℤ) : ℤ → List (ℤ × ℤ) → List (ℤ × ℤ)
  | c, [] => if c < R then [(c, R)] else []
  | c, b :: rest =>
      (if c < min R b.1 then [(c, min R b.1)] else []) ++
        specFreeGo R (max c b.2) rest

/-- The maximal free subintervals of `[L, R)` with respect to a merged
blockage list. -/
def specFreeSegs (L R : ℤ) (bs : List (ℤ × ℤ)) : List (ℤ × ℤ) :=
  specFreeGo R L bs

/-- The shared legalization state a move proposal must not touch: every
node's position, every segment (in particular its utilization), every
segment's cell list, and the reverse cell→segments map. -/
def sharedOf (st : DMState) :
    List Node × List DetailedSeg × List (List Nat) × List (List Nat) :=
  (st.nodes, st.segs, st.cellsInSeg, st.revMap)

/-- Modelled from the spec (claim C5): a legal outcome of the shift
solver — positions on the row's site grid, cells (with the folded-in
spacing `weff`) inside `[leftLimit, rightLimit)`, in order and without
overlap. -/
def shiftPosOk (originX ss leftLimit rightLimit : ℤ)
    (weff pos : List ℤ) : Prop :=
  pos.length = weff.length ∧
  (∀ i < pos.length, (pos.getD i 0 - originX) % ss = 0) ∧
  (∀ i < pos.length,
    leftLimit ≤ pos.getD i 0 ∧
    pos.getD i 0 + weff.getD i 0 ≤ rightLimit) ∧
  (∀ i < pos.length, i + 1 < pos.length →
    pos.getD i 0 + weff.getD i 0 ≤ pos.getD (i + 1) 0)

/-- Total absolute displacement of positions from their targets. -/
def totalDisp (target pos : List ℤ) : ℤ :=
  ((List.range pos.length).map
    (fun i => |pos.getD i 0 - target.getD i 0|)).sum

/-- The utilization invariant: for every segment index, the recorded
utilization equals the sum of the (ceiled) widths of the cells in its
cell list (the two tables are sized alike, as the source keeps them). -/
def UtilInv (st : DMState) : Prop :=
  st.cellsInSeg.length = st.segs.length ∧
  ∀ i < st.segs.length,
    (st.segs.getD i default).util =
      ((st.cellsInSeg.getD i []).map
        (fun c => (st.getNode c).widthCeil)).sum

/-- Well-formedness of the segment store as `findSegments` creates it:
`m_segments[i]->getSegId() == i`. -/
def SegIdsOk (st : DMState) : Prop :=
  ∀ i < st.segs.length, (st.segs.getD i default).segId = i

instance (st : DMState) : Decidable (UtilInv st) :=
  inferInstanceAs (Decidable
    (st.cellsInSeg.length = st.segs.length ∧
      ∀ i, i < st.segs.length →
        (st.segs.getD i default).util =
          ((st.cellsInSeg.getD i []).map
            (fun c => (st.getNode c).widthCeil)).sum))

instance (st : DMState) : Decidable (SegIdsOk st) :=
  inferInstanceAs (Decidable
    (∀ i, i < st.segs.length → (st.segs.getD i default).segId = i))

/-- Well-formedness of one pre-snap segment: a valid row, both bounds at
or right of the row's left edge (the site origin), and no utilization
yet. -/
def SegWF (arch : Architecture) (g : DetailedSeg) : Prop :=
  g.rowId < arch.numRows ∧
  (arch.getRow g.rowId).left ≤ g.minX ∧
  (arch.getRow g.rowId).left ≤ g.maxX ∧
  g.util = 0

/-- Well-formedness of the store/per-row pair threaded through
`findSegments`: every segment is `SegWF` and every per-row id points into
the store at a segment of that row. -/
def BuildWF (arch : Architecture)
    (p : List DetailedSeg × List (List Nat)) : Prop :=
  (∀ g ∈ p.1, SegWF arch g) ∧
  (∀ r : Nat, ∀ id ∈ p.2.getD r [],
    id < p.1.length ∧ (p.1.getD id default).rowId = r)

/-! ## Concrete fixtures (used to witness the theorems) -/

/-- A one-row architecture: row `[0,100)` at `y ∈ [0,10)`, unit sites, no
spacing rules, no fence regions. -/
def exArch1 : Architecture :=
  { rows := [⟨0, 10, 10, 0, 100, 1, 1⟩]
    minX := 0, maxX := 100, minY := 0, maxY := 10
    regions := [[]]
    cellSpacing := fun _ _ => 0
    powerCompatible := fun _ _ => true }

/-- A fixed cell occupying `[40,60)` in the row of `exArch1`. -/
def exFixed1 : Node := ⟨0, 40, 0, 20, 10, 1, 0, 40, 0⟩

/-- A one-row architecture with 10-unit sites (for the shift solver). -/
def exArchShift : Architecture :=
  { rows := [⟨0, 10, 10, 0, 100, 10, 10⟩]
    minX := 0, maxX := 100, minY := 0, maxY := 10
    regions := [[]]
    cellSpacing := fun _ _ => 0
    powerCompatible := fun _ _ => true }

/-- A single-height cell of width 10 currently at the origin. -/
def exNodeS : Node := ⟨0, 0, 0, 10, 10, 1, 0, 0, 0⟩

/-- A minimal manager state holding only `exNodeS`. -/
def exStateS : DMState :=
  { nodes := [exNodeS], segs := [], cellsInSeg := [], revMap := []
    blockages := [], segsInRow := [], moves := []
    maxDispX := 1000, maxDispY := 1000 }

/-- `exStateS` with a maximum x/y displacement of 5 units. -/
def exStateD : DMState := { exStateS with maxDispX := 5, maxDispY := 5 }

/-- A three-row architecture with unit sites and full-width segments. -/
def exArch3 : Architecture :=
  { rows := [⟨0, 10, 10, 0, 100, 1, 1⟩, ⟨10, 20, 10, 0, 100, 1, 1⟩,
             ⟨20, 30, 10, 0, 100, 1, 1⟩]
    minX := 0, maxX := 100, minY := 0, maxY := 30
    regions := [[]]
    cellSpacing := fun _ _ => 0
    powerCompatible := fun _ _ => true }

/-- A multi-height (2-row) cell at `(50, 0)`. -/
def exNodeM : Node := ⟨0, 50, 0, 10, 20, 2, 0, 50, 0⟩

/-- Full-width segments in each of the three rows of `exArch3`. -/
def exSegs3 : List DetailedSeg :=
  [⟨0, 0, 0, 0, 100, 0⟩, ⟨1, 1, 0, 0, 100, 0⟩, ⟨2, 2, 0, 0, 100, 0⟩]

/-- A state where `exNodeM` occupies segments 0 and 1 of `exArch3` (its
cell lists are not populated, which the `tryMove3` paths under test do not
consult for the moved cell). -/
def exStateM : DMState :=
  { nodes := [exNodeM], segs := exSegs3
    cellsInSeg := [[], [], []], revMap := [[0, 1]]
    blockages := [], segsInRow := [[0], [1], [2]], moves := []
    maxDispX := 1000, maxDispY := 1000 }

/-- `exStateM` with row 1 stripped of segments (the target row is
blocked). -/
def exStateMBlocked : DMState :=
  { exStateM with segsInRow := [[0], [], [2]] }

/-- A state whose cell↔segment maps are empty (the cleared mapping). -/
def exStateC7 : DMState :=
  { nodes := [exNodeS], segs := exSegs3
    cellsInSeg := [[], [], []], revMap := [[]]
    blockages := [], segsInRow := [[0], [1], [2]], moves := []
    maxDispX := 1000, maxDispY := 1000 }

/-- A state satisfying the utilization invariant: segment 0 holds the
width-10 cell. -/
def exStateU : DMState :=
  { nodes := [exNodeS]
    segs := [⟨0, 0, 0, 0, 100, 10⟩, ⟨1, 1, 0, 0, 100, 0⟩]
    cellsInSeg := [[0], []], revMap := [[0]]
    blockages := [], segsInRow := [[0], [1]], moves := []
    maxDispX := 1000, maxDispY := 1000 }

/-! # Theorems -/

/-! ## Shared-state preservation of the move/validate routines -/

theorem sharedOf_setMoves (st : DMState) (mv : List MoveRec) :
    sharedOf (st.setMoves mv) = sharedOf st := rfl

theorem sharedOf_clearMoveList (st : DMState) :
    sharedOf (clearMoveList st) = sharedOf st := rfl

theorem addToMoveList1_shared (st : DMState) (n : Nat) (a b : ℤ) (c : ℤ)
    (d e : ℤ) (f : ℤ) :
    sharedOf (addToMoveList1 st n a b c d e f).2 = sharedOf st := by
  simp only [addToMoveList1]
  split
  · rfl
  · split <;> rfl

theorem addToMoveListM_shared (st : DMState) (n : Nat) (a b : ℤ)
    (c : List ℤ) (d e : ℤ) (f : List ℤ) :
    sharedOf (addToMoveListM st n a b c d e f).2 = sharedOf st := by
  unfold addToMoveListM
  split <;> rfl

theorem shiftRightLoop_shared (arch : Architecture) (o ss sj : ℤ) :
    ∀ (q : List Nat) (st : DMState) (ndi : Node) (xj : ℤ),
    sharedOf (shiftRightLoop arch o ss sj st ndi xj q).2 = sharedOf st := by
  intro q
  induction q with
  | nil => intro st ndi xj; rfl
  | cons ndr rest ih =>
      intro st ndi xj
      simp only [shiftRightLoop]
      split
      · rfl
      · split
        · rfl
        · split
          next st' heq =>
            exact (congrArg (fun p => sharedOf p.2) heq).symm.trans
              (addToMoveList1_shared _ _ _ _ _ _ _ _)
          next st' heq =>
            have h : sharedOf st' = sharedOf st :=
              (congrArg (fun p => sharedOf p.2) heq).symm.trans
                (addToMoveList1_shared _ _ _ _ _ _ _ _)
            split
            · exact h
            · split
              · exact h
              · exact (ih st' _ _).trans h

theorem shiftRightHelper_shared (arch : Architecture) (st : DMState)
    (ndi : Node) (xj sj : ℤ) (r : Nat) :
    sharedOf (shiftRightHelper arch st ndi xj sj r).2 = sharedOf st := by
  simp only [shiftRightHelper]
  split
  · rfl
  · exact shiftRightLoop_shared arch _ _ sj _ st ndi xj

theorem shiftLeftLoop_shared (arch : Architecture) (o ss sj : ℤ) :
    ∀ (q : List Nat) (st : DMState) (ndi : Node) (xj : ℤ),
    sharedOf (shiftLeftLoop arch o ss sj st ndi xj q).2 = sharedOf st := by
  intro q
  induction q with
  | nil => intro st ndi xj; rfl
  | cons ndl rest ih =>
      intro st ndi xj
      simp only [shiftLeftLoop]
      split
      · rfl
      · split
        · rfl
        · split
          next st' heq =>
            exact (congrArg (fun p => sharedOf p.2) heq).symm.trans
              (addToMoveList1_shared _ _ _ _ _ _ _ _)
          next st' heq =>
            have h : sharedOf st' = sharedOf st :=
              (congrArg (fun p => sharedOf p.2) heq).symm.trans
                (addToMoveList1_shared _ _ _ _ _ _ _ _)
            split
            · exact h
            · split
              · exact h
              · exact (ih st' _ _).trans h

theorem shiftLeftHelper_shared (arch : Architecture) (st : DMState)
    (ndi : Node) (xj sj : ℤ) (l : Nat) :
    sharedOf (shiftLeftHelper arch st ndi xj sj l).2 = sharedOf st := by
  simp only [shiftLeftHelper]
  split
  · rfl
  · exact shiftLeftLoop_shared arch _ _ sj _ st ndi xj

theorem tryMove1_shared (arch : Architecture) (st : DMState) (ndiId : Nat)
    (xi yi si xj0 yj0 sj : ℤ) :
    sharedOf (tryMove1 arch st ndiId xi yi si xj0 yj0 sj).2 = sharedOf st := by
  have hc : sharedOf (clearMoveList st) = sharedOf st := rfl
  simp only [tryMove1]
  split
  · exact hc
  · split
    · -- (none, none)
      split
      · exact hc
      · split
        · exact hc
        · exact (addToMoveList1_shared _ _ _ _ _ _ _ _).trans hc
    · -- (some l, none)
      split
      · exact hc
      · split
        · exact hc
        · split
          next st' heq =>
            exact ((congrArg (fun p => sharedOf p.2) heq).symm.trans
              (addToMoveList1_shared _ _ _ _ _ _ _ _)).trans hc
          next st' heq =>
            exact (shiftLeftHelper_shared _ _ _ _ _ _).trans
              (((congrArg (fun p => sharedOf p.2) heq).symm.trans
                (addToMoveList1_shared _ _ _ _ _ _ _ _)).trans hc)
    · -- (none, some r)
      split
      · exact hc
      · split
        · exact hc
        · split
          next st' heq =>
            exact ((congrArg (fun p => sharedOf p.2) heq).symm.trans
              (addToMoveList1_shared _ _ _ _ _ _ _ _)).trans hc
          next st' heq =>
            exact (shiftRightHelper_shared _ _ _ _ _ _).trans
              (((congrArg (fun p => sharedOf p.2) heq).symm.trans
                (addToMoveList1_shared _ _ _ _ _ _ _ _)).trans hc)
    · -- (some l, some r)
      split
      · exact hc
      · split
        · exact hc
        · split
          next st' heq =>
            exact ((congrArg (fun p => sharedOf p.2) heq).symm.trans
              (addToMoveList1_shared _ _ _ _ _ _ _ _)).trans hc
          next st' heq =>
            have h1 : sharedOf st' = sharedOf st :=
              ((congrArg (fun p => sharedOf p.2) heq).symm.trans
                (addToMoveList1_shared _ _ _ _ _ _ _ _)).trans hc
            split
            next st'' heq2 =>
              exact ((congrArg (fun p => sharedOf p.2) heq2).symm.trans
                (shiftRightHelper_shared _ _ _ _ _ _)).trans h1
            next st'' heq2 =>
              exact (shiftLeftHelper_shared _ _ _ _ _ _).trans
                (((congrArg (fun p => sharedOf p.2) heq2).symm.trans
                  (shiftRightHelper_shared _ _ _ _ _ _)).trans h1)

theorem tryMove2_shared (arch : Architecture) (st : DMState) (ndiId : Nat)
    (xi yi si xj0 yj0 sj : ℤ) :
    sharedOf (tryMove2 arch st ndiId xi yi si xj0 yj0 sj).2 = sharedOf st := by
  have hc : sharedOf (clearMoveList st) = sharedOf st := rfl
  simp only [tryMove2]
  repeat' split
  all_goals
    first
      | exact hc
      | exact (addToMoveList1_shared _ _ _ _ _ _ _ _).trans hc

theorem tryMove3_shared (arch : Architecture) (st : DMState) (ndiId : Nat)
    (xi yi si xj0 yj0 sj : ℤ) :
    sharedOf (tryMove3 arch st ndiId xi yi si xj0 yj0 sj).2 = sharedOf st := by
  have hc : sharedOf (clearMoveList st) = sharedOf st := rfl
  simp only [tryMove3]
  repeat' split
  all_goals
    first
      | exact hc
      | exact (addToMoveListM_shared _ _ _ _ _ _ _ _).trans hc

set_option maxHeartbeats 2000000 in
theorem trySwap1_shared (arch : Architecture) (st : DMState) (ndiId : Nat)
    (xi0 yi0 si xj0 yj0 sj : ℤ) :
    sharedOf (trySwap1 arch st ndiId xi0 yi0 si xj0 yj0 sj).2 =
      sharedOf st := by
  have hc : sharedOf (clearMoveList st) = sharedOf st := rfl
  simp only [trySwap1]
  repeat' split
  all_goals
    first
      | exact hc
      | exact (addToMoveList1_shared _ _ _ _ _ _ _ _).trans hc
      | (rename_i st' heq
         exact ((congrArg (fun p => sharedOf p.2) heq).symm.trans
           (addToMoveList1_shared _ _ _ _ _ _ _ _)).trans hc)
      | (rename_i st' heq
         exact (addToMoveList1_shared _ _ _ _ _ _ _ _).trans
           (((congrArg (fun p => sharedOf p.2) heq).symm.trans
             (addToMoveList1_shared _ _ _ _ _ _ _ _)).trans hc))

/-- **C1**: for every candidate operation (`tryMove1`, `tryMove2`,
`tryMove3`, `trySwap1`) that returns `false`, all shared legalization
state is unchanged — every node's left/bottom position, every segment's
cell list and utilization, and the reverse cell-to-segments map are
identical before and after the call (only the staged move list may
differ) — and `rejectMove` discards the staged list without touching
shared state. -/
theorem spec2proof_c1 (arch : Architecture) (st : DMState) (ndiId : Nat)
    (xi yi si xj yj sj : ℤ) :
    ((tryMove1 arch st ndiId xi yi si xj yj sj).1 = false →
      sharedOf (tryMove1 arch st ndiId xi yi si xj yj sj).2 = sharedOf st) ∧
    ((tryMove2 arch st ndiId xi yi si xj yj sj).1 = false →
      sharedOf (tryMove2 arch st ndiId xi yi si xj yj sj).2 = sharedOf st) ∧
    ((tryMove3 arch st ndiId xi yi si xj yj sj).1 = false →
      sharedOf (tryMove3 arch st ndiId xi yi si xj yj sj).2 = sharedOf st) ∧
    ((trySwap1 arch st ndiId xi yi si xj yj sj).1 = false →
      sharedOf (trySwap1 arch st ndiId xi yi si xj yj sj).2 = sharedOf st) ∧
    (sharedOf (rejectMove st) = sharedOf st ∧ (rejectMove st).moves = []) :=
  ⟨fun _ => tryMove1_shared arch st ndiId xi yi si xj yj sj,
   fun _ => tryMove2_shared arch st ndiId xi yi si xj yj sj,
   fun _ => tryMove3_shared arch st ndiId xi yi si xj yj sj,
   fun _ => trySwap1_shared arch st ndiId xi yi si xj yj sj,
   rfl, rfl⟩

theorem spec2proof_c1_witness :
    (tryMove1 exArch1 exStateS 0 0 0 0 0 0 0).1 = false ∧
    sharedOf (tryMove1 exArch1 exStateS 0 0 0 0 0 0 0).2 =
      sharedOf exStateS ∧
    (tryMove2 exArch1 exStateS 0 0 0 0 0 0 1).1 = false ∧
    sharedOf (tryMove2 exArch1 exStateS 0 0 0 0 0 0 1).2 =
      sharedOf exStateS ∧
    (tryMove3 exArch1 exStateS 0 0 0 0 0 0 0).1 = false ∧
    sharedOf (tryMove3 exArch1 exStateS 0 0 0 0 0 0 0).2 =
      sharedOf exStateS ∧
    (trySwap1 exArch1 exStateS 0 0 0 0 0 0 0).1 = false ∧
    sharedOf (trySwap1 exArch1 exStateS 0 0 0 0 0 0 0).2 =
      sharedOf exStateS := by
  have h1 := spec2proof_c1 exArch1 exStateS 0 0 0 0 0 0 0
  have h2 := spec2proof_c1 exArch1 exStateS 0 0 0 0 0 0 1
  exact ⟨by decide, h1.1 (by decide), by decide, h2.2.1 (by decide),
    by decide, h1.2.2.1 (by decide), by decide, h1.2.2.2.1 (by decide)⟩

/-- **C9**: rebuilding the segmentation is idempotent — with the
architecture, fixed cells and routing blockages unchanged, running
`findBlockages` followed by `findSegments` twice produces the same
segment list (ids, rows, regions, bounds, in the same order), the same
per-row segment partition, the same per-segment cell lists, and the same
per-row blockage intervals as running it once. -/
theorem spec2proof_c9 (arch : Architecture) (rt : Option RoutingParams)
    (inc : Bool) (fixedCells : List Node) (st : DMState) :
    (buildBlockagesAndSegments arch rt inc fixedCells
        (buildBlockagesAndSegments arch rt inc fixedCells st)).segs =
      (buildBlockagesAndSegments arch rt inc fixedCells st).segs ∧
    (buildBlockagesAndSegments arch rt inc fixedCells
        (buildBlockagesAndSegments arch rt inc fixedCells st)).segsInRow =
      (buildBlockagesAndSegments arch rt inc fixedCells st).segsInRow ∧
    (buildBlockagesAndSegments arch rt inc fixedCells
        (buildBlockagesAndSegments arch rt inc fixedCells st)).cellsInSeg =
      (buildBlockagesAndSegments arch rt inc fixedCells st).cellsInSeg ∧
    (buildBlockagesAndSegments arch rt inc fixedCells
        (buildBlockagesAndSegments arch rt inc fixedCells st)).blockages =
      (buildBlockagesAndSegments arch rt inc fixedCells st).blockages :=
  ⟨rfl, rfl, rfl, rfl⟩

/-- **C2**: the single-segment `addToMoveList` overload succeeds — and
appends exactly one staged entry — iff the number of already-staged cells
is strictly below the fixed move limit 10 and the (ceiled, here integral)
displacements of the new position from the cell's original
pre-legalization position are within the configured maxima; on failure
the state is returned untouched. -/
theorem spec2proof_c2 (st : DMState) (ndId : Nat) (curLeft curBottom : ℤ)
    (curSeg : ℤ) (newLeft newBottom : ℤ) (newSeg : ℤ) :
    ((addToMoveList1 st ndId curLeft curBottom curSeg newLeft newBottom
        newSeg).1 = true ↔
      st.moves.length < 10 ∧
      |newLeft - (st.getNode ndId).origLeft| ≤ st.maxDispX ∧
      |newBottom - (st.getNode ndId).origBottom| ≤ st.maxDispY) ∧
    ((addToMoveList1 st ndId curLeft curBottom curSeg newLeft newBottom
        newSeg).1 = true →
      (addToMoveList1 st ndId curLeft curBottom curSeg newLeft newBottom
        newSeg).2.moves = st.moves ++
        [⟨ndId, curLeft, curBottom, [curSeg], newLeft, newBottom,
          [newSeg]⟩]) ∧
    ((addToMoveList1 st ndId curLeft curBottom curSeg newLeft newBottom
        newSeg).1 = false →
      (addToMoveList1 st ndId curLeft curBottom curSeg newLeft newBottom
        newSeg).2 = st) := by
  simp only [addToMoveList1, moveLimit]
  split
  next h1 =>
    refine ⟨?_, ?_, fun _ => rfl⟩
    · exact iff_of_false (by simp) (fun hr => by omega)
    · intro h
      simp at h
  next h1 =>
    split
    next h2 =>
      refine ⟨?_, ?_, fun _ => rfl⟩
      · refine iff_of_false (by simp) ?_
        rintro ⟨-, hx, hy⟩
        rcases h2 with h | h
        · exact absurd hx (not_le.mpr h)
        · exact absurd hy (not_le.mpr h)
      · intro h
        simp at h
    next h2 =>
      push_neg at h2
      refine ⟨?_, fun _ => rfl, ?_⟩
      · exact iff_of_true rfl ⟨by omega, h2.1, h2.2⟩
      · intro h
        simp at h

theorem spec2proof_c2_witness :
    ((addToMoveList1 exStateD 0 0 0 0 6 0 0).1 = false ∧
      (addToMoveList1 exStateD 0 0 0 0 6 0 0).2 = exStateD) ∧
    ((addToMoveList1 exStateD 0 0 0 0 4 0 0).1 = true ∧
      (addToMoveList1 exStateD 0 0 0 0 4 0 0).2.moves =
        exStateD.moves ++ [⟨0, 0, 0, [0], 4, 0, [0]⟩]) := by
  have h1 := spec2proof_c2 exStateD 0 0 0 0 6 0 0
  have h2 := spec2proof_c2 exStateD 0 0 0 0 4 0 0
  exact ⟨⟨by decide, h1.2.2 (by decide)⟩,
    ⟨by decide, h2.2.1 (by decide)⟩⟩

/-- **C5** (failing-input evaluation): on a single cell of width 10 (one
site) with target left edge 10, in the site range `[0, 25)` of a row with
origin 0 and pitch 10 (sites at 0 and 10), `shift` succeeds but returns
position 0 — total displacement 10 — although placing the cell at 10 is a
site-aligned, in-range, order-preserving placement with total displacement
0.  The DP leaves `tcost[i][0] = DBL_MAX` for `i > 0`, so the first cell
can only ever be anchored at the first site of the range, contradicting
the claimed displacement minimality. -/
theorem spec2proof_c5 :
    shift exArchShift exStateS [0] [10] [0] 0 25 0 = some [0] ∧
    shiftPosOk 0 10 0 25 [10] [10] ∧
    totalDisp [10] [10] = 0 ∧
    totalDisp [10] [0] = 10 := by
  exact ⟨by decide, ⟨rfl, by decide, by decide, by decide⟩, by decide,
    by decide⟩

/-! ## `tryMove3` (claim C6) -/

theorem tm3_foldl_stopped (st : DMState) (regionId xj : ℤ) :
    ∀ (rows : List ℤ) (acc : List ℤ),
    rows.foldl (tm3Step st regionId xj) (acc, true) = (acc, true) := by
  intro rows
  induction rows with
  | nil => intro acc; rfl
  | cons r rest ih =>
      intro acc
      simp only [List.foldl_cons]
      have h : tm3Step st regionId xj (acc, true) r = (acc, true) := rfl
      rw [h]
      exact ih acc

theorem tm3_foldl_fail (st : DMState) (regionId xj : ℤ) :
    ∀ (rows : List ℤ) (acc : List ℤ),
    (∃ r ∈ rows, ∀ sid ∈ st.rowSegsZ r,
      tm3SegOk st regionId xj sid = false) →
    ((rows.foldl (tm3Step st regionId xj) (acc, false)).1).length <
      acc.length + rows.length := by
  intro rows
  induction rows with
  | nil =>
      intro acc h
      rcases h with ⟨r, hr, -⟩
      cases hr
  | cons r rest ih =>
      intro acc h
      simp only [List.foldl_cons]
      have hstep : tm3Step st regionId xj (acc, false) r =
          match (st.rowSegsZ r).find? (tm3SegOk st regionId xj) with
          | some sid =>
              (acc ++ [((st.segs.getD sid default).segId : ℤ)], false)
          | none => (acc, true) := rfl
      rcases hfind : (st.rowSegsZ r).find? (tm3SegOk st regionId xj) with
        _ | sid
      · rw [hstep, hfind]
        rw [tm3_foldl_stopped st regionId xj rest acc]
        simp only [List.length_cons]
        omega
      · rw [hstep, hfind]
        dsimp only
        rcases h with ⟨r', hr', hall⟩
        rcases List.mem_cons.mp hr' with rfl | hr'
        · exfalso
          have hmem := List.mem_of_find?_eq_some hfind
          have hok := List.find?_some hfind
          have := hall sid hmem
          rw [this] at hok
          cases hok
        · have hih := ih (acc ++ [((st.segs.getD sid default).segId : ℤ)])
            ⟨r', hr', hall⟩
          have hl : (acc ++ [((st.segs.getD sid default).segId : ℤ)]).length
              = acc.length + 1 := by simp
          rw [hl] at hih
          rw [List.length_cons]
          omega

/-- **C6**: for a multi-height cell, if any of the spanned rows derived
from the target has no segment with the cell's region id whose
`[minX, maxX]` interval contains the target x, `tryMove3` returns
`false`; and whenever `tryMove3` succeeds it stages exactly one cell —
the moved cell itself. -/
theorem spec2proof_c6 (arch : Architecture) (st : DMState) (ndiId : Nat)
    (xi yi si xj0 yj0 sj : ℤ) :
    ((∃ r ∈ tm3Rows arch st ndiId sj, ∀ sid ∈ st.rowSegsZ r,
        ¬((st.segs.getD sid default).regId = (st.getNode ndiId).regionId ∧
          xj0 ≥ (st.segs.getD sid default).minX ∧
          xj0 ≤ (st.segs.getD sid default).maxX)) →
      (tryMove3 arch st ndiId xi yi si xj0 yj0 sj).1 = false) ∧
    ((tryMove3 arch st ndiId xi yi si xj0 yj0 sj).1 = true →
      (tryMove3 arch st ndiId xi yi si xj0 yj0 sj).2.moves.length = 1 ∧
      ((tryMove3 arch st ndiId xi yi si xj0 yj0 sj).2.moves.getD 0
        default).ndId = ndiId) := by
  have hrows : tm3Rows arch (clearMoveList st) ndiId sj =
      tm3Rows arch st ndiId sj := rfl
  have hseg : ∀ r, (clearMoveList st).rowSegsZ r = st.rowSegsZ r :=
    fun _ => rfl
  simp only [tryMove3]
  split
  · exact ⟨fun _ => rfl, fun h => by cases h⟩
  · split
    · exact ⟨fun _ => rfl, fun h => by cases h⟩
    · split
      next hlen =>
        exact ⟨fun _ => rfl, fun h => by cases h⟩
      next hlen =>
        constructor
        · -- the failure hypothesis contradicts the length check
          intro hfail
          exfalso
          apply hlen
          have : (tm3CollectSegs (clearMoveList st)
              ((clearMoveList st).getNode ndiId).regionId xj0
              (tm3Rows arch (clearMoveList st) ndiId sj)).length <
              (tm3Rows arch (clearMoveList st) ndiId sj).length := by
            have hex : ∃ r ∈ tm3Rows arch (clearMoveList st) ndiId sj,
                ∀ sid ∈ (clearMoveList st).rowSegsZ r,
                tm3SegOk (clearMoveList st)
                  ((clearMoveList st).getNode ndiId).regionId xj0 sid =
                  false := by
              rcases hfail with ⟨r, hr, hall⟩
              refine ⟨r, hr, fun sid hsid => ?_⟩
              have := hall sid hsid
              simp only [tm3SegOk, decide_eq_false_iff_not]
              exact fun hcon => this ⟨hcon.1, hcon.2.1, hcon.2.2⟩
            have := tm3_foldl_fail (clearMoveList st)
              ((clearMoveList st).getNode ndiId).regionId xj0
              (tm3Rows arch (clearMoveList st) ndiId sj) [] hex
            simpa [tm3CollectSegs] using this
          have hlen2 : (tm3Rows arch (clearMoveList st) ndiId sj).length =
              ((clearMoveList st).getNode ndiId).spanned := by
            simp [tm3Rows]
          omega
        · intro htrue
          constructor
          · -- on success exactly one entry is staged
            revert htrue
            repeat' split
            all_goals intro htrue
            all_goals first
              | exact Bool.noConfusion htrue
              | rfl
          · revert htrue
            repeat' split
            all_goals intro htrue
            all_goals first
              | exact Bool.noConfusion htrue
              | rfl

theorem spec2proof_c6_witness :
    ((∃ r ∈ tm3Rows exArch3 exStateMBlocked 0 0,
        ∀ sid ∈ exStateMBlocked.rowSegsZ r,
        ¬((exStateMBlocked.segs.getD sid default).regId =
            (exStateMBlocked.getNode 0).regionId ∧
          (5 : ℤ) ≥ (exStateMBlocked.segs.getD sid default).minX ∧
          (5 : ℤ) ≤ (exStateMBlocked.segs.getD sid default).maxX)) ∧
      (tryMove3 exArch3 exStateMBlocked 0 50 0 0 5 0 0).1 = false) ∧
    ((tryMove3 exArch3 exStateM 0 50 0 0 5 0 0).1 = true ∧
      (tryMove3 exArch3 exStateM 0 50 0 0 5 0 0).2.moves.length = 1 ∧
      ((tryMove3 exArch3 exStateM 0 50 0 0 5 0 0).2.moves.getD 0
        default).ndId = 0) := by
  have h1 := spec2proof_c6 exArch3 exStateMBlocked 0 50 0 0 5 0 0
  have h2 := spec2proof_c6 exArch3 exStateM 0 50 0 0 5 0 0
  exact ⟨⟨by decide, h1.1 (by decide)⟩, by decide, h2.2 (by decide)⟩

/-! ## Row segmentation as a complement (claim C3) -/

theorem splitRowTail_eq_specGo (L R : ℤ) :
    ∀ (bs : List (ℤ × ℤ)) (prev : ℤ × ℤ),
    List.Chain' (fun a b => a.2 < b.1) (prev :: bs) →
    (∀ b ∈ bs, b.1 ≤ b.2) →
    splitRowTail L R prev bs = specFreeGo R (max L prev.2) bs := by
  intro bs
  induction bs with
  | nil =>
      intro prev _ _
      simp only [splitRowTail, specFreeGo]
      by_cases h : max L prev.2 < R
      · rw [if_pos, if_pos h]
        · rw [min_eq_right h.le]
        · refine ⟨lt_of_le_of_lt (le_max_right L prev.2) h, ?_⟩
          rw [min_eq_right h.le]
          exact h
      · rw [if_neg, if_neg h]
        rintro ⟨-, h2⟩
        rw [min_eq_left (le_of_not_lt h)] at h2
        exact lt_irrefl R h2
  | cons b rest ih =>
      intro prev hchain hwf
      have hsep : prev.2 < b.1 := (List.chain'_cons.mp hchain).1
      have hchain' : List.Chain' (fun a c => a.2 < c.1) (b :: rest) :=
        (List.chain'_cons.mp hchain).2
      have hwfb : b.1 ≤ b.2 := hwf b (List.mem_cons_self b rest)
      have hwf' : ∀ c ∈ rest, c.1 ≤ c.2 :=
        fun c hc => hwf c (List.mem_cons_of_mem b hc)
      simp only [splitRowTail, specFreeGo]
      have hmax : max (max L prev.2) b.2 = max L b.2 := by
        have : prev.2 ≤ b.2 := le_trans hsep.le hwfb
        omega
      rw [ih b hchain' hwf', hmax]
      congr 1
      by_cases h : max L prev.2 < min R b.1
      · rw [if_pos ⟨hsep, h⟩, if_pos h]
      · rw [if_neg, if_neg h]
        rintro ⟨-, h2⟩
        exact h h2

/-- **C3**: after `findBlockages` and `findSegments`, the segments of each
row are exactly the maximal subintervals of the row's legal x-range
`[max(archMinX, rowLeft), min(archMaxX, rowRight))` that avoid the
(sorted, pairwise-separated) merged blockage intervals, with empty
intervals discarded; in particular a fixed cell `[40,60)` in a `[0,100)`
row (no spacing widening) yields exactly the two segments `[0,40)` and
`[60,100)`. -/
theorem spec2proof_c3 :
    (∀ (L R : ℤ) (bs : List (ℤ × ℤ)),
      List.Chain' (fun a b => a.2 < b.1) bs →
      (∀ b ∈ bs, b.1 ≤ b.2) →
      splitRowSegs L R bs = specFreeSegs L R bs) ∧
    (findBlockages exArch1 none false [exFixed1] = [[(40, 60)]] ∧
      (findSegments exArch1
          (findBlockages exArch1 none false [exFixed1])).segs =
        [⟨0, 0, 0, 0, 40, 0⟩, ⟨1, 0, 0, 60, 100, 0⟩]) := by
  refine ⟨?_, by decide, by decide⟩
  intro L R bs hchain hwf
  cases bs with
  | nil => rfl
  | cons b rest =>
      have hwfb : b.1 ≤ b.2 := hwf b (List.mem_cons_self b rest)
      have hwf' : ∀ c ∈ rest, c.1 ≤ c.2 :=
        fun c hc => hwf c (List.mem_cons_of_mem b hc)
      simp only [splitRowSegs, specFreeSegs, specFreeGo]
      rw [splitRowTail_eq_specGo L R rest b hchain hwf']
      congr 1
      by_cases h : L < min R b.1
      · rw [if_pos ⟨lt_of_lt_of_le h (min_le_right R b.1), h⟩, if_pos h]
      · rw [if_neg, if_neg h]
        rintro ⟨-, h2⟩
        exact h h2

theorem spec2proof_c3_witness :
    (List.Chain' (fun (a b : ℤ × ℤ) => a.2 < b.1) [(40, 60)] ∧
      (∀ b ∈ ([(40, 60)] : List (ℤ × ℤ)), b.1 ≤ b.2)) ∧
    splitRowSegs 0 100 [(40, 60)] = specFreeSegs 0 100 [(40, 60)] :=
  ⟨⟨by simp, by decide⟩,
    spec2proof_c3.1 0 100 [(40, 60)] (by simp) (by decide)⟩

/-! ## Site alignment and initialization of fresh segments (claim C8) -/

theorem getD_set_self {α : Type} (l : List α) (i : Nat) (a d : α)
    (h : i < l.length) : (l.set i a).getD i d = a := by
  simp [List.getD_eq_getElem?_getD, List.getElem?_set_self', h]

theorem getD_set_ne {α : Type} (l : List α) (i j : Nat) (a d : α)
    (h : i ≠ j) : (l.set i a).getD j d = l.getD j d := by
  simp [List.getD_eq_getElem?_getD, List.getElem?_set_ne h]

theorem foldl_preserve {α β : Type} (P : α → Prop) (f : α → β → α) :
    ∀ (l : List β) (a : α), P a → (∀ x b, b ∈ l → P x → P (f x b)) →
    P (l.foldl f a) := by
  intro l
  induction l with
  | nil => intro a h _; exact h
  | cons b rest ih =>
      intro a h hf
      exact ih (f a b) (hf a b (List.mem_cons_self b rest) h)
        (fun x c hc => hf x c (List.mem_cons_of_mem b hc))

theorem splitRowTail_bounds (L R : ℤ) :
    ∀ (bs : List (ℤ × ℤ)) (prev : ℤ × ℤ) (iv : ℤ × ℤ),
    iv ∈ splitRowTail L R prev bs → L ≤ iv.1 ∧ iv.1 < iv.2 := by
  intro bs
  induction bs with
  | nil =>
      intro prev iv hmem
      simp only [splitRowTail] at hmem
      split at hmem
      next hcond =>
        rcases List.mem_singleton.mp hmem with rfl
        refine ⟨?_, hcond.2⟩
        rcases le_or_lt R (max L prev.2) with h | h
        · rw [min_eq_left h] at hcond
          exact absurd hcond.2 (lt_irrefl R)
        · rw [min_eq_right h.le]
          exact le_max_left L prev.2
      next => cases hmem
  | cons b rest ih =>
      intro prev iv hmem
      simp only [splitRowTail, List.mem_append] at hmem
      rcases hmem with hmem | hmem
      · split at hmem
        next hcond =>
          rcases List.mem_singleton.mp hmem with rfl
          exact ⟨le_max_left L prev.2, hcond.2⟩
        next => cases hmem
      · exact ih b iv hmem

theorem splitRowSegs_bounds (L R : ℤ) :
    ∀ (bs : List (ℤ × ℤ)) (iv : ℤ × ℤ),
    iv ∈ splitRowSegs L R bs → L ≤ iv.1 ∧ iv.1 < iv.2 := by
  intro bs iv hmem
  cases bs with
  | nil =>
      simp only [splitRowSegs] at hmem
      split at hmem
      next hcond =>
        rcases List.mem_singleton.mp hmem with rfl
        exact ⟨le_refl L, hcond⟩
      next => cases hmem
  | cons b rest =>
      simp only [splitRowSegs, List.mem_append] at hmem
      rcases hmem with hmem | hmem
      · split at hmem
        next hcond =>
          rcases List.mem_singleton.mp hmem with rfl
          exact ⟨le_refl L, hcond.2⟩
        next => cases hmem
      · exact splitRowTail_bounds L R rest b iv hmem

theorem segAppend_fold_spec (r : Nat) :
    ∀ (ivs : List (ℤ × ℤ)) (store : List DetailedSeg),
    (ivs.foldl (segAppendStep r) store).length =
      store.length + ivs.length ∧
    (∀ i (d : DetailedSeg), i < store.length →
      (ivs.foldl (segAppendStep r) store).getD i d = store.getD i d) ∧
    (∀ i (d : DetailedSeg), store.length ≤ i →
      i < store.length + ivs.length →
      ∃ iv ∈ ivs,
        (ivs.foldl (segAppendStep r) store).getD i d =
          ⟨i, r, 0, iv.1, iv.2, 0⟩) := by
  intro ivs
  induction ivs with
  | nil =>
      intro store
      refine ⟨rfl, fun _ _ _ => rfl, fun i d h1 h2 => ?_⟩
      simp only [List.length_nil, Nat.add_zero] at h2
      exact absurd h1 (by omega)
  | cons iv rest ih =>
      intro store
      simp only [List.foldl_cons]
      have hstep : segAppendStep r store iv =
          store ++ [⟨store.length, r, 0, iv.1, iv.2, 0⟩] := rfl
      have h1len : (segAppendStep r store iv).length = store.length + 1 := by
        rw [hstep]; simp
      obtain ⟨ihlen, ihpre, ihnew⟩ := ih (segAppendStep r store iv)
      refine ⟨?_, ?_, ?_⟩
      · rw [ihlen, h1len, List.length_cons]
        omega
      · intro i d hi
        rw [ihpre i d (by omega), hstep,
          List.getD_append _ _ d i hi]
      · intro i d hle hlt
        by_cases hEq : i = store.length
        · refine ⟨iv, List.mem_cons_self iv rest, ?_⟩
          rw [hEq, ihpre store.length d (by rw [h1len]; omega), hstep,
            List.getD_append_right _ _ d store.length (le_refl _)]
          simp
        · obtain ⟨iv', hmem, heq⟩ := ihnew i d (by omega)
            (by rw [h1len]; rw [List.length_cons] at hlt; omega)
          exact ⟨iv', List.mem_cons_of_mem iv hmem, heq⟩

theorem buildRowPhase_aux (arch : Architecture)
    (bl : List (List (ℤ × ℤ))) :
    ∀ n, n ≤ arch.numRows →
    BuildWF arch ((List.range n).foldl (buildRowStep arch bl) ([], [])) ∧
    ((List.range n).foldl (buildRowStep arch bl) ([], [])).2.length = n := by
  intro n
  induction n with
  | zero =>
      intro _
      exact ⟨⟨fun g hg => absurd hg (List.not_mem_nil g),
        fun r id hid => absurd hid (List.not_mem_nil id)⟩, rfl⟩
  | succ n ih =>
      intro hn
      obtain ⟨⟨ihseg, ihrow⟩, ihlen⟩ := ih (by omega)
      rw [List.range_succ, List.foldl_append, List.foldl_cons,
        List.foldl_nil]
      set acc := (List.range n).foldl (buildRowStep arch bl) ([], [])
        with hacc
      have hstep : buildRowStep arch bl acc n =
          ((splitRowSegs (max arch.minX (arch.getRow n).left)
            (min arch.maxX (arch.getRow n).right) (bl.getD n [])).foldl
            (segAppendStep n) acc.1,
          acc.2 ++ [List.range' acc.1.length
            (splitRowSegs (max arch.minX (arch.getRow n).left)
              (min arch.maxX (arch.getRow n).right)
              (bl.getD n [])).length]) := rfl
      set ivs := splitRowSegs (max arch.minX (arch.getRow n).left)
        (min arch.maxX (arch.getRow n).right) (bl.getD n []) with hivs
      obtain ⟨flen, fpre, fnew⟩ := segAppend_fold_spec n ivs acc.1
      rw [hstep]
      constructor
      · constructor
        · -- every stored segment is well-formed
          intro g hg
          have hidx := List.mem_iff_getElem.mp hg
          obtain ⟨i, hilt, hgi⟩ := hidx
          have hgd : (ivs.foldl (segAppendStep n) acc.1).getD i default =
              g := by
            rw [List.getD_eq_getElem?_getD, List.getElem?_eq_getElem hilt]
            exact hgi ▸ rfl
          by_cases hi : i < acc.1.length
          · rw [fpre i default hi] at hgd
            apply ihseg
            rw [← hgd]
            rw [List.getD_eq_getElem?_getD, List.getElem?_eq_getElem hi]
            exact List.getElem_mem hi
          · obtain ⟨iv, hmem, heq⟩ := fnew i default (by omega)
              (by rw [flen] at hilt; exact hilt)
            rw [heq] at hgd
            obtain ⟨hL, hlt2⟩ := splitRowSegs_bounds _ _ _ iv hmem
            rw [← hgd]
            refine ⟨?_, ?_, ?_, rfl⟩
            · show n < arch.numRows
              omega
            · show (arch.getRow n).left ≤ iv.1
              exact le_trans (le_max_right _ _) hL
            · show (arch.getRow n).left ≤ iv.2
              exact le_trans (le_trans (le_max_right _ _) hL) hlt2.le
        · -- per-row ids point to segments of that row
          intro r id hid
          by_cases hr : r < n
          · rw [List.getD_append _ _ [] r (by omega)] at hid
            obtain ⟨hlt, hrow⟩ := ihrow r id hid
            refine ⟨by rw [flen]; omega, ?_⟩
            rw [fpre id default hlt]
            exact hrow
          · by_cases hr2 : r = n
            · subst hr2
              rw [List.getD_append_right _ _ [] r (by omega), ihlen,
                Nat.sub_self] at hid
              simp only [List.getD_cons_zero] at hid
              have hmem := List.mem_range'_1.mp hid
              obtain ⟨iv, hivmem, heq⟩ := fnew id default hmem.1
                (by omega)
              refine ⟨by rw [flen]; omega, ?_⟩
              rw [heq]
            · have : (acc.2 ++ [List.range' acc.1.length ivs.length]).length
                  ≤ r := by
                simp only [List.length_append, List.length_cons,
                  List.length_nil, ihlen]
                omega
              rw [List.getD_eq_default _ _ this] at hid
              cases hid
      · simp only [List.length_append, List.length_cons, List.length_nil,
          ihlen]

theorem buildRowPhase_wf (arch : Architecture) (bl : List (List (ℤ × ℤ))) :
    BuildWF arch (buildRowPhase arch bl) :=
  (buildRowPhase_aux arch bl arch.numRows (le_refl _)).1

theorem regionInteract_wf (arch : Architecture) (reg il ir : ℤ) (r : Nat)
    (nextId : Nat) (seg : DetailedSeg)
    (hwf : SegWF arch seg) (hrow : seg.rowId = r) :
    SegWF arch (regionInteract reg il ir r nextId seg).1 ∧
    (regionInteract reg il ir r nextId seg).1.rowId = seg.rowId ∧
    ∀ g ∈ (regionInteract reg il ir r nextId seg).2,
      SegWF arch g ∧ g.rowId = r := by
  obtain ⟨h1, h2, h3, h4⟩ := hwf
  rw [hrow] at h1 h2 h3
  simp only [regionInteract]
  split_ifs with hc1 hc2 hc3 hc4 hc5
  · exact ⟨⟨hrow ▸ h1, hrow ▸ h2, hrow ▸ h3, h4⟩, rfl,
      fun g hg => absurd hg (List.not_mem_nil g)⟩
  · exact ⟨⟨hrow ▸ h1, hrow ▸ h2, hrow ▸ h3, h4⟩, rfl,
      fun g hg => absurd hg (List.not_mem_nil g)⟩
  · exact ⟨⟨hrow ▸ h1, hrow ▸ h2, hrow ▸ h3, h4⟩, rfl,
      fun g hg => absurd hg (List.not_mem_nil g)⟩
  · -- case 2: split right, new region segment on the right
    refine ⟨⟨hrow ▸ h1, hrow ▸ h2, hrow ▸ (h2.trans hc4.1.le), h4⟩, rfl,
      fun g hg => ?_⟩
    rcases List.mem_singleton.mp hg with rfl
    exact ⟨⟨h1, h2.trans hc4.1.le, h3, rfl⟩, rfl⟩
  · -- case 3: split left, new region segment on the left
    have hslir : seg.minX < ir := not_le.mp hc1
    refine ⟨⟨hrow ▸ h1, hrow ▸ (h2.trans hslir.le), hrow ▸ h3, h4⟩, rfl,
      fun g hg => ?_⟩
    rcases List.mem_singleton.mp hg with rfl
    exact ⟨⟨h1, h2, h2.trans hslir.le, rfl⟩, rfl⟩
  · -- case 4: interior split
    have hil : seg.minX < il := by
      by_contra hle
      push_neg at hle
      rcases le_or_lt seg.maxX ir with hsr | hsr
      · exact hc3 ⟨hle, hsr⟩
      · exact hc5 ⟨hsr, hle⟩
    have hslir : seg.minX < ir := not_le.mp hc1
    have hirsr : ir < seg.maxX := by
      by_contra hle
      push_neg at hle
      rcases le_or_lt il seg.minX with hsl | hsl
      · exact hc3 ⟨hsl, hle⟩
      · exact hc4 ⟨hsl, hle⟩
    refine ⟨⟨hrow ▸ h1, hrow ▸ h2, hrow ▸ (h2.trans hil.le), h4⟩, rfl,
      fun g hg => ?_⟩
    rcases List.mem_cons.mp hg with rfl | hg2
    · exact ⟨⟨h1, h2.trans hil.le, h2.trans hslir.le, rfl⟩, rfl⟩
    · rcases List.mem_singleton.mp hg2 with rfl
      exact ⟨⟨h1, h2.trans hslir.le, h3, rfl⟩, rfl⟩

theorem getD_mem_of_lt {α : Type} [Inhabited α] (l : List α) (i : Nat)
    (h : i < l.length) : l.getD i default ∈ l := by
  rw [List.getD_eq_getElem?_getD, List.getElem?_eq_getElem h]
  exact List.getElem_mem h

theorem regionSegStep_wf (arch : Architecture) (reg : ℤ) (ivv : ℤ × ℤ)
    (r : Nat) (acc2 : List (List Nat)) (p : List DetailedSeg × List Nat)
    (sid : Nat) (hsid : sid ∈ acc2.getD r [])
    (hJ : (∀ g ∈ p.1, SegWF arch g) ∧
      (∀ r' : Nat, ∀ id ∈ acc2.getD r' [],
        id < p.1.length ∧ (p.1.getD id default).rowId = r') ∧
      (∀ id ∈ p.2,
        id < p.1.length ∧ (p.1.getD id default).rowId = r)) :
    (∀ g ∈ (regionSegStep reg ivv r p sid).1, SegWF arch g) ∧
    (∀ r' : Nat, ∀ id ∈ acc2.getD r' [],
      id < (regionSegStep reg ivv r p sid).1.length ∧
      ((regionSegStep reg ivv r p sid).1.getD id default).rowId = r') ∧
    (∀ id ∈ (regionSegStep reg ivv r p sid).2,
      id < (regionSegStep reg ivv r p sid).1.length ∧
      ((regionSegStep reg ivv r p sid).1.getD id default).rowId = r) := by
  obtain ⟨hJ1, hJ2, hJ3⟩ := hJ
  obtain ⟨hsidlt, hsidrow⟩ := hJ2 r sid hsid
  have hsegwf : SegWF arch (p.1.getD sid default) :=
    hJ1 _ (getD_mem_of_lt p.1 sid hsidlt)
  obtain ⟨hi1, hi2, hi3⟩ := regionInteract_wf arch reg ivv.1 ivv.2 r
    p.1.length (p.1.getD sid default) hsegwf hsidrow
  have hstep : regionSegStep reg ivv r p sid =
      ((p.1.set sid
        (regionInteract reg ivv.1 ivv.2 r p.1.length
          (p.1.getD sid default)).1) ++
        (regionInteract reg ivv.1 ivv.2 r p.1.length
          (p.1.getD sid default)).2,
      p.2 ++ (List.range' p.1.length
        (regionInteract reg ivv.1 ivv.2 r p.1.length
          (p.1.getD sid default)).2.length)) := by
    simp only [regionSegStep]
  set seg' := (regionInteract reg ivv.1 ivv.2 r p.1.length
    (p.1.getD sid default)).1 with hseg'
  set news := (regionInteract reg ivv.1 ivv.2 r p.1.length
    (p.1.getD sid default)).2 with hnews
  have hsetlen : (p.1.set sid seg').length = p.1.length :=
    List.length_set p.1 sid seg'
  have htotlen : ((p.1.set sid seg') ++ news).length =
      p.1.length + news.length := by
    rw [List.length_append, hsetlen]
  have hgetOld : ∀ (id : Nat), id < p.1.length →
      ((p.1.set sid seg') ++ news).getD id default =
        (p.1.set sid seg').getD id default := by
    intro id hid
    exact List.getD_append _ _ default id (by rw [hsetlen]; exact hid)
  have hrowPres : ∀ (id : Nat), id < p.1.length →
      (((p.1.set sid seg') ++ news).getD id default).rowId =
        ((p.1.getD id default)).rowId := by
    intro id hid
    rw [hgetOld id hid]
    by_cases hEq : sid = id
    · subst hEq
      rw [getD_set_self p.1 sid seg' default hsidlt]
      rw [hi2]
    · rw [getD_set_ne p.1 sid id seg' default hEq]
  rw [hstep]
  refine ⟨?_, ?_, ?_⟩
  · intro g hg
    rcases List.mem_append.mp hg with hg | hg
    · rcases List.mem_or_eq_of_mem_set hg with hg | rfl
      · exact hJ1 g hg
      · exact hi1
    · exact (hi3 g hg).1
  · intro r' id hid
    obtain ⟨hlt, hrow⟩ := hJ2 r' id hid
    exact ⟨by rw [htotlen]; omega, by rw [hrowPres id hlt]; exact hrow⟩
  · intro id hid
    rcases List.mem_append.mp hid with hid | hid
    · obtain ⟨hlt, hrow⟩ := hJ3 id hid
      exact ⟨by rw [htotlen]; omega, by rw [hrowPres id hlt]; exact hrow⟩
    · have hmem := List.mem_range'_1.mp hid
      refine ⟨by rw [htotlen]; omega, ?_⟩
      have hget : ((p.1.set sid seg') ++ news).getD id default =
          news.getD (id - p.1.length) default := by
        rw [List.getD_append_right _ _ default id (by rw [hsetlen]; omega),
          hsetlen]
      rw [hget]
      have hlt2 : id - p.1.length < news.length := by omega
      exact (hi3 _ (getD_mem_of_lt news _ hlt2)).2

theorem processRegionInterval_wf (arch : Architecture) (reg : ℤ)
    (ivv : ℤ × ℤ) (r : Nat)
    (acc : List DetailedSeg × List (List Nat))
    (hwf : BuildWF arch acc) :
    BuildWF arch (processRegionInterval reg ivv r acc) := by
  obtain ⟨hw1, hw2⟩ := hwf
  have hfold := foldl_preserve
    (fun p : List DetailedSeg × List Nat =>
      (∀ g ∈ p.1, SegWF arch g) ∧
      (∀ r' : Nat, ∀ id ∈ acc.2.getD r' [],
        id < p.1.length ∧ (p.1.getD id default).rowId = r') ∧
      (∀ id ∈ p.2,
        id < p.1.length ∧ (p.1.getD id default).rowId = r))
    (regionSegStep reg ivv r) (acc.2.getD r []) (acc.1, [])
    ⟨hw1, hw2, fun id hid => absurd hid (List.not_mem_nil id)⟩
    (fun p sid hsid hJ => regionSegStep_wf arch reg ivv r acc.2 p sid
      hsid hJ)
  set res := (acc.2.getD r []).foldl (regionSegStep reg ivv r) (acc.1, [])
    with hres
  obtain ⟨hf1, hf2, hf3⟩ := hfold
  have hgoal : processRegionInterval reg ivv r acc =
      (res.1, acc.2.set r (acc.2.getD r [] ++ res.2)) := rfl
  rw [hgoal]
  refine ⟨hf1, ?_⟩
  intro r' id hid
  by_cases hEq : r = r'
  · subst hEq
    by_cases hr : r < acc.2.length
    · rw [getD_set_self acc.2 r _ [] hr] at hid
      rcases List.mem_append.mp hid with hid | hid
      · exact hf2 r id hid
      · exact hf3 id hid
    · rw [List.set_eq_of_length_le (le_of_not_lt hr),
        List.getD_eq_default _ _ (le_of_not_lt hr)] at hid
      cases hid
  · rw [getD_set_ne acc.2 r r' _ [] hEq] at hid
    exact hf2 r' id hid

theorem regionPhase_wf (arch : Architecture)
    (acc : List DetailedSeg × List (List Nat))
    (hwf : BuildWF arch acc) : BuildWF arch (regionPhase arch acc) := by
  refine foldl_preserve (BuildWF arch) _ _ acc hwf ?_
  intro x reg _ hx
  refine foldl_preserve (BuildWF arch) _ _ x hx ?_
  intro y r hr hy
  refine foldl_preserve (BuildWF arch) _ _ y hy ?_
  intro z iv _ hz
  exact processRegionInterval_wf arch (reg : ℤ) iv r z hz

theorem snap_up_spec (o ss a : ℤ) (ho : o ≤ a) (hss : 0 < ss) :
    (o + (if o + cdiv (a - o) ss * ss < a then cdiv (a - o) ss + 1
      else cdiv (a - o) ss) * ss - o) % ss = 0 ∧
    a ≤ o + (if o + cdiv (a - o) ss * ss < a then cdiv (a - o) ss + 1
      else cdiv (a - o) ss) * ss ∧
    o + (if o + cdiv (a - o) ss * ss < a then cdiv (a - o) ss + 1
      else cdiv (a - o) ss) * ss < a + ss := by
  have h1 : cdiv (a - o) ss = (a - o) / ss := by
    simp only [cdiv]
    exact Int.tdiv_eq_ediv (by omega) hss.le
  rw [h1]
  have hle : (a - o) / ss * ss ≤ a - o := Int.ediv_mul_le _ (ne_of_gt hss)
  have hlt : a - o < ((a - o) / ss + 1) * ss :=
    Int.lt_ediv_add_one_mul_self _ hss
  have hdistrib : ((a - o) / ss + 1) * ss = (a - o) / ss * ss + ss := by ring
  rw [hdistrib] at hlt
  split
  next hA =>
    refine ⟨?_, ?_, ?_⟩
    · rw [hdistrib]
      have : o + ((a - o) / ss * ss + ss) - o = ((a - o) / ss + 1) * ss := by
        ring
      rw [this]
      exact Int.mul_emod_left _ _
    · rw [hdistrib]; omega
    · rw [hdistrib]; omega
  next hA =>
    refine ⟨?_, ?_, ?_⟩
    · have : o + (a - o) / ss * ss - o = (a - o) / ss * ss := by ring
      rw [this]
      exact Int.mul_emod_left _ _
    · omega
    · omega

theorem snap_down_spec (o ss a : ℤ) (ho : o ≤ a) (hss : 0 < ss) :
    (o + cdiv (a - o) ss * ss - o) % ss = 0 ∧
    o + cdiv (a - o) ss * ss ≤ a ∧
    a < o + cdiv (a - o) ss * ss + ss := by
  have h1 : cdiv (a - o) ss = (a - o) / ss := by
    simp only [cdiv]
    exact Int.tdiv_eq_ediv (by omega) hss.le
  rw [h1]
  have hle : (a - o) / ss * ss ≤ a - o := Int.ediv_mul_le _ (ne_of_gt hss)
  have hlt : a - o < ((a - o) / ss + 1) * ss :=
    Int.lt_ediv_add_one_mul_self _ hss
  have hdistrib : ((a - o) / ss + 1) * ss = (a - o) / ss * ss + ss := by ring
  rw [hdistrib] at hlt
  refine ⟨?_, by omega, by omega⟩
  have : o + (a - o) / ss * ss - o = (a - o) / ss * ss := by ring
  rw [this]
  exact Int.mul_emod_left _ _

theorem snapSeg_eq (arch : Architecture) (seg : DetailedSeg) :
    snapSeg arch seg =
      { seg with
        minX := (arch.getRow seg.rowId).left +
          (if (arch.getRow seg.rowId).left +
              cdiv (seg.minX - (arch.getRow seg.rowId).left)
                  (arch.getRow seg.rowId).siteSpacing *
                (arch.getRow seg.rowId).siteSpacing < seg.minX then
            cdiv (seg.minX - (arch.getRow seg.rowId).left)
              (arch.getRow seg.rowId).siteSpacing + 1
          else
            cdiv (seg.minX - (arch.getRow seg.rowId).left)
              (arch.getRow seg.rowId).siteSpacing) *
            (arch.getRow seg.rowId).siteSpacing
        maxX := (arch.getRow seg.rowId).left +
          cdiv (seg.maxX - (arch.getRow seg.rowId).left)
              (arch.getRow seg.rowId).siteSpacing *
            (arch.getRow seg.rowId).siteSpacing } := by
  cases seg with
  | mk sid rid reg mnx mxx u =>
    simp only [snapSeg]
    repeat' split
    all_goals simp_all

/-- Site-grid characterization of `snapSeg` on a well-formed segment:
row id and utilization are untouched, `minX` becomes the least site
boundary at or above the old `minX`, and `maxX` the greatest site
boundary at or below the old `maxX`. -/
theorem snapSeg_spec (arch : Architecture) (seg : DetailedSeg)
    (hwf : SegWF arch seg)
    (hss : 0 < (arch.getRow seg.rowId).siteSpacing) :
    (snapSeg arch seg).rowId = seg.rowId ∧
    (snapSeg arch seg).util = seg.util ∧
    ((snapSeg arch seg).minX - (arch.getRow seg.rowId).left) %
      (arch.getRow seg.rowId).siteSpacing = 0 ∧
    seg.minX ≤ (snapSeg arch seg).minX ∧
    (snapSeg arch seg).minX <
      seg.minX + (arch.getRow seg.rowId).siteSpacing ∧
    ((snapSeg arch seg).maxX - (arch.getRow seg.rowId).left) %
      (arch.getRow seg.rowId).siteSpacing = 0 ∧
    (snapSeg arch seg).maxX ≤ seg.maxX ∧
    seg.maxX < (snapSeg arch seg).maxX +
      (arch.getRow seg.rowId).siteSpacing := by
  obtain ⟨h1, h2, h3, h4⟩ := hwf
  have hm := snap_up_spec (arch.getRow seg.rowId).left
    (arch.getRow seg.rowId).siteSpacing seg.minX h2 hss
  have hM := snap_down_spec (arch.getRow seg.rowId).left
    (arch.getRow seg.rowId).siteSpacing seg.maxX h3 hss
  rw [snapSeg_eq]
  exact ⟨rfl, rfl, hm.1, hm.2.1, hm.2.2, hM.1, hM.2.1, hM.2.2⟩

/-- C8: after `findSegments` completes, every segment's `minX` and `maxX`
lie exactly on the site grid of the segment's row — `minX` is the least
site boundary at or above the pre-snap left end (round up when off-grid)
and `maxX` the greatest site boundary at or below the pre-snap right end
(round down) — and every segment's cell list is empty and its utilization
zero. -/
theorem spec2proof_c8 (arch : Architecture) (bl : List (List (ℤ × ℤ)))
    (hss : ∀ r < arch.numRows, 0 < (arch.getRow r).siteSpacing) :
    (∀ g ∈ (findSegments arch bl).segs,
      ∃ g0 ∈ (regionPhase arch (buildRowPhase arch bl)).1,
        g = snapSeg arch g0 ∧
        g.rowId = g0.rowId ∧
        g.util = 0 ∧
        (g.minX - (arch.getRow g.rowId).left) %
          (arch.getRow g.rowId).siteSpacing = 0 ∧
        g0.minX ≤ g.minX ∧
        g.minX < g0.minX + (arch.getRow g.rowId).siteSpacing ∧
        (g.maxX - (arch.getRow g.rowId).left) %
          (arch.getRow g.rowId).siteSpacing = 0 ∧
        g.maxX ≤ g0.maxX ∧
        g0.maxX < g.maxX + (arch.getRow g.rowId).siteSpacing) ∧
    (findSegments arch bl).cellsInSeg =
      List.replicate (findSegments arch bl).segs.length [] := by
  have hwf : BuildWF arch (regionPhase arch (buildRowPhase arch bl)) :=
    regionPhase_wf arch _ (buildRowPhase_wf arch bl)
  constructor
  · intro g hg
    have hg' : g ∈ (regionPhase arch (buildRowPhase arch bl)).1.map
        (snapSeg arch) := hg
    obtain ⟨g0, hg0, rfl⟩ := List.mem_map.mp hg'
    have hwf0 : SegWF arch g0 := hwf.1 g0 hg0
    have hss0 : 0 < (arch.getRow g0.rowId).siteSpacing :=
      hss g0.rowId hwf0.1
    obtain ⟨hr, hu, hm1, hm2, hm3, hM1, hM2, hM3⟩ :=
      snapSeg_spec arch g0 hwf0 hss0
    refine ⟨g0, hg0, rfl, hr, ?_, ?_, ?_, ?_, ?_, ?_, ?_⟩
    · rw [hu, hwf0.2.2.2]
    · rw [hr]; exact hm1
    · exact hm2
    · rw [hr]; exact hm3
    · rw [hr]; exact hM1
    · exact hM2
    · rw [hr]; exact hM3
  · rfl

theorem spec2proof_c8_witness :
    (∀ r < exArch1.numRows, 0 < (exArch1.getRow r).siteSpacing) ∧
    ((∀ g ∈ (findSegments exArch1
          (findBlockages exArch1 none false [exFixed1])).segs,
      ∃ g0 ∈ (regionPhase exArch1 (buildRowPhase exArch1
          (findBlockages exArch1 none false [exFixed1]))).1,
        g = snapSeg exArch1 g0 ∧
        g.rowId = g0.rowId ∧
        g.util = 0 ∧
        (g.minX - (exArch1.getRow g.rowId).left) %
          (exArch1.getRow g.rowId).siteSpacing = 0 ∧
        g0.minX ≤ g.minX ∧
        g.minX < g0.minX + (exArch1.getRow g.rowId).siteSpacing ∧
        (g.maxX - (exArch1.getRow g.rowId).left) %
          (exArch1.getRow g.rowId).siteSpacing = 0 ∧
        g.maxX ≤ g0.maxX ∧
        g0.maxX < g.maxX + (exArch1.getRow g.rowId).siteSpacing) ∧
    (findSegments exArch1
        (findBlockages exArch1 none false [exFixed1])).cellsInSeg =
      List.replicate (findSegments exArch1
        (findBlockages exArch1 none false [exFixed1])).segs.length []) :=
  ⟨by decide, spec2proof_c8 exArch1
    (findBlockages exArch1 none false [exFixed1]) (by decide)⟩

theorem except_bind_ok {α β : Type} (x : Except String α)
    (f : α → Except String β) (b : β) (h : (x >>= f) = .ok b) :
    ∃ a, x = .ok a ∧ f a = .ok b := by
  cases x with
  | error e => exact Except.noConfusion h
  | ok a => exact ⟨a, rfl, h⟩

theorem addCellToSegment_ok (st : DMState) (ndId sg : Nat) (st' : DMState)
    (h : addCellToSegment st ndId sg = .ok st') :
    sg ∉ st.revMap.getD ndId [] ∧
    (st.revMap.getD ndId []).length < (st.getNode ndId).spanned ∧
    st' = { st with
      cellsInSeg := st.cellsInSeg.set sg
        ((st.cellsInSeg.getD sg []).insertIdx
          (lowerBoundCellIdx st (st.cellsInSeg.getD sg [])
            (st.getNode ndId).centerTwice) ndId)
      revMap := st.revMap.set ndId (st.revMap.getD ndId [] ++ [sg])
      segs := st.segs.set sg
        { st.segs.getD sg default with
          util := (st.segs.getD sg default).util +
            (st.getNode ndId).widthCeil } } := by
  simp only [addCellToSegment] at h
  split at h
  next h1 => cases h
  next h1 =>
    split at h
    next h2 => cases h
    next h2 =>
      refine ⟨h1, by omega, ?_⟩
      cases h
      rfl

theorem removeCellFromSegment_ok (st : DMState) (ndId sg : Nat)
    (st' : DMState) (h : removeCellFromSegment st ndId sg = .ok st') :
    ndId ∈ st.cellsInSeg.getD sg [] ∧
    sg ∈ st.revMap.getD ndId [] ∧
    st' = { st with
      cellsInSeg := st.cellsInSeg.set sg
        ((st.cellsInSeg.getD sg []).erase ndId)
      revMap := st.revMap.set ndId ((st.revMap.getD ndId []).erase sg)
      segs := st.segs.set sg
        { st.segs.getD sg default with
          util := (st.segs.getD sg default).util -
            (st.getNode ndId).widthCeil } } := by
  simp only [removeCellFromSegment] at h
  split at h
  next h1 => cases h
  next h1 =>
    split at h
    next h2 => cases h
    next h2 =>
      refine ⟨not_not.mp h1, not_not.mp h2, ?_⟩
      cases h
      rfl

theorem mapInvCore_add (st : DMState) (ndId sg : Nat)
    (newSegs : List DetailedSeg)
    (hinv : MapInvCore st)
    (hsg : sg < st.cellsInSeg.length)
    (hnd : ndId < st.revMap.length)
    (hnotin : sg ∉ st.revMap.getD ndId [])
    (cl' : List Nat)
    (hcl : List.Perm cl' (ndId :: st.cellsInSeg.getD sg [])) :
    MapInvCore { st with
      cellsInSeg := st.cellsInSeg.set sg cl'
      revMap := st.revMap.set ndId (st.revMap.getD ndId [] ++ [sg])
      segs := newSegs } := by
  obtain ⟨hiff, hrange, hndp, hrdp⟩ := hinv
  have hnotmem : ndId ∉ st.cellsInSeg.getD sg [] := fun hmem =>
    hnotin ((hiff sg ndId).mp hmem)
  simp only [MapInvCore]
  refine ⟨?_, ?_, ?_, ?_⟩
  · intro sg' nd'
    by_cases hsgeq : sg = sg'
    · subst hsgeq
      rw [getD_set_self _ _ _ _ hsg]
      by_cases hndeq : nd' = ndId
      · subst hndeq
        rw [getD_set_self _ _ _ _ hnd]
        constructor
        · intro _
          exact List.mem_append.mpr (Or.inr (List.mem_singleton.mpr rfl))
        · intro _
          exact hcl.mem_iff.mpr (List.mem_cons_self _ _)
      · rw [getD_set_ne _ _ _ _ _ (fun hh => hndeq hh.symm)]
        rw [hcl.mem_iff]
        simp only [List.mem_cons]
        constructor
        · rintro (rfl | hmem)
          · exact absurd rfl hndeq
          · exact (hiff sg nd').mp hmem
        · intro hmem
          exact Or.inr ((hiff sg nd').mpr hmem)
    · rw [getD_set_ne _ _ _ _ _ hsgeq]
      by_cases hndeq : nd' = ndId
      · subst hndeq
        rw [getD_set_self _ _ _ _ hnd]
        rw [List.mem_append, List.mem_singleton]
        constructor
        · intro hmem
          exact Or.inl ((hiff sg' nd').mp hmem)
        · rintro (hmem | rfl)
          · exact (hiff sg' nd').mpr hmem
          · exact absurd rfl hsgeq
      · rw [getD_set_ne _ _ _ _ _ (fun hh => hndeq hh.symm)]
        exact hiff sg' nd'
  · intro nd' sg' hmem
    rw [List.length_set]
    by_cases hndeq : nd' = ndId
    · subst hndeq
      rw [getD_set_self _ _ _ _ hnd] at hmem
      rcases List.mem_append.mp hmem with hmem | hmem
      · exact hrange nd' sg' hmem
      · rw [List.mem_singleton.mp hmem]
        exact hsg
    · rw [getD_set_ne _ _ _ _ _ (fun hh => hndeq hh.symm)] at hmem
      exact hrange nd' sg' hmem
  · intro sg'
    by_cases hsgeq : sg = sg'
    · subst hsgeq
      rw [getD_set_self _ _ _ _ hsg]
      exact hcl.nodup_iff.mpr (List.nodup_cons.mpr ⟨hnotmem, hndp sg⟩)
    · rw [getD_set_ne _ _ _ _ _ hsgeq]
      exact hndp sg'
  · intro nd'
    by_cases hndeq : ndId = nd'
    · subst hndeq
      rw [getD_set_self _ _ _ _ hnd]
      exact List.Nodup.append (hrdp ndId) (List.nodup_singleton sg)
        (fun a ha hmem => hnotin (List.mem_singleton.mp hmem ▸ ha))
    · rw [getD_set_ne _ _ _ _ _ hndeq]
      exact hrdp nd'

theorem mapInvCore_remove (st : DMState) (ndId sg : Nat)
    (newSegs : List DetailedSeg)
    (hinv : MapInvCore st)
    (hmemc : ndId ∈ st.cellsInSeg.getD sg [])
    (hmemr : sg ∈ st.revMap.getD ndId []) :
    MapInvCore { st with
      cellsInSeg := st.cellsInSeg.set sg
        ((st.cellsInSeg.getD sg []).erase ndId)
      revMap := st.revMap.set ndId ((st.revMap.getD ndId []).erase sg)
      segs := newSegs } := by
  obtain ⟨hiff, hrange, hndp, hrdp⟩ := hinv
  have hsg : sg < st.cellsInSeg.length := hrange ndId sg hmemr
  have hnd : ndId < st.revMap.length := by
    by_contra hcon
    rw [List.getD_eq_default _ _ (le_of_not_lt hcon)] at hmemr
    cases hmemr
  simp only [MapInvCore]
  refine ⟨?_, ?_, ?_, ?_⟩
  · intro sg' nd'
    by_cases hsgeq : sg = sg'
    · subst hsgeq
      rw [getD_set_self _ _ _ _ hsg]
      by_cases hndeq : nd' = ndId
      · subst hndeq
        rw [getD_set_self _ _ _ _ hnd]
        constructor
        · intro hmem
          exact absurd ((hndp sg).mem_erase_iff.mp hmem).1 (by simp)
        · intro hmem
          exact absurd ((hrdp nd').mem_erase_iff.mp hmem).1 (by simp)
      · rw [getD_set_ne _ _ _ _ _ (fun hh => hndeq hh.symm)]
        rw [List.mem_erase_of_ne hndeq]
        exact hiff sg nd'
    · rw [getD_set_ne _ _ _ _ _ hsgeq]
      by_cases hndeq : nd' = ndId
      · subst hndeq
        rw [getD_set_self _ _ _ _ hnd]
        rw [List.mem_erase_of_ne (fun hh => hsgeq hh.symm)]
        exact hiff sg' nd'
      · rw [getD_set_ne _ _ _ _ _ (fun hh => hndeq hh.symm)]
        exact hiff sg' nd'
  · intro nd' sg' hmem
    rw [List.length_set]
    by_cases hndeq : nd' = ndId
    · subst hndeq
      rw [getD_set_self _ _ _ _ hnd] at hmem
      exact hrange nd' sg' (List.mem_of_mem_erase hmem)
    · rw [getD_set_ne _ _ _ _ _ (fun hh => hndeq hh.symm)] at hmem
      exact hrange nd' sg' hmem
  · intro sg'
    by_cases hsgeq : sg = sg'
    · subst hsgeq
      rw [getD_set_self _ _ _ _ hsg]
      exact (hndp sg).erase ndId
    · rw [getD_set_ne _ _ _ _ _ hsgeq]
      exact hndp sg'
  · intro nd'
    by_cases hndeq : ndId = nd'
    · subst hndeq
      rw [getD_set_self _ _ _ _ hnd]
      exact (hrdp ndId).erase sg
    · rw [getD_set_ne _ _ _ _ _ hndeq]
      exact hrdp nd'

theorem addSegs_spec (ndId : Nat) :
    ∀ (segs : List Nat) (st st' : DMState),
    addCellToSegments st ndId segs = .ok st' →
    MapInvCore st →
    ndId < st.revMap.length →
    (∀ s ∈ segs, s < st.cellsInSeg.length) →
    MapInvCore st' ∧
    st'.nodes = st.nodes ∧
    st'.cellsInSeg.length = st.cellsInSeg.length ∧
    st'.revMap.length = st.revMap.length ∧
    (∀ nd : Nat, nd ≠ ndId →
      st'.revMap.getD nd [] = st.revMap.getD nd []) ∧
    st'.revMap.getD ndId [] = st.revMap.getD ndId [] ++ segs ∧
    (segs ≠ [] →
      (st.revMap.getD ndId []).length + segs.length ≤
        (st.getNode ndId).spanned) := by
  intro segs
  induction segs with
  | nil =>
      intro st st' h hinv hnd hsegs
      have hst : st' = st := by
        simp only [addCellToSegments, List.foldlM_nil] at h
        cases h
        rfl
      subst hst
      exact ⟨hinv, rfl, rfl, rfl, fun _ _ => rfl, by simp,
        fun hne => absurd rfl hne⟩
  | cons sg rest ih =>
      intro st st' h hinv hnd hsegs
      simp only [addCellToSegments, List.foldlM_cons] at h
      obtain ⟨s1, hadd, hrest⟩ := except_bind_ok _ _ _ h
      obtain ⟨hnotin, hlt, hs1⟩ := addCellToSegment_ok st ndId sg s1 hadd
      have hsg : sg < st.cellsInSeg.length :=
        hsegs sg (List.mem_cons_self sg rest)
      have hidx : lowerBoundCellIdx st (st.cellsInSeg.getD sg [])
          (st.getNode ndId).centerTwice ≤
          (st.cellsInSeg.getD sg []).length := by
        simp only [lowerBoundCellIdx]
        exact List.findIdx_le_length _
      have hperm := List.perm_insertIdx ndId (st.cellsInSeg.getD sg []) hidx
      subst hs1
      obtain ⟨hinv', hnodes, hclen, hrlen, hother, hentry, hbound⟩ :=
        ih _ st' hrest
          (mapInvCore_add st ndId sg _ hinv hsg hnd hnotin _ hperm)
          (by simpa using hnd)
          (by
            intro s hs
            simpa using hsegs s (List.mem_cons_of_mem sg hs))
      have hself := getD_set_self st.revMap ndId
        (st.revMap.getD ndId [] ++ [sg]) [] hnd
      refine ⟨hinv', hnodes, ?_, ?_, ?_, ?_, ?_⟩
      · rw [hclen]
        simp
      · rw [hrlen]
        simp
      · intro nd hndeq
        rw [hother nd hndeq]
        exact getD_set_ne st.revMap ndId nd _ [] (fun hh => hndeq hh.symm)
      · rw [hentry]
        show (st.revMap.set ndId
          (st.revMap.getD ndId [] ++ [sg])).getD ndId [] ++ rest =
          st.revMap.getD ndId [] ++ sg :: rest
        rw [hself]
        simp
      · intro _
        rcases eq_or_ne rest [] with hre | hre
        · subst hre
          simp only [List.length_cons, List.length_nil]
          omega
        · have hb2 : ((st.revMap.set ndId
              (st.revMap.getD ndId [] ++ [sg])).getD ndId []).length +
              rest.length ≤ (st.getNode ndId).spanned := hbound hre
          rw [hself] at hb2
          simp only [List.length_append, List.length_singleton] at hb2
          simp only [List.length_cons]
          omega

theorem removeSegs_spec (ndId : Nat) :
    ∀ (l : List Nat) (st st' : DMState),
    l.foldlM (fun s sg => removeCellFromSegment s ndId sg) st = .ok st' →
    MapInvCore st →
    st.revMap.getD ndId [] = l →
    MapInvCore st' ∧
    st'.nodes = st.nodes ∧
    st'.cellsInSeg.length = st.cellsInSeg.length ∧
    st'.revMap.length = st.revMap.length ∧
    (∀ nd : Nat, nd ≠ ndId →
      st'.revMap.getD nd [] = st.revMap.getD nd []) ∧
    st'.revMap.getD ndId [] = [] := by
  intro l
  induction l with
  | nil =>
      intro st st' h hinv hsnap
      have hst : st' = st := by
        simp only [List.foldlM_nil] at h
        cases h
        rfl
      subst hst
      exact ⟨hinv, rfl, rfl, rfl, fun _ _ => rfl, hsnap⟩
  | cons sg rest ih =>
      intro st st' h hinv hsnap
      simp only [List.foldlM_cons] at h
      obtain ⟨s1, hrem, hrest⟩ := except_bind_ok _ _ _ h
      obtain ⟨hmemc, hmemr, hs1⟩ := removeCellFromSegment_ok st ndId sg s1 hrem
      have hnd : ndId < st.revMap.length := by
        by_contra hcon
        rw [List.getD_eq_default _ _ (le_of_not_lt hcon)] at hsnap
        cases hsnap
      have hself := getD_set_self st.revMap ndId
        ((st.revMap.getD ndId []).erase sg) [] hnd
      have herase : (st.revMap.getD ndId []).erase sg = rest := by
        rw [hsnap]
        exact List.erase_cons_head sg rest
      subst hs1
      obtain ⟨hinv', hnodes, hclen, hrlen, hother, hentry⟩ :=
        ih _ st' hrest
          (mapInvCore_remove st ndId sg _ hinv hmemc hmemr)
          (by
            show (st.revMap.set ndId
              ((st.revMap.getD ndId []).erase sg)).getD ndId [] = rest
            rw [hself, herase])
      refine ⟨hinv', hnodes, ?_, ?_, ?_, hentry⟩
      · rw [hclen]
        simp
      · rw [hrlen]
        simp
      · intro nd hndeq
        rw [hother nd hndeq]
        exact getD_set_ne st.revMap ndId nd _ [] (fun hh => hndeq hh.symm)

theorem reachCR_inv (st : DMState) (h : ReachCR st) :
    MapInvCore st ∧ SpanInv st := by
  induction h with
  | base st hc hr =>
      have hcells : ∀ sg : Nat, st.cellsInSeg.getD sg [] = [] := by
        intro sg
        by_cases hlt : sg < st.cellsInSeg.length
        · exact hc _ (getD_mem_of_lt _ _ hlt)
        · exact List.getD_eq_default _ _ (le_of_not_lt hlt)
      have hrev : ∀ nd : Nat, st.revMap.getD nd [] = [] := by
        intro nd
        by_cases hlt : nd < st.revMap.length
        · exact hr _ (getD_mem_of_lt _ _ hlt)
        · exact List.getD_eq_default _ _ (le_of_not_lt hlt)
      refine ⟨⟨?_, ?_, ?_, ?_⟩, ?_⟩
      · intro sg nd
        rw [hcells sg, hrev nd]
        exact iff_of_false (List.not_mem_nil nd) (List.not_mem_nil sg)
      · intro nd sg hmem
        rw [hrev nd] at hmem
        cases hmem
      · intro sg
        rw [hcells sg]
        exact List.nodup_nil
      · intro nd
        rw [hrev nd]
        exact List.nodup_nil
      · intro nd
        rw [hrev nd]
        exact Or.inl rfl
  | assign st st' ndId segs hre hnd hlen hsegs hok ih =>
      obtain ⟨hinv, hspan⟩ := ih
      obtain ⟨hinv', hnodes, hclen, hrlen, hother, hentry, hbound⟩ :=
        addSegs_spec ndId segs st st' hok hinv hnd hsegs
      refine ⟨hinv', ?_⟩
      intro nd
      have hgn : st'.getNode nd = st.getNode nd := by
        simp [DMState.getNode, hnodes]
      by_cases hndeq : nd = ndId
      · subst hndeq
        rcases eq_or_ne segs [] with hs | hs
        · subst hs
          rw [hentry, List.append_nil, hgn]
          exact hspan nd
        · right
          have hb := hbound hs
          have hold : (st.revMap.getD nd []).length = 0 := by omega
          rw [hentry, List.length_append, hold, hgn, ← hlen]
          exact Nat.zero_add _
      · rw [hother nd hndeq, hgn]
        exact hspan nd
  | unassign st st' ndId hre hok ih =>
      obtain ⟨hinv, hspan⟩ := ih
      have hok2 : (st.revMap.getD ndId []).foldlM
          (fun s sg => removeCellFromSegment s ndId sg) st = .ok st' := hok
      obtain ⟨hinv', hnodes, hclen, hrlen, hother, hentry⟩ :=
        removeSegs_spec ndId (st.revMap.getD ndId []) st st' hok2 hinv rfl
      refine ⟨hinv', ?_⟩
      intro nd
      by_cases hndeq : nd = ndId
      · subst hndeq
        rw [hentry]
        exact Or.inl rfl
      · rw [hother nd hndeq]
        have hgn : st'.getNode nd = st.getNode nd := by
          simp [DMState.getNode, hnodes]
        rw [hgn]
        exact hspan nd

/-- C7: in every state reachable through whole-cell
`addCellToSegment`/`removeCellFromSegment` operations, a cell appears in
a segment's cell list iff that segment appears in the cell's reverse-map
entry, and an assigned (nonempty-entry) cell's reverse-map entry has
exactly one segment per spanned row; `addCellToSegment` raises a fatal
internal error, never silently proceeding, when the segment is already
present in the cell's entry or when the entry is already at the cell's
row span. -/
theorem spec2proof_c7 (st : DMState) (h : ReachCR st) :
    (∀ sg nd : Nat,
      nd ∈ st.cellsInSeg.getD sg [] ↔ sg ∈ st.revMap.getD nd []) ∧
    (∀ nd : Nat, st.revMap.getD nd [] ≠ [] →
      (st.revMap.getD nd []).length = (st.getNode nd).spanned) ∧
    (∀ (s : DMState) (ndId seg : Nat),
      seg ∈ s.revMap.getD ndId [] →
      addCellToSegment s ndId seg =
        .error "Segment already present in cell to segment map") ∧
    (∀ (s : DMState) (ndId seg : Nat),
      seg ∉ s.revMap.getD ndId [] →
      (s.getNode ndId).spanned ≤ (s.revMap.getD ndId []).length →
      addCellToSegment s ndId seg =
        .error "Cell to segment map incorrectly sized") := by
  obtain ⟨⟨hiff, _, _, _⟩, hspan⟩ := reachCR_inv st h
  refine ⟨hiff, ?_, ?_, ?_⟩
  · intro nd hne
    rcases hspan nd with h0 | h1
    · exact absurd (List.length_eq_zero.mp h0) hne
    · exact h1
  · intro s ndId seg hmem
    simp only [addCellToSegment]
    rw [if_pos hmem]
  · intro s ndId seg hnot hge
    simp only [addCellToSegment]
    rw [if_neg hnot, if_pos hge]

theorem spec2proof_c7_witness :
    ReachCR exStateC7 ∧
    ((∀ sg nd : Nat,
      nd ∈ exStateC7.cellsInSeg.getD sg [] ↔
        sg ∈ exStateC7.revMap.getD nd []) ∧
    (∀ nd : Nat, exStateC7.revMap.getD nd [] ≠ [] →
      (exStateC7.revMap.getD nd []).length =
        (exStateC7.getNode nd).spanned) ∧
    (∀ (s : DMState) (ndId seg : Nat),
      seg ∈ s.revMap.getD ndId [] →
      addCellToSegment s ndId seg =
        .error "Segment already present in cell to segment map") ∧
    (∀ (s : DMState) (ndId seg : Nat),
      seg ∉ s.revMap.getD ndId [] →
      (s.getNode ndId).spanned ≤ (s.revMap.getD ndId []).length →
      addCellToSegment s ndId seg =
        .error "Cell to segment map incorrectly sized")) :=
  ⟨ReachCR.base exStateC7 (by decide) (by decide),
   spec2proof_c7 exStateC7
     (ReachCR.base exStateC7 (by decide) (by decide))⟩

theorem widthCeil_set_node (st : DMState) (ndId : Nat) (nd' : Node)
    (hw : nd'.width = (st.getNode ndId).width) (c : Nat) :
    ((st.nodes.set ndId nd').getD c default).widthCeil =
      (st.getNode c).widthCeil := by
  simp only [DMState.getNode, Node.widthCeil] at *
  by_cases hc : ndId = c
  · subst hc
    by_cases hlt : ndId < st.nodes.length
    · rw [getD_set_self _ _ _ _ hlt]
      exact hw
    · rw [List.set_eq_of_length_le (le_of_not_lt hlt)]
  · rw [getD_set_ne _ _ _ _ _ hc]

theorem utilInv_add (st : DMState) (ndId sg : Nat) (st' : DMState)
    (hinv : UtilInv st) (h : addCellToSegment st ndId sg = .ok st') :
    UtilInv st' := by
  obtain ⟨hlen, hutil⟩ := hinv
  obtain ⟨_, _, hs⟩ := addCellToSegment_ok st ndId sg st' h
  subst hs
  by_cases hsg : sg < st.segs.length
  · refine ⟨by simp [hlen], ?_⟩
    intro i hi
    rw [List.length_set] at hi
    show ((st.segs.set sg _).getD i default).util =
      (((st.cellsInSeg.set sg _).getD i []).map
        (fun c => (st.getNode c).widthCeil)).sum
    by_cases hieq : sg = i
    · subst hieq
      rw [getD_set_self _ _ _ _ hsg, getD_set_self _ _ _ _ (by omega)]
      have hperm : List.Perm
          ((st.cellsInSeg.getD sg []).insertIdx
            (lowerBoundCellIdx st (st.cellsInSeg.getD sg [])
              (st.getNode ndId).centerTwice) ndId)
          (ndId :: st.cellsInSeg.getD sg []) := by
        refine List.perm_insertIdx ndId _ ?_
        simp only [lowerBoundCellIdx]
        exact List.findIdx_le_length _
      rw [((hperm.map (fun c => (st.getNode c).widthCeil)).sum_eq)]
      simp only [List.map_cons, List.sum_cons]
      rw [hutil sg hsg]
      ring
    · rw [getD_set_ne _ _ _ _ _ hieq, getD_set_ne _ _ _ _ _ hieq]
      exact hutil i hi
  · rw [List.set_eq_of_length_le (le_of_not_lt hsg),
      List.set_eq_of_length_le (by omega)]
    exact ⟨hlen, hutil⟩

theorem utilInv_remove (st : DMState) (ndId sg : Nat) (st' : DMState)
    (hinv : UtilInv st) (h : removeCellFromSegment st ndId sg = .ok st') :
    UtilInv st' := by
  obtain ⟨hlen, hutil⟩ := hinv
  obtain ⟨hmemc, _, hs⟩ := removeCellFromSegment_ok st ndId sg st' h
  subst hs
  have hsgc : sg < st.cellsInSeg.length := by
    by_contra hcon
    rw [List.getD_eq_default _ _ (le_of_not_lt hcon)] at hmemc
    cases hmemc
  have hsg : sg < st.segs.length := by omega
  refine ⟨by simp [hlen], ?_⟩
  intro i hi
  rw [List.length_set] at hi
  show ((st.segs.set sg _).getD i default).util =
    (((st.cellsInSeg.set sg _).getD i []).map
      (fun c => (st.getNode c).widthCeil)).sum
  by_cases hieq : sg = i
  · subst hieq
    rw [getD_set_self _ _ _ _ hsg, getD_set_self _ _ _ _ hsgc]
    have hperm : List.Perm (st.cellsInSeg.getD sg [])
        (ndId :: (st.cellsInSeg.getD sg []).erase ndId) :=
      List.perm_cons_erase hmemc
    have hsum := (hperm.map (fun c => (st.getNode c).widthCeil)).sum_eq
    simp only [List.map_cons, List.sum_cons] at hsum
    rw [hutil sg hsg] at *
    simp only []
    omega
  · rw [getD_set_ne _ _ _ _ _ hieq, getD_set_ne _ _ _ _ _ hieq]
    exact hutil i hi

theorem utilInv_setNode (st : DMState) (ndId : Nat) (nd' : Node)
    (hw : nd'.width = (st.getNode ndId).width) (hinv : UtilInv st) :
    UtilInv { st with nodes := st.nodes.set ndId nd' } := by
  obtain ⟨hlen, hutil⟩ := hinv
  refine ⟨hlen, ?_⟩
  intro i hi
  show (st.segs.getD i default).util =
    ((st.cellsInSeg.getD i []).map
      (fun c => ((st.nodes.set ndId nd').getD c default).widthCeil)).sum
  rw [List.map_congr_left
    (fun c _ => widthCeil_set_node st ndId nd' hw c)]
  exact hutil i hi

theorem utilInv_removeFold (ndId : Nat) :
    ∀ (l : List ℤ) (st st' : DMState),
    l.foldlM (fun s (sg : ℤ) => removeCellFromSegment s ndId sg.toNat) st
      = .ok st' →
    UtilInv st → UtilInv st' := by
  intro l
  induction l with
  | nil =>
      intro st st' h hinv
      simp only [List.foldlM_nil] at h
      cases h
      exact hinv
  | cons sg rest ih =>
      intro st st' h hinv
      simp only [List.foldlM_cons] at h
      obtain ⟨s1, hrem, hrest⟩ := except_bind_ok _ _ _ h
      exact ih s1 st' hrest (utilInv_remove st ndId sg.toNat s1 hinv hrem)

theorem utilInv_addFold (ndId : Nat) :
    ∀ (l : List ℤ) (st st' : DMState),
    l.foldlM (fun s (sg : ℤ) => addCellToSegment s ndId sg.toNat) st
      = .ok st' →
    UtilInv st → UtilInv st' := by
  intro l
  induction l with
  | nil =>
      intro st st' h hinv
      simp only [List.foldlM_nil] at h
      cases h
      exact hinv
  | cons sg rest ih =>
      intro st st' h hinv
      simp only [List.foldlM_cons] at h
      obtain ⟨s1, hadd, hrest⟩ := except_bind_ok _ _ _ h
      exact ih s1 st' hrest (utilInv_add st ndId sg.toNat s1 hinv hadd)

theorem utilInv_applyMove (st : DMState) (mv : MoveRec) (st' : DMState)
    (h : applyMoveRec st mv = .ok st') (hinv : UtilInv st) :
    UtilInv st' := by
  simp only [applyMoveRec, bind, Except.bind] at h
  cases hrem : mv.curSegs.foldlM
      (fun s (sg : ℤ) => removeCellFromSegment s mv.ndId sg.toNat) st with
  | error e => rw [hrem] at h; cases h
  | ok s1 =>
      rw [hrem] at h
      have hinv1 : UtilInv s1 :=
        utilInv_removeFold mv.ndId mv.curSegs st s1 hrem hinv
      have hinv2 : UtilInv { s1 with
          nodes := s1.nodes.set mv.ndId
            { s1.getNode mv.ndId with
              left := mv.newLeft, bottom := mv.newBottom } } :=
        utilInv_setNode s1 mv.ndId _ rfl hinv1
      exact utilInv_addFold mv.ndId mv.newSegs _ st' h hinv2

theorem utilInv_acceptFold :
    ∀ (l : List MoveRec) (st st' : DMState),
    l.foldlM applyMoveRec st = .ok st' → UtilInv st → UtilInv st' := by
  intro l
  induction l with
  | nil =>
      intro st st' h hinv
      simp only [List.foldlM_nil] at h
      cases h
      exact hinv
  | cons mv rest ih =>
      intro st st' h hinv
      simp only [List.foldlM_cons] at h
      obtain ⟨s1, happ, hrest⟩ := except_bind_ok _ _ _ h
      exact ih s1 st' hrest (utilInv_applyMove st mv s1 happ hinv)

theorem removeAll_aux (st : DMState)
    (hlen : st.cellsInSeg.length = st.segs.length) (hids : SegIdsOk st) :
    ∀ n, n ≤ st.segs.length →
    ((List.range n).foldl
      (fun (p : List DetailedSeg × List (List Nat)) i =>
        let segPtr := p.1.getD i default
        (p.1.set i { segPtr with util := 0 }, p.2.set segPtr.segId []))
      (st.segs, st.cellsInSeg)).1.length = st.segs.length ∧
    ((List.range n).foldl
      (fun (p : List DetailedSeg × List (List Nat)) i =>
        let segPtr := p.1.getD i default
        (p.1.set i { segPtr with util := 0 }, p.2.set segPtr.segId []))
      (st.segs, st.cellsInSeg)).2.length = st.cellsInSeg.length ∧
    (∀ j : Nat,
      (((List.range n).foldl
        (fun (p : List DetailedSeg × List (List Nat)) i =>
          let segPtr := p.1.getD i default
          (p.1.set i { segPtr with util := 0 }, p.2.set segPtr.segId []))
        (st.segs, st.cellsInSeg)).1.getD j default).segId =
      (st.segs.getD j default).segId) ∧
    (∀ j < n,
      (((List.range n).foldl
        (fun (p : List DetailedSeg × List (List Nat)) i =>
          let segPtr := p.1.getD i default
          (p.1.set i { segPtr with util := 0 }, p.2.set segPtr.segId []))
        (st.segs, st.cellsInSeg)).1.getD j default).util = 0 ∧
      ((List.range n).foldl
        (fun (p : List DetailedSeg × List (List Nat)) i =>
          let segPtr := p.1.getD i default
          (p.1.set i { segPtr with util := 0 }, p.2.set segPtr.segId []))
        (st.segs, st.cellsInSeg)).2.getD j [] = []) := by
  intro n
  induction n with
  | zero =>
      intro _
      exact ⟨rfl, rfl, fun j => rfl, fun j hj => absurd hj (Nat.not_lt_zero j)⟩
  | succ n ih =>
      intro hn
      obtain ⟨ih1, ih2, ih3, ih4⟩ := ih (Nat.le_of_succ_le hn)
      rw [List.range_succ, List.foldl_append, List.foldl_cons, List.foldl_nil]
      set p := (List.range n).foldl
        (fun (p : List DetailedSeg × List (List Nat)) i =>
          let segPtr := p.1.getD i default
          (p.1.set i { segPtr with util := 0 }, p.2.set segPtr.segId []))
        (st.segs, st.cellsInSeg) with hp
      dsimp only
      have hnlt : n < st.segs.length := hn
      have hsegid : (p.1.getD n default).segId = n := by
        rw [ih3 n]
        exact hids n hnlt
      refine ⟨?_, ?_, ?_, ?_⟩
      · simp only [List.length_set]
        exact ih1
      · simp only [List.length_set]
        exact ih2
      · intro j
        by_cases hj : n = j
        · subst hj
          rw [getD_set_self _ _ _ _ (by omega)]
          exact ih3 n
        · rw [getD_set_ne _ _ _ _ _ hj]
          exact ih3 j
      · intro j hj
        rcases Nat.lt_succ_iff_lt_or_eq.mp hj with hj | hj
        · constructor
          · by_cases hne : n = j
            · subst hne
              rw [getD_set_self _ _ _ _ (by omega)]
            · rw [getD_set_ne _ _ _ _ _ hne]
              exact (ih4 j hj).1
          · by_cases hne : (p.1.getD n default).segId = j
            · rw [hsegid] at hne
              subst hne
              rw [hsegid, getD_set_self _ _ _ _ (by omega)]
            · rw [getD_set_ne _ _ _ _ _ hne]
              exact (ih4 j hj).2
        · subst hj
          constructor
          · rw [getD_set_self _ _ _ _ (by omega)]
          · rw [hsegid, getD_set_self _ _ _ _ (by omega)]

/-- C10: the utilization bookkeeping invariant — every segment's recorded
utilization equals the sum of the (ceiled) widths of the cells in its
cell list.  It is (re)established by `removeAllCellsFromSegments` and by
the per-segment recomputation of `resortSegment`, and preserved by every
successful `addCellToSegment`, `removeCellFromSegment` and `acceptMove`.
-/
theorem spec2proof_c10 (st : DMState)
    (hlen : st.cellsInSeg.length = st.segs.length)
    (hids : SegIdsOk st) (hinv : UtilInv st) :
    UtilInv (removeAllCellsFromSegments st) ∧
    (∀ i, i < st.segs.length → UtilInv (resortSegment st i)) ∧
    (∀ (ndId sg : Nat) (st' : DMState),
      addCellToSegment st ndId sg = .ok st' → UtilInv st') ∧
    (∀ (ndId sg : Nat) (st' : DMState),
      removeCellFromSegment st ndId sg = .ok st' → UtilInv st') ∧
    (∀ st' : DMState, acceptMove st = .ok st' → UtilInv st') := by
  refine ⟨?_, ?_, ?_, ?_, ?_⟩
  · obtain ⟨h1, h2, h3, h4⟩ := removeAll_aux st hlen hids
      st.segs.length (le_refl _)
    constructor
    · simp only [removeAllCellsFromSegments]
      rw [h1, h2, hlen]
    · intro i hi
      simp only [removeAllCellsFromSegments] at hi ⊢
      rw [h1] at hi
      have h5 := h4 i hi
      rw [h5.1, h5.2]
      rfl
  · intro i hi
    obtain ⟨hl2, hutil⟩ := hinv
    have hseg : (st.segs.getD i default).segId = i := hids i hi
    refine ⟨?_, ?_⟩
    · show (st.cellsInSeg.set _ _).length = (st.segs.set _ _).length
      simp [hlen]
    · intro j hj
      simp only [resortSegment, DMState.getNode] at hj ⊢
      rw [List.length_set] at hj
      rw [hseg]
      by_cases hij : i = j
      · subst hij
        rw [getD_set_self _ _ _ _ hi, getD_set_self _ _ _ _ (by omega)]
        exact (((List.perm_insertionSort
          (fun a b =>
            (st.getNode a).centerTwice ≤ (st.getNode b).centerTwice)
          (st.cellsInSeg.getD i [])).map
          (fun c => (st.nodes.getD c default).widthCeil)).sum_eq).symm
      · rw [getD_set_ne _ _ _ _ _ hij, getD_set_ne _ _ _ _ _ hij]
        exact hutil j hj
  · intro ndId sg st' h
    exact utilInv_add st ndId sg st' hinv h
  · intro ndId sg st' h
    exact utilInv_remove st ndId sg st' hinv h
  · intro st' h
    exact utilInv_acceptFold st.moves st st' h hinv

theorem spec2proof_c10_witness :
    (exStateU.cellsInSeg.length = exStateU.segs.length ∧
     SegIdsOk exStateU ∧ UtilInv exStateU) ∧
    UtilInv (removeAllCellsFromSegments exStateU) ∧
    UtilInv (resortSegment exStateU 0) :=
  ⟨⟨by decide, by decide, by decide⟩,
   (spec2proof_c10 exStateU (by decide) (by decide) (by decide)).1,
   (spec2proof_c10 exStateU (by decide) (by decide) (by decide)).2.1 0
     (by decide)⟩

theorem fcsHori_nonneg (nd : Node) (seg : DetailedSeg) :
    0 ≤ fcsHori nd seg := by
  simp only [fcsHori]
  exact le_max_left 0 _

theorem minv1_keep_nomatch (nd : Node) (v : ℤ) (seg : DetailedSeg)
    (items : List (ℤ × DetailedSeg)) (best : Option DetailedSeg)
    (dist : Option ℤ) (h : MInv1 nd items best dist)
    (hreg : nd.regionId ≠ seg.regId) :
    MInv1 nd (items ++ [(v, seg)]) best dist := by
  rcases h with ⟨e1, e2, e3⟩ | ⟨b, d, e1, e2, e3, e4⟩
  · left
    refine ⟨e1, e2, ?_⟩
    intro p hp
    rcases List.mem_append.mp hp with hp | hp
    · exact e3 p hp
    · rw [List.mem_singleton.mp hp]
      exact hreg
  · right
    refine ⟨b, d, e1, e2, ?_, ?_⟩
    · obtain ⟨v0, hv1, hv2, hv3⟩ := e3
      exact ⟨v0, List.mem_append.mpr (Or.inl hv1), hv2, hv3⟩
    · intro p hp hpr
      rcases List.mem_append.mp hp with hp | hp
      · exact e4 p hp hpr
      · rw [List.mem_singleton.mp hp] at hpr ⊢
        exact absurd hpr hreg

theorem minv1_keep_ge (nd : Node) (v : ℤ) (seg : DetailedSeg)
    (items : List (ℤ × DetailedSeg)) (best : Option DetailedSeg)
    (dist : Option ℤ) (h : MInv1 nd items best dist) (d0 : ℤ)
    (hd : dist = some d0) (hge : d0 ≤ fcsHori nd seg + v) :
    MInv1 nd (items ++ [(v, seg)]) best dist := by
  rcases h with ⟨e1, e2, e3⟩ | ⟨b, d, e1, e2, e3, e4⟩
  · rw [e2] at hd
    cases hd
  · right
    rw [e2] at hd
    cases hd
    refine ⟨b, d0, e1, e2, ?_, ?_⟩
    · obtain ⟨v0, hv1, hv2, hv3⟩ := e3
      exact ⟨v0, List.mem_append.mpr (Or.inl hv1), hv2, hv3⟩
    · intro p hp hpr
      rcases List.mem_append.mp hp with hp | hp
      · exact e4 p hp hpr
      · rw [List.mem_singleton.mp hp]
        exact hge

theorem minv1_update (nd : Node) (v : ℤ) (seg : DetailedSeg)
    (items : List (ℤ × DetailedSeg)) (best : Option DetailedSeg)
    (dist : Option ℤ) (h : MInv1 nd items best dist)
    (hreg : nd.regionId = seg.regId)
    (hcase : best = none ∨
      ∃ d0, dist = some d0 ∧ fcsHori nd seg + v < d0) :
    MInv1 nd (items ++ [(v, seg)]) (some seg)
      (some (fcsHori nd seg + v)) := by
  right
  refine ⟨seg, fcsHori nd seg + v, rfl, rfl,
    ⟨v, List.mem_append.mpr (Or.inr (List.mem_singleton.mpr rfl)),
      hreg, rfl⟩, ?_⟩
  intro p hp hpr
  rcases List.mem_append.mp hp with hp | hp
  · rcases h with ⟨e1, e2, e3⟩ | ⟨b, d, e1, e2, e3, e4⟩
    · exact absurd hpr (e3 p hp)
    · rcases hcase with hc | ⟨d0, hc1, hc2⟩
      · rw [e1] at hc
        cases hc
      · rw [e2] at hc1
        cases hc1
        exact le_of_lt (lt_of_lt_of_le hc2 (e4 p hp hpr))
  · rw [List.mem_singleton.mp hp]

theorem minv2_keep_nomatch (nd : Node) (v : ℤ) (seg : DetailedSeg)
    (items : List (ℤ × DetailedSeg)) (best : Option DetailedSeg)
    (dist : Option ℤ) (h : MInv2 nd items best dist)
    (hreg : nd.regionId ≠ seg.regId) :
    MInv2 nd (items ++ [(v, seg)]) best dist := by
  rcases h with ⟨e1, e2, e3⟩ | ⟨b, d, e1, e2, e3, e4⟩
  · left
    refine ⟨e1, e2, ?_⟩
    intro p hp hpr
    rcases List.mem_append.mp hp with hp | hp
    · exact e3 p hp hpr
    · rw [List.mem_singleton.mp hp] at hpr
      exact absurd hpr hreg
  · right
    refine ⟨b, d, e1, e2, ?_, ?_⟩
    · obtain ⟨v0, hv1, hv2, hv3, hv4⟩ := e3
      exact ⟨v0, List.mem_append.mpr (Or.inl hv1), hv2, hv3, hv4⟩
    · intro p hp hpr hpf
      rcases List.mem_append.mp hp with hp | hp
      · exact e4 p hp hpr hpf
      · rw [List.mem_singleton.mp hp] at hpr
        exact absurd hpr hreg

theorem minv2_keep_nofits (nd : Node) (v : ℤ) (seg : DetailedSeg)
    (items : List (ℤ × DetailedSeg)) (best : Option DetailedSeg)
    (dist : Option ℤ) (h : MInv2 nd items best dist)
    (hf : fcsFits nd seg = false) :
    MInv2 nd (items ++ [(v, seg)]) best dist := by
  rcases h with ⟨e1, e2, e3⟩ | ⟨b, d, e1, e2, e3, e4⟩
  · left
    refine ⟨e1, e2, ?_⟩
    intro p hp hpr
    rcases List.mem_append.mp hp with hp | hp
    · exact e3 p hp hpr
    · rw [List.mem_singleton.mp hp]
      exact hf
  · right
    refine ⟨b, d, e1, e2, ?_, ?_⟩
    · obtain ⟨v0, hv1, hv2, hv3, hv4⟩ := e3
      exact ⟨v0, List.mem_append.mpr (Or.inl hv1), hv2, hv3, hv4⟩
    · intro p hp hpr hpf
      rcases List.mem_append.mp hp with hp | hp
      · exact e4 p hp hpr hpf
      · rw [List.mem_singleton.mp hp] at hpf
        rw [hf] at hpf
        cases hpf

theorem minv2_keep_ge (nd : Node) (v : ℤ) (seg : DetailedSeg)
    (items : List (ℤ × DetailedSeg)) (best : Option DetailedSeg)
    (dist : Option ℤ) (h : MInv2 nd items best dist) (d0 : ℤ)
    (hd : dist = some d0) (hge : d0 ≤ fcsHori nd seg + v) :
    MInv2 nd (items ++ [(v, seg)]) best dist := by
  rcases h with ⟨e1, e2, e3⟩ | ⟨b, d, e1, e2, e3, e4⟩
  · rw [e2] at hd
    cases hd
  · right
    rw [e2] at hd
    cases hd
    refine ⟨b, d0, e1, e2, ?_, ?_⟩
    · obtain ⟨v0, hv1, hv2, hv3, hv4⟩ := e3
      exact ⟨v0, List.mem_append.mpr (Or.inl hv1), hv2, hv3, hv4⟩
    · intro p hp hpr hpf
      rcases List.mem_append.mp hp with hp | hp
      · exact e4 p hp hpr hpf
      · rw [List.mem_singleton.mp hp]
        exact hge

theorem minv2_update (nd : Node) (v : ℤ) (seg : DetailedSeg)
    (items : List (ℤ × DetailedSeg)) (best : Option DetailedSeg)
    (dist : Option ℤ) (h : MInv2 nd items best dist)
    (hreg : nd.regionId = seg.regId) (hf : fcsFits nd seg = true)
    (hcase : best = none ∨
      ∃ d0, dist = some d0 ∧ fcsHori nd seg + v < d0) :
    MInv2 nd (items ++ [(v, seg)]) (some seg)
      (some (fcsHori nd seg + v)) := by
  right
  refine ⟨seg, fcsHori nd seg + v, rfl, rfl,
    ⟨v, List.mem_append.mpr (Or.inr (List.mem_singleton.mpr rfl)),
      hreg, hf, rfl⟩, ?_⟩
  intro p hp hpr hpf
  rcases List.mem_append.mp hp with hp | hp
  · rcases h with ⟨e1, e2, e3⟩ | ⟨b, d, e1, e2, e3, e4⟩
    · rw [e3 p hp hpr] at hpf
      cases hpf
    · rcases hcase with hc | ⟨d0, hc1, hc2⟩
      · rw [e1] at hc
        cases hc
      · rw [e2] at hc1
        cases hc1
        exact le_of_lt (lt_of_lt_of_le hc2 (e4 p hp hpr hpf))
  · rw [List.mem_singleton.mp hp]

theorem minv_step (nd : Node) (v : ℤ) (seg : DetailedSeg)
    (items : List (ℤ × DetailedSeg)) (st : FcsState)
    (h : MInv nd items st) :
    MInv nd (items ++ [(v, seg)]) (fcsStep nd v st seg) := by
  obtain ⟨h1, h2⟩ := h
  simp only [fcsStep]
  by_cases hreg : nd.regionId = seg.regId
  · rw [if_neg (fun hh => hh hreg)]
    split
    next hcond1 =>
      split
      next hcond2 =>
        obtain ⟨hf, hcond2b⟩ := hcond2
        constructor
        · rcases h1 with ⟨e1, e2, e3⟩ | ⟨b, d, e1, e2, e3, e4⟩
          · exact minv1_update nd v seg items _ _ (Or.inl ⟨e1, e2, e3⟩)
              hreg (Or.inl e1)
          · rcases hcond1 with hno | ⟨hsome, hlt⟩
            · simp [e1] at hno
            · rw [e2] at hlt
              simp only [oltD, decide_eq_true_eq] at hlt
              exact minv1_update nd v seg items _ _
                (Or.inr ⟨b, d, e1, e2, e3, e4⟩) hreg
                (Or.inr ⟨d, e2, hlt⟩)
        · rcases h2 with ⟨f1, f2, f3⟩ | ⟨b2, d2, f1, f2, f3, f4⟩
          · exact minv2_update nd v seg items _ _ (Or.inl ⟨f1, f2, f3⟩)
              hreg hf (Or.inl f1)
          · rcases hcond2b with hno | ⟨hsome, hlt⟩
            · simp [f1] at hno
            · rw [f2] at hlt
              simp only [oltD, decide_eq_true_eq] at hlt
              exact minv2_update nd v seg items _ _
                (Or.inr ⟨b2, d2, f1, f2, f3, f4⟩) hreg hf
                (Or.inr ⟨d2, f2, hlt⟩)
      next hcond2 =>
        constructor
        · rcases h1 with ⟨e1, e2, e3⟩ | ⟨b, d, e1, e2, e3, e4⟩
          · exact minv1_update nd v seg items _ _ (Or.inl ⟨e1, e2, e3⟩)
              hreg (Or.inl e1)
          · rcases hcond1 with hno | ⟨hsome, hlt⟩
            · simp [e1] at hno
            · rw [e2] at hlt
              simp only [oltD, decide_eq_true_eq] at hlt
              exact minv1_update nd v seg items _ _
                (Or.inr ⟨b, d, e1, e2, e3, e4⟩) hreg
                (Or.inr ⟨d, e2, hlt⟩)
        · rcases h2 with ⟨f1, f2, f3⟩ | ⟨b2, d2, f1, f2, f3, f4⟩
          · have hf : fcsFits nd seg = false := by
              simp [f1] at hcond2
              exact hcond2
            exact minv2_keep_nofits nd v seg items _ _
              (Or.inl ⟨f1, f2, f3⟩) hf
          · by_cases hf : fcsFits nd seg = true
            · have hge : d2 ≤ fcsHori nd seg + v := by
                simp [hf, f1, f2, oltD] at hcond2
                omega
              exact minv2_keep_ge nd v seg items _ _
                (Or.inr ⟨b2, d2, f1, f2, f3, f4⟩) d2 f2 hge
            · exact minv2_keep_nofits nd v seg items _ _
                (Or.inr ⟨b2, d2, f1, f2, f3, f4⟩) (by simpa using hf)
    next hcond1 =>
      split
      next hcond2 =>
        obtain ⟨hf, hcond2b⟩ := hcond2
        constructor
        · rcases h1 with ⟨e1, e2, e3⟩ | ⟨b, d, e1, e2, e3, e4⟩
          · simp [e1] at hcond1
          · have hge : d ≤ fcsHori nd seg + v := by
              simp [e1, e2, oltD] at hcond1
              omega
            exact minv1_keep_ge nd v seg items _ _
              (Or.inr ⟨b, d, e1, e2, e3, e4⟩) d e2 hge
        · rcases h2 with ⟨f1, f2, f3⟩ | ⟨b2, d2, f1, f2, f3, f4⟩
          · exact minv2_update nd v seg items _ _ (Or.inl ⟨f1, f2, f3⟩)
              hreg hf (Or.inl f1)
          · rcases hcond2b with hno | ⟨hsome, hlt⟩
            · simp [f1] at hno
            · rw [f2] at hlt
              simp only [oltD, decide_eq_true_eq] at hlt
              exact minv2_update nd v seg items _ _
                (Or.inr ⟨b2, d2, f1, f2, f3, f4⟩) hreg hf
                (Or.inr ⟨d2, f2, hlt⟩)
      next hcond2 =>
        constructor
        · rcases h1 with ⟨e1, e2, e3⟩ | ⟨b, d, e1, e2, e3, e4⟩
          · simp [e1] at hcond1
          · have hge : d ≤ fcsHori nd seg + v := by
              simp [e1, e2, oltD] at hcond1
              omega
            exact minv1_keep_ge nd v seg items _ _
              (Or.inr ⟨b, d, e1, e2, e3, e4⟩) d e2 hge
        · rcases h2 with ⟨f1, f2, f3⟩ | ⟨b2, d2, f1, f2, f3, f4⟩
          · have hf : fcsFits nd seg = false := by
              simp [f1] at hcond2
              exact hcond2
            exact minv2_keep_nofits nd v seg items _ _
              (Or.inl ⟨f1, f2, f3⟩) hf
          · by_cases hf : fcsFits nd seg = true
            · have hge : d2 ≤ fcsHori nd seg + v := by
                simp [hf, f1, f2, oltD] at hcond2
                omega
              exact minv2_keep_ge nd v seg items _ _
                (Or.inr ⟨b2, d2, f1, f2, f3, f4⟩) d2 f2 hge
            · exact minv2_keep_nofits nd v seg items _ _
                (Or.inr ⟨b2, d2, f1, f2, f3, f4⟩) (by simpa using hf)
  · rw [if_pos hreg]
    exact ⟨minv1_keep_nomatch nd v seg items _ _ h1 hreg,
      minv2_keep_nomatch nd v seg items _ _ h2 hreg⟩

theorem fcsStep_noop (nd : Node) (v : ℤ) (seg : DetailedSeg)
    (b1 b2 : DetailedSeg) (d1 d2 : ℤ) (hd1 : d1 < v) (hd2 : d2 < v) :
    fcsStep nd v ⟨some b1, some d1, some b2, some d2⟩ seg =
      ⟨some b1, some d1, some b2, some d2⟩ := by
  simp only [fcsStep]
  by_cases hreg : nd.regionId = seg.regId
  · rw [if_neg (fun hh => hh hreg)]
    have hge1 : ¬ (fcsHori nd seg + v < d1) := by
      have := fcsHori_nonneg nd seg
      omega
    have hge2 : ¬ (fcsHori nd seg + v < d2) := by
      have := fcsHori_nonneg nd seg
      omega
    rw [if_neg (by
      simp [oltD]
      intro _
      constructor
      · split <;> simp
      · intro _
        omega)]
    rw [if_neg (by
      simp [oltD]
      omega)]
  · rw [if_pos hreg]

theorem fcsScanRow_noop (nd : Node) (v : ℤ)
    (b1 b2 : DetailedSeg) (d1 d2 : ℤ) (hd1 : d1 < v) (hd2 : d2 < v) :
    ∀ row : List DetailedSeg,
    fcsScanRow nd v row ⟨some b1, some d1, some b2, some d2⟩ =
      ⟨some b1, some d1, some b2, some d2⟩ := by
  intro row
  induction row with
  | nil => rfl
  | cons s rest ih =>
      simp only [fcsScanRow, List.foldl_cons] at *
      rw [fcsStep_noop nd v s b1 b2 d1 d2 hd1 hd2]
      exact ih

theorem minv_scan (nd : Node) (v : ℤ) :
    ∀ (row : List DetailedSeg) (items : List (ℤ × DetailedSeg))
      (st : FcsState), MInv nd items st →
    MInv nd (items ++ row.map (fun s => (v, s)))
      (fcsScanRow nd v row st) := by
  intro row
  induction row with
  | nil =>
      intro items st h
      simpa using h
  | cons s rest ih =>
      intro items st h
      have hstep := minv_step nd v s items st h
      have hrest := ih (items ++ [(v, s)]) (fcsStep nd v st s) hstep
      rw [List.append_assoc] at hrest
      simpa [fcsScanRow] using hrest

theorem fcsScanRow_noop_minv (nd : Node) (v : ℤ)
    (row : List DetailedSeg) (items : List (ℤ × DetailedSeg))
    (st : FcsState) (h : MInv nd items st)
    (h1 : oleD v st.dist1 = false) (h2 : oleD v st.dist2 = false) :
    fcsScanRow nd v row st = st := by
  obtain ⟨sb1, sd1, sb2, sd2⟩ := st
  obtain ⟨hm1, hm2⟩ := h
  cases sd1 with
  | none => simp [oleD] at h1
  | some d1 =>
    cases sd2 with
    | none => simp [oleD] at h2
    | some d2 =>
      simp only [oleD, decide_eq_false_iff_not, not_le] at h1 h2
      rcases hm1 with ⟨e1, e2, _⟩ | ⟨b, d, e1, e2, _, _⟩
      · exact Option.noConfusion e2
      · rcases hm2 with ⟨f1, f2, _⟩ | ⟨b2, d2', f1, f2, _, _⟩
        · exact Option.noConfusion f2
        · have hb1 : sb1 = some b := e1
          have hb2 : sb2 = some b2 := f1
          subst hb1
          subst hb2
          exact fcsScanRow_noop nd v b b2 d1 d2 h1 h2 row

theorem fcs_offstep_spec (nd : Node) (rows : List (List DetailedSeg))
    (rowH : ℤ) (row0 off1 : Nat) (items : List (ℤ × DetailedSeg))
    (st : FcsState) (h : MInv nd items st) :
    fcsOffStep nd rows rowH row0 true st off1 =
      fcsOffStep nd rows rowH row0 false st off1 ∧
    MInv nd (items ++ fcsOffItems rows rowH row0 off1)
      (fcsOffStep nd rows rowH row0 false st off1) := by
  have htr : ¬((false : Bool) = true) := by simp
  have htt : ¬¬True := fun hh => hh trivial
  simp only [fcsOffStep, fcsOffItems]
  by_cases gb : off1 + 1 ≤ row0
  · simp only [if_pos gb]
    by_cases hpr : (oleD (((off1 + 1 : Nat) : ℤ) * rowH) st.dist1 = true ∨
        oleD (((off1 + 1 : Nat) : ℤ) * rowH) st.dist2 = true)
    · rw [if_pos (Or.inr hpr), if_pos (Or.inl htr)]
      have hSb := minv_scan nd (((off1 + 1 : Nat) : ℤ) * rowH)
        (rows.getD (row0 - (off1 + 1)) []) items st h
      by_cases ga : row0 + (off1 + 1) ≤ rows.length - 1
      · simp only [if_pos ga]
        by_cases hpr2 : (oleD (((off1 + 1 : Nat) : ℤ) * rowH)
            (fcsScanRow nd (((off1 + 1 : Nat) : ℤ) * rowH)
              (rows.getD (row0 - (off1 + 1)) []) st).dist1 = true ∨
            oleD (((off1 + 1 : Nat) : ℤ) * rowH)
            (fcsScanRow nd (((off1 + 1 : Nat) : ℤ) * rowH)
              (rows.getD (row0 - (off1 + 1)) []) st).dist2 = true)
        · rw [if_pos (Or.inr hpr2), if_pos (Or.inl htr)]
          have hSa := minv_scan nd (((off1 + 1 : Nat) : ℤ) * rowH)
            (rows.getD (row0 + (off1 + 1)) []) _ _ hSb
          rw [List.append_assoc] at hSa
          exact ⟨by trivial, hSa⟩
        · rw [if_neg (not_or.mpr ⟨htt, hpr2⟩),
            if_pos (Or.inl htr)]
          have hno := fcsScanRow_noop_minv nd
            (((off1 + 1 : Nat) : ℤ) * rowH)
            (rows.getD (row0 + (off1 + 1)) []) _ _ hSb
            (by simpa using (not_or.mp hpr2).1)
            (by simpa using (not_or.mp hpr2).2)
          rw [hno]
          have hSa := minv_scan nd (((off1 + 1 : Nat) : ℤ) * rowH)
            (rows.getD (row0 + (off1 + 1)) []) _ _ hSb
          rw [List.append_assoc] at hSa
          rw [hno] at hSa
          exact ⟨by trivial, hSa⟩
      · simp only [if_neg ga]
        rw [List.append_nil]
        exact ⟨by trivial, hSb⟩
    · rw [if_neg (not_or.mpr ⟨htt, hpr⟩), if_pos (Or.inl htr)]
      have hno := fcsScanRow_noop_minv nd (((off1 + 1 : Nat) : ℤ) * rowH)
        (rows.getD (row0 - (off1 + 1)) []) items st h
        (by simpa using (not_or.mp hpr).1)
        (by simpa using (not_or.mp hpr).2)
      rw [hno]
      have hSb := minv_scan nd (((off1 + 1 : Nat) : ℤ) * rowH)
        (rows.getD (row0 - (off1 + 1)) []) items st h
      rw [hno] at hSb
      by_cases ga : row0 + (off1 + 1) ≤ rows.length - 1
      · simp only [if_pos ga]
        by_cases hpr2 : (oleD (((off1 + 1 : Nat) : ℤ) * rowH) st.dist1 =
            true ∨
            oleD (((off1 + 1 : Nat) : ℤ) * rowH) st.dist2 = true)
        · rw [if_pos (Or.inr hpr2), if_pos (Or.inl htr)]
          have hSa := minv_scan nd (((off1 + 1 : Nat) : ℤ) * rowH)
            (rows.getD (row0 + (off1 + 1)) []) _ _ hSb
          rw [List.append_assoc] at hSa
          exact ⟨by trivial, hSa⟩
        · rw [if_neg (not_or.mpr ⟨htt, hpr2⟩),
            if_pos (Or.inl htr)]
          have hno2 := fcsScanRow_noop_minv nd
            (((off1 + 1 : Nat) : ℤ) * rowH)
            (rows.getD (row0 + (off1 + 1)) []) _ _ hSb
            (by simpa using (not_or.mp hpr2).1)
            (by simpa using (not_or.mp hpr2).2)
          rw [hno2]
          have hSa := minv_scan nd (((off1 + 1 : Nat) : ℤ) * rowH)
            (rows.getD (row0 + (off1 + 1)) []) _ _ hSb
          rw [List.append_assoc] at hSa
          rw [hno2] at hSa
          exact ⟨by trivial, hSa⟩
      · simp only [if_neg ga]
        rw [List.append_nil]
        exact ⟨by trivial, hSb⟩
  · simp only [if_neg gb]
    rw [List.nil_append]
    by_cases ga : row0 + (off1 + 1) ≤ rows.length - 1
    · simp only [if_pos ga]
      by_cases hpr2 : (oleD (((off1 + 1 : Nat) : ℤ) * rowH) st.dist1 =
          true ∨
          oleD (((off1 + 1 : Nat) : ℤ) * rowH) st.dist2 = true)
      · rw [if_pos (Or.inr hpr2), if_pos (Or.inl htr)]
        exact ⟨by trivial, minv_scan nd (((off1 + 1 : Nat) : ℤ) * rowH)
          (rows.getD (row0 + (off1 + 1)) []) items st h⟩
      · rw [if_neg (not_or.mpr ⟨htt, hpr2⟩),
          if_pos (Or.inl htr)]
        have hno2 := fcsScanRow_noop_minv nd
          (((off1 + 1 : Nat) : ℤ) * rowH)
          (rows.getD (row0 + (off1 + 1)) []) items st h
          (by simpa using (not_or.mp hpr2).1)
          (by simpa using (not_or.mp hpr2).2)
        rw [hno2]
        have hSa := minv_scan nd (((off1 + 1 : Nat) : ℤ) * rowH)
          (rows.getD (row0 + (off1 + 1)) []) items st h
        rw [hno2] at hSa
        exact ⟨by trivial, hSa⟩
    · simp only [if_neg ga]
      rw [List.append_nil]
      exact ⟨by trivial, h⟩

theorem fcs_fold_spec (nd : Node) (rows : List (List DetailedSeg))
    (rowH : ℤ) (row0 : Nat) :
    ∀ (l : List Nat) (items : List (ℤ × DetailedSeg)) (st : FcsState),
    MInv nd items st →
    l.foldl (fcsOffStep nd rows rowH row0 true) st =
      l.foldl (fcsOffStep nd rows rowH row0 false) st ∧
    MInv nd (items ++ l.flatMap (fcsOffItems rows rowH row0))
      (l.foldl (fcsOffStep nd rows rowH row0 false) st) := by
  intro l
  induction l with
  | nil =>
      intro items st h
      exact ⟨rfl, by simpa using h⟩
  | cons off1 rest ih =>
      intro items st h
      obtain ⟨heq, hminv⟩ := fcs_offstep_spec nd rows rowH row0 off1 items st h
      simp only [List.foldl_cons, List.flatMap_cons]
      rw [heq]
      obtain ⟨heq2, hminv2⟩ :=
        ih (items ++ fcsOffItems rows rowH row0 off1)
          (fcsOffStep nd rows rowH row0 false st off1) hminv
      rw [List.append_assoc] at hminv2
      exact ⟨heq2, hminv2⟩

theorem fcsSearch_spec (nd : Node) (rows : List (List DetailedSeg))
    (rowH : ℤ) (row0 : Nat) :
    fcsSearch nd rows rowH row0 true = fcsSearch nd rows rowH row0 false ∧
    MInv nd (fcsItems rows rowH row0)
      (fcsSearch nd rows rowH row0 false) := by
  have hinit : MInv nd ([] : List (ℤ × DetailedSeg))
      ⟨none, none, none, none⟩ :=
    ⟨Or.inl ⟨rfl, rfl, fun p hp => absurd hp (List.not_mem_nil p)⟩,
     Or.inl ⟨rfl, rfl, fun p hp => absurd hp (List.not_mem_nil p)⟩⟩
  have h0 := minv_scan nd 0 (rows.getD row0 []) [] _ hinit
  rw [List.nil_append] at h0
  obtain ⟨heq, hminv⟩ := fcs_fold_spec nd rows rowH row0
    (List.range rows.length) _ _ h0
  simp only [fcsSearch]
  exact ⟨heq, hminv⟩

theorem fcsItems_mem (rows : List (List DetailedSeg)) (rowH : ℤ)
    (row0 : Nat) (hrow0 : row0 < rows.length) (v : ℤ) (s : DetailedSeg) :
    (v, s) ∈ fcsItems rows rowH row0 ↔
      ∃ r, r < rows.length ∧ s ∈ rows.getD r [] ∧
        v = fcsVert rowH row0 r := by
  constructor
  · intro hmem
    rcases List.mem_append.mp hmem with hmem | hmem
    · obtain ⟨s', hs', heq⟩ := List.mem_map.mp hmem
      injection heq with h1 h2
      refine ⟨row0, hrow0, by rw [← h2]; exact hs', ?_⟩
      rw [← h1]
      simp [fcsVert]
    · obtain ⟨off1, hoff1, hmem2⟩ := List.mem_flatMap.mp hmem
      simp only [fcsOffItems] at hmem2
      rcases List.mem_append.mp hmem2 with hmem2 | hmem2
      · by_cases gb : off1 + 1 ≤ row0
        · rw [if_pos gb] at hmem2
          obtain ⟨s', hs', heq⟩ := List.mem_map.mp hmem2
          injection heq with h1 h2
          refine ⟨row0 - (off1 + 1), by omega, by rw [← h2]; exact hs', ?_⟩
          rw [← h1]
          simp only [fcsVert]
          rw [show ((row0 - (off1 + 1) : Nat) : ℤ) - (row0 : ℤ) =
            -(((off1 + 1 : Nat) : ℤ)) by omega]
          rw [abs_neg, abs_of_nonneg (by positivity)]
        · rw [if_neg gb] at hmem2
          cases hmem2
      · by_cases ga : row0 + (off1 + 1) ≤ rows.length - 1
        · rw [if_pos ga] at hmem2
          obtain ⟨s', hs', heq⟩ := List.mem_map.mp hmem2
          injection heq with h1 h2
          refine ⟨row0 + (off1 + 1), by omega, by rw [← h2]; exact hs', ?_⟩
          rw [← h1]
          simp only [fcsVert]
          rw [show ((row0 + (off1 + 1) : Nat) : ℤ) - (row0 : ℤ) =
            ((off1 + 1 : Nat) : ℤ) by omega]
          rw [abs_of_nonneg (by positivity)]
        · rw [if_neg ga] at hmem2
          cases hmem2
  · rintro ⟨r, hr, hs, hv⟩
    rcases Nat.lt_trichotomy r row0 with hlt | hE | hgt
    · apply List.mem_append.mpr
      right
      apply List.mem_flatMap.mpr
      refine ⟨row0 - r - 1, List.mem_range.mpr (by omega), ?_⟩
      simp only [fcsOffItems]
      apply List.mem_append.mpr
      left
      rw [if_pos (by omega)]
      apply List.mem_map.mpr
      refine ⟨s, ?_, ?_⟩
      · rw [show row0 - (row0 - r - 1 + 1) = r by omega]
        exact hs
      · have hcast : ((row0 - r - 1 + 1 : Nat) : ℤ) =
            |(r : ℤ) - (row0 : ℤ)| := by
          rw [abs_of_nonpos (by omega : (r : ℤ) - (row0 : ℤ) ≤ 0)]
          omega
        rw [hv]
        simp only [fcsVert]
        rw [hcast]
    · apply List.mem_append.mpr
      left
      apply List.mem_map.mpr
      subst hE
      refine ⟨s, hs, ?_⟩
      rw [hv]
      simp [fcsVert]
    · apply List.mem_append.mpr
      right
      apply List.mem_flatMap.mpr
      refine ⟨r - row0 - 1, List.mem_range.mpr (by omega), ?_⟩
      simp only [fcsOffItems]
      apply List.mem_append.mpr
      right
      rw [if_pos (by omega)]
      apply List.mem_map.mpr
      refine ⟨s, ?_, ?_⟩
      · rw [show row0 + (r - row0 - 1 + 1) = r by omega]
        exact hs
      · have hcast : ((r - row0 - 1 + 1 : Nat) : ℤ) =
            |(r : ℤ) - (row0 : ℤ)| := by
          rw [abs_of_nonneg (by omega : (0 : ℤ) ≤ (r : ℤ) - (row0 : ℤ))]
          omega
        rw [hv]
        simp only [fcsVert]
        rw [hcast]

/-- C4: for a single-height cell, `findClosestSegment` only ever selects
region-matching segments; it returns a minimizer of
`|Δx| + |Δy|` (clamped horizontal distance plus stacked-row vertical
distance) among the region-matching segments wide enough for the cell
when any exists, otherwise among all region-matching segments, and
`none` exactly when no region-matching segment exists; the pruned
outward row scan returns the same result as the exhaustive scan. -/
theorem spec2proof_c4 (arch : Architecture) (st : DMState) (nd : Node)
    (row0 : Nat) (hrow0 : row0 < (segRowsOf st).length) :
    findClosestSegment arch st nd row0 =
      findClosestSegmentExhaustive arch st nd row0 ∧
    (findClosestSegment arch st nd row0 = none ↔
      ∀ r s, ¬ MatchAt nd (segRowsOf st) r s) ∧
    (∀ b, findClosestSegment arch st nd row0 = some b →
      ∃ r, MatchAt nd (segRowsOf st) r b ∧
        ((fcsFits nd b = true ∧
          ∀ r' s, MatchAt nd (segRowsOf st) r' s → fcsFits nd s = true →
            fcsHori nd b + fcsVert arch.singleRowHeight row0 r ≤
              fcsHori nd s + fcsVert arch.singleRowHeight row0 r') ∨
         ((∀ r' s, MatchAt nd (segRowsOf st) r' s →
            fcsFits nd s = false) ∧
          ∀ r' s, MatchAt nd (segRowsOf st) r' s →
            fcsHori nd b + fcsVert arch.singleRowHeight row0 r ≤
              fcsHori nd s + fcsVert arch.singleRowHeight row0 r'))) := by
  obtain ⟨heq, hminv⟩ := fcsSearch_spec nd (segRowsOf st)
    arch.singleRowHeight row0
  have hfind : findClosestSegment arch st nd row0 =
      findClosestSegmentExhaustive arch st nd row0 := by
    simp only [findClosestSegment, findClosestSegmentExhaustive]
    rw [heq]
  obtain ⟨hm1, hm2⟩ := hminv
  have hmemiff := fun (v : ℤ) (s : DetailedSeg) =>
    fcsItems_mem (segRowsOf st) arch.singleRowHeight row0 hrow0 v s
  refine ⟨hfind, ?_⟩
  rcases hm2 with ⟨f1, f2, f3⟩ | ⟨b2, d2, f1, f2, f3, f4⟩
  · rcases hm1 with ⟨e1, e2, e3⟩ | ⟨b1, d1, e1, e2, e3, e4⟩
    · have hres : findClosestSegment arch st nd row0 = none := by
        rw [hfind]
        simp only [findClosestSegmentExhaustive]
        rw [f1]
        exact e1
      constructor
      · rw [hres]
        refine iff_of_true rfl ?_
        rintro r s ⟨hr, hsr, hreg⟩
        exact absurd hreg
          (e3 (fcsVert arch.singleRowHeight row0 r, s)
            ((hmemiff _ s).mpr ⟨r, hr, hsr, rfl⟩))
      · intro b hb
        rw [hres] at hb
        cases hb
    · have hres : findClosestSegment arch st nd row0 = some b1 := by
        rw [hfind]
        simp only [findClosestSegmentExhaustive]
        rw [f1]
        exact e1
      obtain ⟨v0, hv0mem, hreg0, hd0⟩ := e3
      obtain ⟨r0, hr0, hsr0, hvr0⟩ := (hmemiff v0 b1).mp hv0mem
      constructor
      · rw [hres]
        refine iff_of_false (by simp) ?_
        intro hall
        exact hall r0 b1 ⟨hr0, hsr0, hreg0⟩
      · intro b hb
        rw [hres] at hb
        injection hb with hb
        subst hb
        refine ⟨r0, ⟨hr0, hsr0, hreg0⟩, Or.inr ⟨?_, ?_⟩⟩
        · rintro r' s ⟨hr', hsr', hreg'⟩
          exact f3 (fcsVert arch.singleRowHeight row0 r', s)
            ((hmemiff _ s).mpr ⟨r', hr', hsr', rfl⟩) hreg'
        · rintro r' s ⟨hr', hsr', hreg'⟩
          have hbnd := e4 (fcsVert arch.singleRowHeight row0 r', s)
            ((hmemiff _ s).mpr ⟨r', hr', hsr', rfl⟩) hreg'
          rw [← hvr0, ← hd0]
          exact hbnd
  · have hres : findClosestSegment arch st nd row0 = some b2 := by
      rw [hfind]
      simp only [findClosestSegmentExhaustive]
      rw [f1]
    obtain ⟨v0, hv0mem, hreg0, hfits0, hd0⟩ := f3
    obtain ⟨r0, hr0, hsr0, hvr0⟩ := (hmemiff v0 b2).mp hv0mem
    constructor
    · rw [hres]
      refine iff_of_false (by simp) ?_
      intro hall
      exact hall r0 b2 ⟨hr0, hsr0, hreg0⟩
    · intro b hb
      rw [hres] at hb
      injection hb with hb
      subst hb
      refine ⟨r0, ⟨hr0, hsr0, hreg0⟩, Or.inl ⟨hfits0, ?_⟩⟩
      rintro r' s ⟨hr', hsr', hreg'⟩ hfits'
      have hbnd := f4 (fcsVert arch.singleRowHeight row0 r', s)
        ((hmemiff _ s).mpr ⟨r', hr', hsr', rfl⟩) hreg' hfits'
      rw [← hvr0, ← hd0]
      exact hbnd

theorem spec2proof_c4_witness :
    0 < (segRowsOf exStateC7).length ∧
    (findClosestSegment exArch3 exStateC7 exNodeS 0 =
      findClosestSegmentExhaustive exArch3 exStateC7 exNodeS 0 ∧
    (findClosestSegment exArch3 exStateC7 exNodeS 0 = none ↔
      ∀ r s, ¬ MatchAt exNodeS (segRowsOf exStateC7) r s) ∧
    (∀ b, findClosestSegment exArch3 exStateC7 exNodeS 0 = some b →
      ∃ r, MatchAt exNodeS (segRowsOf exStateC7) r b ∧
        ((fcsFits exNodeS b = true ∧
          ∀ r' s, MatchAt exNodeS (segRowsOf exStateC7) r' s →
            fcsFits exNodeS s = true →
            fcsHori exNodeS b + fcsVert exArch3.singleRowHeight 0 r ≤
              fcsHori exNodeS s + fcsVert exArch3.singleRowHeight 0 r') ∨
         ((∀ r' s, MatchAt exNodeS (segRowsOf exStateC7) r' s →
            fcsFits exNodeS s = false) ∧
          ∀ r' s, MatchAt exNodeS (segRowsOf exStateC7) r' s →
            fcsHori exNodeS b + fcsVert exArch3.singleRowHeight 0 r ≤
              fcsHori exNodeS s + fcsVert exArch3.singleRowHeight 0 r')))) :=
  ⟨by decide, spec2proof_c4 exArch3 exStateC7 exNodeS 0 (by decide)⟩

end dpo
